import Mathlib

/-!
Vowpal Wabbit: continuous-action label parsing and the csoaa reduction.

A shallow embedding of

* `vowpalwabbit/cb_continuous_label.cc` (`parse_pdf`, `parse_chosen_action`,
  `parse_label`), and
* `vowpalwabbit/reductions/csoaa.cc` (`inner_loop`, `predict_or_learn`),

followed by theorems about them.

Conventions of the embedding:

* C++ references become explicit state passing.
* `float` is `VWFloat`: NaN, the two infinities, or a rational. Comparisons
  follow IEEE 754 (every comparison with NaN is false), and the one arithmetic
  operation of the two sources, the subtraction of line 169 of `csoaa.cc`,
  rounds its exact result to binary32 (`VWFloat.round_to_float`). The loss
  functions, whose code is not part of the sources at hand, are modelled over
  exact rationals.
* `uint32_t` is `Nat` with an explicit `% 2 ^ 32` where the source can wrap.
* `THROW` becomes an error result; a base learner that throws is a base
  learner whose result carries `threw := true`, and a call of
  `predict_or_learn` ends as `returned`, `threw` or, when it reads outside a
  buffer, `undefined`.
* Helpers, constants and types whose code is not part of the sources at hand
  are parameters (`parse_primitives`, `single_learner`, `constant`) or are
  marked as modelled from the spec.
* Logging is not modelled.
-/

set_option autoImplicit false

namespace VW

/-! ## Floats -/

/-- A `float` value. -/
inductive VWFloat where
  | nan
  | ninf
  | fin (q : ℚ)
  | pinf
  deriving DecidableEq

namespace VWFloat

/-- The C++ `a < b` on floats. -/
def lt : VWFloat → VWFloat → Bool
  | ninf, fin _ => true
  | ninf, pinf => true
  | fin _, pinf => true
  | fin a, fin b => decide (a < b)
  | _, _ => false

/-- The C++ `a == b` on floats. -/
def eq : VWFloat → VWFloat → Bool
  | ninf, ninf => true
  | pinf, pinf => true
  | fin a, fin b => decide (a = b)
  | _, _ => false

/-- The C++ `a > b` on floats. -/
def gt (a b : VWFloat) : Bool := lt b a

/-- The C++ `std::isnan`. -/
def isnan : VWFloat → Bool
  | nan => true
  | _ => false

/-- The whole number nearest to the rational `x`, the even one of the two when
`x` lies halfway between them. -/
def round_half_even (x : ℚ) : ℤ :=
  let f := ⌊x⌋
  let r := x - f
  if r < 1 / 2 then f else if 1 / 2 < r then f + 1 else if f % 2 = 0 then f else f + 1

/-- The value of type `float` (IEEE-754 binary32) that a result with the exact
value `q` is rounded to: the nearest multiple of the unit in the last place
`2 ^ e`, ties to the even mantissa, where the mantissa has 24 bits and `e` is
at least -149; an infinity when the rounded value lies beyond `FLT_MAX`, which
is `(2 ^ 24 - 1) * 2 ^ 104`. -/
def round_to_float (q : ℚ) : VWFloat :=
  if q = 0 then fin 0
  else
    let a := |q|
    let e := max (-149) (Int.log 2 a - 23)
    let r := (round_half_even (a / 2 ^ e) : ℚ) * 2 ^ e
    if (2 ^ 24 - 1) * 2 ^ 104 < r then (if q < 0 then ninf else pinf)
    else fin (if q < 0 then -r else r)

/-- The C++ `a - b` on floats: NaN when an operand is NaN or the infinities
cancel, and otherwise the exact difference rounded to `float`, an infinity on
overflow. -/
def sub : VWFloat → VWFloat → VWFloat
  | nan, _ => nan
  | _, nan => nan
  | pinf, pinf => nan
  | ninf, ninf => nan
  | pinf, _ => pinf
  | ninf, _ => ninf
  | fin _, pinf => ninf
  | fin _, ninf => pinf
  | fin a, fin b => round_to_float (a - b)

/-- The value is NaN, an infinity or a whole multiple of `2 ^ (-149)`, the
smallest positive value of type `float`, as every value of type `float` is. -/
def on_float_grid : VWFloat → Bool
  | fin q => decide (2 ^ 149 % q.den = 0)
  | _ => true

/-- The literal `0.f`. -/
def zero : VWFloat := fin 0

/-- The literal `1.f`. -/
def one : VWFloat := fin 1

end VWFloat

/-- The constant `FLT_MAX` of `<cfloat>`: `(2 ^ 24 - 1) * 2 ^ 104`. -/
def FLT_MAX : VWFloat := VWFloat.fin 340282346638528859811704183484516925440

/-! ## Continuous-action labels (`cb_continuous_label.cc`) -/

/-- Modelled from the spec: the label-type marker `CA_LABEL` of
`cb_continuous_label.h`, which is not part of the sources at hand; the text
grammar and the error message of `parse_label` give its value. -/
def CA_LABEL : String := "ca"

/-- Modelled from the spec: the section keyword `PDF` of
`cb_continuous_label.h`, taken from the text grammar. -/
def PDF : String := "pdf"

/-- Modelled from the spec: the section keyword `CHOSEN_ACTION` of
`cb_continuous_label.h`, taken from the text grammar. -/
def CHOSEN_ACTION : String := "chosen_action"

namespace continuous_actions

/-- Modelled from the spec: the type `pdf_segment`, whose declaration is not
part of the sources at hand: one segment `{left, right, pdf_value}` of a
piecewise-constant density. -/
structure pdf_segment where
  left : VWFloat
  right : VWFloat
  pdf_value : VWFloat
  deriving DecidableEq

/-- Modelled from the spec: the reduction features of continuous actions, whose
declaration is not part of the sources at hand: the density and the chosen
action. -/
structure reduction_features where
  pdf : List pdf_segment
  chosen_action : VWFloat
  deriving DecidableEq

end continuous_actions

/-- The helpers of `parse_primitives.h` and `cb_continuous_label.h` that the
label parser calls and whose code is not part of the sources at hand. They are
parameters of the embedding: every theorem stated for an arbitrary
`parse_primitives` holds whatever these helpers compute. -/
structure parse_primitives where
  /-- The call `tokenize(delim, s, tokens)`: the fields of `s`. -/
  tokenize : Char → String → List String
  /-- The call `float_of_string(s, logger)`. -/
  float_of_string : String → VWFloat
  /-- The predicate `VW::continuous_actions::is_valid_pdf`. -/
  is_valid_pdf : List continuous_actions.pdf_segment → Bool

namespace cb_continuous

/-- Modelled from the spec: the type `continuous_label_elm`, whose declaration
is not part of the sources at hand: one cost entry `{action, cost, pdf_value}`,
in the order of the initialiser of line 85. -/
structure continuous_label_elm where
  action : VWFloat
  cost : VWFloat
  pdf_value : VWFloat
  deriving DecidableEq

/-- Modelled from the spec: the type `continuous_label`, whose declaration is
not part of the sources at hand: an ordered sequence of cost entries. -/
structure continuous_label where
  costs : List continuous_label_elm
  deriving DecidableEq

/-- The ways `parse_label` throws. -/
inductive parse_error where
  | first_word_not_ca
  | malformed_cost
  | nan_cost
  | nan_pdf_value
  deriving DecidableEq

end cb_continuous

open continuous_actions cb_continuous

/-- The body of the `for` loop of `parse_pdf`, over the words from the current
index on; `pdf` is `cats_reduction_features.pdf`. -/
def parse_pdf_loop (P : parse_primitives) : List String → List pdf_segment → List pdf_segment
  | [], pdf => pdf
  | w :: rest, pdf =>
    if w = CHOSEN_ACTION then pdf
    else
      let tokens := P.tokenize ':' w
      if tokens.isEmpty || tokens.length < 3 then parse_pdf_loop P rest pdf
      else
        let seg : pdf_segment :=
          { left := P.float_of_string (tokens.getD 0 "")
            right := P.float_of_string (tokens.getD 1 "")
            pdf_value := P.float_of_string (tokens.getD 2 "") }
        parse_pdf_loop P rest (pdf ++ [seg])

/-- The function `parse_pdf` (lines 30-46). -/
def parse_pdf (P : parse_primitives) (words : List String) (words_index : Nat)
    (red_features : reduction_features) : reduction_features :=
  let pdf := parse_pdf_loop P (words.drop words_index) red_features.pdf
  if !P.is_valid_pdf pdf then { red_features with pdf := [] }
  else { red_features with pdf := pdf }

/-- The `for` loop of `parse_chosen_action`, over the words from the current
index on. -/
def parse_chosen_action_loop (P : parse_primitives) :
    List String → reduction_features → reduction_features
  | [], red_features => red_features
  | w :: rest, red_features =>
    let tokens := P.tokenize ':' w
    if tokens.isEmpty || tokens.length < 1 then parse_chosen_action_loop P rest red_features
    else { red_features with chosen_action := P.float_of_string (tokens.getD 0 "") }

/-- The function `parse_chosen_action` (lines 48-59). -/
def parse_chosen_action (P : parse_primitives) (words : List String) (words_index : Nat)
    (red_features : reduction_features) : reduction_features :=
  parse_chosen_action_loop P (words.drop words_index) red_features

namespace cb_continuous

/-- Lines 85-109 of `parse_label`: the cost entry read from one word, or the
error thrown. -/
def parse_cost_word (P : parse_primitives) (w : String) :
    Except parse_error continuous_label_elm :=
  let f : continuous_label_elm := { action := VWFloat.zero, cost := FLT_MAX, pdf_value := VWFloat.zero }
  let tokens := P.tokenize ':' w
  if tokens.isEmpty || tokens.length > 4 then .error .malformed_cost
  else
    let f := { f with action := P.float_of_string (tokens.getD 0 "") }
    let f := if tokens.length > 1 then { f with cost := P.float_of_string (tokens.getD 1 "") } else f
    if f.cost.isnan then .error .nan_cost
    else
      let f := { f with pdf_value := VWFloat.zero }
      let f :=
        if tokens.length > 2 then { f with pdf_value := P.float_of_string (tokens.getD 2 "") } else f
      if f.pdf_value.isnan then .error .nan_pdf_value
      else
        let f := if f.pdf_value.lt VWFloat.zero then { f with pdf_value := VWFloat.zero } else f
        .ok f

/-- The `for` loop of `parse_label` (lines 76-113): `i` is the loop index and
`rest` the words from index `i` on. -/
def parse_label_loop (P : parse_primitives) (words : List String) :
    Nat → List String → continuous_label → reduction_features →
      Except parse_error (continuous_label × reduction_features)
  | _, [], ld, red_features => .ok (ld, red_features)
  | i, w :: rest, ld, red_features =>
    if w = PDF then
      parse_label_loop P words (i + 1) rest ld (parse_pdf P words (i + 1) red_features)
    else if w = CHOSEN_ACTION then
      parse_label_loop P words (i + 1) rest ld (parse_chosen_action P words (i + 1) red_features)
    else if words.getD (i - 1) "" = CA_LABEL then
      match parse_cost_word P w with
      | .error e => .error e
      | .ok f => parse_label_loop P words (i + 1) rest { ld with costs := ld.costs ++ [f] } red_features
    else parse_label_loop P words (i + 1) rest ld red_features

/-- The function `VW::cb_continuous::parse_label` (lines 67-114). -/
def parse_label (P : parse_primitives) (ld : continuous_label) (red_features : reduction_features)
    (words : List String) : Except parse_error (continuous_label × reduction_features) :=
  let ld := { ld with costs := [] }
  if words.isEmpty then .ok (ld, red_features)
  else if !(words.getD 0 "" = CA_LABEL) then .error .first_word_not_ca
  else parse_label_loop P words 1 (words.drop 1) ld red_features

end cb_continuous

/-! ### A concrete instance of the parse primitives -/

/-- Splits a character list at every `delim`; `cur` holds the characters of
the field being read, last one first. -/
def split_fields (delim : Char) : List Char → List Char → List (List Char)
  | [], cur => [cur.reverse]
  | c :: cs, cur =>
    if c = delim then cur.reverse :: split_fields delim cs [] else split_fields delim cs (c :: cur)

/-- Modelled from the spec: `tokenize` of `parse_primitives.h`, which is not
part of the sources at hand. The fields of `s` are the pieces between
delimiters; an empty piece is no field, so that an empty word has zero fields
(the case `tokens.empty()` of the source). -/
def text_tokenize (delim : Char) (s : String) : List String :=
  ((split_fields delim s.toList []).filter (fun f => !f.isEmpty)).map String.mk

/-- The value of a decimal digit. -/
def digit_value (c : Char) : Option Nat :=
  if c.isDigit then some (c.toNat - 48) else none

/-- The number written by a list of decimal digits, after the digits `acc`. -/
def nat_of_digits : List Char → Nat → Option Nat
  | [], acc => some acc
  | c :: cs, acc =>
    match digit_value c with
    | none => none
    | some d => nat_of_digits cs (10 * acc + d)

/-- The value of an unsigned decimal numeral `ddd` or `ddd.ddd`. -/
def unsigned_value (cs : List Char) : Option ℚ :=
  match split_fields '.' cs [] with
  | [ip] =>
    if ip.isEmpty then none
    else
      match nat_of_digits ip 0 with
      | some a => some (mkRat a 1)
      | none => none
  | [ip, fp] =>
    if ip.isEmpty && fp.isEmpty then none
    else
      match nat_of_digits ip 0, nat_of_digits fp 0 with
      | some a, some b => some (mkRat (a * 10 ^ fp.length + b) (10 ^ fp.length))
      | _, _ => none
  | _ => none

/-- Modelled from the spec: `float_of_string` of `parse_primitives.h`, which
is not part of the sources at hand, on the texts used below: a decimal numeral
with an optional minus sign reads as its value, `nan` as NaN, and a text that
is no number as 0. -/
def text_float_of_string (s : String) : VWFloat :=
  if s = "nan" then VWFloat.nan
  else
    match s.toList with
    | '-' :: cs =>
      match unsigned_value cs with
      | some q => VWFloat.fin (-q)
      | none => VWFloat.zero
    | cs =>
      match unsigned_value cs with
      | some q => VWFloat.fin q
      | none => VWFloat.zero

/-- The parse primitives on plain decimal text; the validity predicate of
densities stays a parameter. -/
def text_primitives (valid : List continuous_actions.pdf_segment → Bool) : parse_primitives :=
  { tokenize := text_tokenize
    float_of_string := text_float_of_string
    is_valid_pdf := valid }

/-- The primitives the concrete examples are evaluated with. -/
def P0 : parse_primitives := text_primitives (fun _ => true)

/-- A well-formed cost token, in the words of the claim on cost sequences: no
section keyword, one to four fields, none of which reads as NaN. Its fields
being numeric, such a token is not the marker `ca` either. -/
def well_formed_cost_token (P : parse_primitives) (t : String) : Prop :=
  t ≠ PDF ∧ t ≠ CHOSEN_ACTION ∧ t ≠ CA_LABEL ∧
    1 ≤ (P.tokenize ':' t).length ∧ (P.tokenize ':' t).length ≤ 4 ∧
    ∀ x ∈ P.tokenize ':' t, (P.float_of_string x).isnan = false

/-! ## The csoaa reduction (`reductions/csoaa.cc`) -/

namespace COST_SENSITIVE

/-- Modelled from the spec: the type `wclass`, whose declaration is not part of
the sources at hand, with the fields `csoaa.cc` reads and writes: the cost
`x`, the class and the score the reduction stores back. -/
structure wclass where
  x : VWFloat
  class_index : Nat
  partial_prediction : VWFloat
  deriving DecidableEq

/-- Modelled from the spec: the cost-sensitive label, whose declaration is not
part of the sources at hand: one cost entry per candidate class. -/
structure label where
  costs : List wclass
  deriving DecidableEq

end COST_SENSITIVE

/-- Modelled from the spec: the reduction features of a simple label, whose
declaration is not part of the sources at hand. -/
structure simple_label_reduction_features where
  weight : VWFloat
  initial : VWFloat
  deriving DecidableEq

/-- Modelled from the spec: the call `reset_to_default()` on the reduction
features of a simple label, whose code is not part of the sources at hand; the
default is taken to be the weight 1 and the initial prediction 0. No theorem
below depends on these two values. -/
def simple_label_reduction_features.reset_to_default : simple_label_reduction_features :=
  { weight := VWFloat.one, initial := VWFloat.zero }

/-- Modelled from the spec: the label of an example, whose declaration is not
part of the sources at hand, with the two slots `csoaa.cc` names: `ec.l.simple`
(its scalar `label`) and `ec.l.cs`. -/
structure polylabel where
  simple : VWFloat
  cs : COST_SENSITIVE.label
  deriving DecidableEq

/-- Modelled from the spec: the prediction of an example, whose declaration is
not part of the sources at hand, with the slots `csoaa.cc` names. -/
structure polyprediction where
  scalar : VWFloat
  multiclass : Nat
  deriving DecidableEq

/-- Modelled from the spec: the part of `VW::example`, whose declaration is not
part of the sources at hand, that `csoaa.cc` reads and writes. A passthrough
entry is a pair (index, value); `none` is the null pointer. -/
structure Example where
  l : polylabel
  pred : polyprediction
  weight : VWFloat
  partial_prediction : VWFloat
  passthrough : Option (List (Nat × VWFloat))
  _reduction_features : simple_label_reduction_features
  deriving DecidableEq

/-- Modelled from the spec: the helper `add_passthrough_feature` of `example.h`,
which is not part of the sources at hand. When the example records passthrough
entries it appends the pair (index, value), otherwise it does nothing. -/
def add_passthrough_feature (ec : Example) (i : Nat) (x : VWFloat) : Example :=
  match ec.passthrough with
  | some pt => { ec with passthrough := some (pt ++ [(i, x)]) }
  | none => ec

namespace CSOAA

/-- The node state `struct csoaa` (lines 23-32); `pred` holds the `scalar` of
each slot of the buffer `c.pred`. -/
structure csoaa where
  num_classes : Nat
  indexing : Int
  search : Bool
  pred : List VWFloat
  deriving DecidableEq

/-- What a call of the base learner leaves behind: its own state, the example
it was handed by reference, and whether it threw. -/
structure base_result (σ : Type) where
  state : σ
  ec : Example
  threw : Bool

/-- What `multipredict` leaves behind; `scores j` is the scalar it writes to
slot `j` of the output buffer, for `j` below the count it was asked for. -/
structure multipredict_result (σ : Type) where
  state : σ
  ec : Example
  scores : Nat → VWFloat
  threw : Bool

/-- The base learner beneath the reduction, a parameter of the embedding: its
state `σ` and what its calls `learn(ec, i)`, `predict(ec, i)` and
`multipredict(ec, lo, count, pred, false)` do to that state and to the
example. -/
structure single_learner (σ : Type) where
  learn : σ → Example → Nat → base_result σ
  predict : σ → Example → Nat → base_result σ
  multipredict : σ → Example → Nat → Nat → multipredict_result σ

/-- The references `inner_loop` writes through, and whether the base threw. -/
structure inner_result (σ : Type) where
  state : σ
  ec : Example
  prediction : Nat
  score : VWFloat
  partial_prediction : VWFloat
  threw : Bool

/-- The offset `i` or, with `uint32_t` arithmetic, `i - 1` handed to the base
learner (lines 42-46 and 50-54). -/
def offset (indexing : Int) (i : Nat) : Nat :=
  if indexing = 0 then i else (i + 2 ^ 32 - 1) % 2 ^ 32

/-- Lines 38-55 of `inner_loop<is_learn>`: the call of the base learner. -/
def inner_call {σ : Type} (is_learn : Bool) (base : single_learner σ) (s : σ) (ec : Example)
    (i : Nat) (cost : VWFloat) (indexing : Int) : base_result σ :=
  if is_learn then
    let ec := { ec with weight := if cost.eq FLT_MAX then VWFloat.zero else VWFloat.one }
    let ec := { ec with l := { ec.l with simple := cost } }
    base.learn s ec (offset indexing i)
  else base.predict s ec (offset indexing i)

/-- The function `inner_loop<is_learn>` (lines 34-64). -/
def inner_loop {σ : Type} (is_learn : Bool) (base : single_learner σ) (s : σ) (ec : Example)
    (i : Nat) (cost : VWFloat) (prediction : Nat) (score : VWFloat)
    (partial_prediction : VWFloat) (indexing : Int) : inner_result σ :=
  let r := inner_call is_learn base s ec i cost indexing
  if r.threw then
    { state := r.state, ec := r.ec, prediction := prediction, score := score,
      partial_prediction := partial_prediction, threw := true }
  else
    let ec := r.ec
    let better := ec.partial_prediction.lt score || (ec.partial_prediction.eq score && i < prediction)
    { state := r.state
      ec := add_passthrough_feature ec i ec.partial_prediction
      prediction := if better then i else prediction
      score := if better then ec.partial_prediction else score
      partial_prediction := ec.partial_prediction
      threw := false }

/-- One turn of the validation loop (lines 75-99) on the entry `cost`. -/
def validate_cost (c : csoaa) (cost : COST_SENSITIVE.wclass) : csoaa × COST_SENSITIVE.wclass :=
  let lbl := cost.class_index
  let c :=
    if c.indexing = -1 ∧ lbl = 0 then { c with indexing := 0 }
    else if c.indexing = -1 ∧ lbl = c.num_classes then { c with indexing := 1 }
    else c
  let lbl :=
    if c.indexing = 0 ∧ lbl ≥ c.num_classes then 0
    else if c.indexing = 1 ∧ (lbl < 1 ∨ lbl > c.num_classes) then c.num_classes
    else lbl
  (c, { cost with class_index := lbl })

/-- The validation loop over `ec.l.cs.costs` (lines 73-100). -/
def validate_costs : csoaa → List COST_SENSITIVE.wclass → csoaa × List COST_SENSITIVE.wclass
  | c, [] => (c, [])
  | c, cost :: rest =>
    let r := validate_cost c cost
    let rs := validate_costs r.1 rest
    (rs.1, r.2 :: rs.2)

/-- The validation pass of `predict_or_learn` (lines 71-101). -/
def validate (c : csoaa) (costs : List COST_SENSITIVE.wclass) :
    csoaa × List COST_SENSITIVE.wclass :=
  if !c.search then validate_costs c costs else (c, costs)

/-- What the loop over the cost entries leaves behind; `costs` are the entries
of `ld` with the scores stored so far. -/
structure loop_result (σ : Type) where
  state : σ
  ec : Example
  costs : List COST_SENSITIVE.wclass
  prediction : Nat
  score : VWFloat
  threw : Bool

/-- The loop over `ld.costs` (lines 118-119); it ends at the first call in
which the base learner throws. -/
def costs_loop {σ : Type} (is_learn : Bool) (base : single_learner σ) (indexing : Int) :
    List COST_SENSITIVE.wclass → σ → Example → Nat → VWFloat → loop_result σ
  | [], s, ec, prediction, score =>
    { state := s, ec := ec, costs := [], prediction := prediction, score := score, threw := false }
  | cl :: rest, s, ec, prediction, score =>
    let r := inner_loop is_learn base s ec cl.class_index cl.x prediction score
      cl.partial_prediction indexing
    let cl := { cl with partial_prediction := r.partial_prediction }
    if r.threw then
      { state := r.state, ec := r.ec, costs := cl :: rest, prediction := r.prediction,
        score := r.score, threw := true }
    else
      let rs := costs_loop is_learn base indexing rest r.state r.ec r.prediction r.score
      { rs with costs := cl :: rs.costs }

/-- The loop over the classes `i` of lines 150-151, which calls
`inner_loop<false>` with the cost `FLT_MAX`; `temp` is the local of line 149. -/
def classes_loop {σ : Type} (base : single_learner σ) (indexing : Int) :
    List Nat → σ → Example → Nat → VWFloat → VWFloat → inner_result σ
  | [], s, ec, prediction, score, temp =>
    { state := s, ec := ec, prediction := prediction, score := score,
      partial_prediction := temp, threw := false }
  | i :: rest, s, ec, prediction, score, temp =>
    let r := inner_loop false base s ec i FLT_MAX prediction score temp indexing
    if r.threw then r
    else classes_loop base indexing rest r.state r.ec r.prediction r.score r.partial_prediction

/-- The `uint32_t` value `i - 1`. -/
def u32_pred (i : Nat) : Nat := (i + 2 ^ 32 - 1) % 2 ^ 32

/-- The loop of lines 130-134 over the indices `i`, reading the buffer `pred`;
`none` when a read falls outside the buffer. -/
def multipredict_loop_0 (pred : List VWFloat) : List Nat → Example → Nat → Option (Example × Nat)
  | [], ec, prediction => some (ec, prediction)
  | i :: rest, ec, prediction =>
    match pred[i]? with
    | none => none
    | some a =>
      let ec := add_passthrough_feature ec i a
      match pred[prediction]? with
      | none => none
      | some b => multipredict_loop_0 pred rest ec (if a.lt b then i else prediction)

/-- The loop of lines 139-143 over the indices `i`, reading the buffer `pred`;
`none` when a read falls outside the buffer. -/
def multipredict_loop_1 (pred : List VWFloat) : List Nat → Example → Nat → Option (Example × Nat)
  | [], ec, prediction => some (ec, prediction)
  | i :: rest, ec, prediction =>
    match pred[u32_pred i]? with
    | none => none
    | some a =>
      let ec := add_passthrough_feature ec i a
      match pred[u32_pred prediction]? with
      | none => none
      | some b => multipredict_loop_1 pred rest ec (if a.lt b then i else prediction)

/-- The loop of lines 158-166 over the passthrough entries recorded from
`pt_start` on. -/
def second_best_loop (partial_prediction : VWFloat) :
    List (Nat × VWFloat) → Nat → VWFloat → Nat × VWFloat
  | [], second_best, second_best_cost => (second_best, second_best_cost)
  | (index, val) :: rest, second_best, second_best_cost =>
    if val.gt partial_prediction && val.lt second_best_cost then
      second_best_loop partial_prediction rest index val
    else second_best_loop partial_prediction rest second_best second_best_cost

/-- Lines 154-175, with `uint64_t` arithmetic on the indices. `none` when the
example holds fewer passthrough entries than `pt_start`: the bound
`size() - pt_start` then wraps around and the first turn of the loop reads
`values[pt_start]` past the end. -/
def passthrough_tail (constant : Nat) (pt_start : Nat) (ec : Example) : Option Example :=
  match ec.passthrough with
  | none => some ec
  | some pt =>
    if pt.length < pt_start then none
    else
      let sb := second_best_loop ec.partial_prediction (pt.drop pt_start) 0 FLT_MAX
      if sb.2.lt FLT_MAX then
        let margin := sb.2.sub ec.partial_prediction
        let ec := add_passthrough_feature ec (constant * 2 % 2 ^ 64) margin
        some (add_passthrough_feature ec ((constant * 2 + 1 + sb.1) % 2 ^ 64) VWFloat.one)
      else some (add_passthrough_feature ec (constant * 3 % 2 ^ 64) VWFloat.one)

/-- How a call of `predict_or_learn` ends: it returns, it lets an exception of
the base learner through, or it reads outside a buffer. -/
inductive exit_status where
  | returned
  | threw
  | undefined
  deriving DecidableEq

/-- What a call of `predict_or_learn` leaves behind. -/
structure result (σ : Type) where
  c : csoaa
  state : σ
  ec : Example
  status : exit_status

/-- The scope-exit guard of line 106: `ec.l.cs = std::move(ld)`. -/
def restore_guard (ld : COST_SENSITIVE.label) (ec : Example) : Example :=
  { ec with l := { ec.l with cs := ld } }

/-- Lines 154-177 and the scope exit. -/
def finish {σ : Type} (constant : Nat) (pt_start : Nat) (ld : COST_SENSITIVE.label) (c : csoaa)
    (s : σ) (ec : Example) (prediction : Nat) : result σ :=
  match passthrough_tail constant pt_start ec with
  | none => { c := c, state := s, ec := restore_guard ld ec, status := exit_status.undefined }
  | some ec =>
    let ec := { ec with pred := { ec.pred with multiclass := prediction } }
    { c := c, state := s, ec := restore_guard ld ec, status := exit_status.returned }

/-- The macro `DO_MULTIPREDICT` (line 66). -/
def DO_MULTIPREDICT : Bool := true

/-- The example after lines 103, 111 and 112: the cost-sensitive label is moved
out to `ld` (a moved-from label is empty), the scalar label is `{0.}` and the
reduction features of the simple label are reset. -/
def prepare (ec : Example) : Example :=
  let ec := { ec with l := { ec.l with cs := { costs := [] } } }
  let ec := { ec with l := { ec.l with simple := VWFloat.zero } }
  { ec with _reduction_features := simple_label_reduction_features.reset_to_default }

/-- The initial `prediction` of line 108. -/
def default_prediction (indexing : Int) : Nat :=
  if indexing = 0 then 0 else 1

/-- The value `pt_start` of line 110. -/
def passthrough_size (ec : Example) : Nat :=
  match ec.passthrough with
  | some pt => pt.length
  | none => 0

/-- Lines 117-121 and what follows them: the branch of a label with entries. -/
def labelled_branch {σ : Type} (is_learn : Bool) (constant : Nat) (c : csoaa)
    (base : single_learner σ) (s : σ) (ec : Example) (ld : COST_SENSITIVE.label)
    (prediction : Nat) (score : VWFloat) (pt_start : Nat) : result σ :=
  let r := costs_loop is_learn base c.indexing ld.costs s ec prediction score
  let ld : COST_SENSITIVE.label := { costs := r.costs }
  if r.threw then
    { c := c, state := r.state, ec := restore_guard ld r.ec, status := exit_status.threw }
  else
    let ec := { r.ec with partial_prediction := r.score }
    finish constant pt_start ld c r.state ec r.prediction

/-- Lines 123-146 and what follows them: the branch of `predict` on an empty
label. The buffer `c.pred` has the `num_classes` slots `csoaa_setup` allocates
(line 198) and `multipredict` fills them all. -/
def multipredict_branch {σ : Type} (constant : Nat) (c : csoaa)
    (base : single_learner σ) (s : σ) (ec : Example) (ld : COST_SENSITIVE.label)
    (prediction : Nat) (pt_start : Nat) : result σ :=
  let ec := { ec with l := { ec.l with simple := FLT_MAX } }
  let ec := { ec with _reduction_features := simple_label_reduction_features.reset_to_default }
  let m := base.multipredict s ec 0 c.num_classes
  let c := { c with pred := (List.range c.num_classes).map m.scores }
  if m.threw then
    { c := c, state := m.state, ec := restore_guard ld m.ec, status := exit_status.threw }
  else if c.indexing = 0 then
    match multipredict_loop_0 c.pred (List.range (c.num_classes + 1)) m.ec prediction with
    | none =>
      { c := c, state := m.state, ec := restore_guard ld m.ec, status := exit_status.undefined }
    | some (ec, prediction) =>
      match c.pred[prediction]? with
      | none =>
        { c := c, state := m.state, ec := restore_guard ld ec, status := exit_status.undefined }
      | some p =>
        finish constant pt_start ld c m.state { ec with partial_prediction := p } prediction
  else
    match multipredict_loop_1 c.pred (List.range' 1 c.num_classes) m.ec prediction with
    | none =>
      { c := c, state := m.state, ec := restore_guard ld m.ec, status := exit_status.undefined }
    | some (ec, prediction) =>
      match c.pred[u32_pred prediction]? with
      | none =>
        { c := c, state := m.state, ec := restore_guard ld ec, status := exit_status.undefined }
      | some p =>
        finish constant pt_start ld c m.state { ec with partial_prediction := p } prediction

/-- Lines 148-152 and what follows them: the branch of `learn` on an empty
label. The local `temp` starts out uninitialised and is only written. -/
def unlabelled_branch {σ : Type} (constant : Nat) (c : csoaa)
    (base : single_learner σ) (s : σ) (ec : Example) (ld : COST_SENSITIVE.label)
    (prediction : Nat) (score : VWFloat) (pt_start : Nat) : result σ :=
  let r := classes_loop base c.indexing (List.range' 1 c.num_classes) s ec prediction score
    VWFloat.zero
  if r.threw then
    { c := c, state := r.state, ec := restore_guard ld r.ec, status := exit_status.threw }
  else finish constant pt_start ld c r.state r.ec r.prediction

/-- The function `predict_or_learn<is_learn>` (lines 68-178). `constant` is the
constant of that name, whose value is not part of the sources at hand. Loop
counters are taken not to wrap, that is `num_classes < 2 ^ 32 - 1`. -/
def predict_or_learn {σ : Type} (is_learn : Bool) (constant : Nat) (c : csoaa)
    (base : single_learner σ) (s : σ) (ec : Example) : result σ :=
  let v := validate c ec.l.cs.costs
  let c := v.1
  let ld : COST_SENSITIVE.label := { costs := v.2 }
  let prediction := default_prediction c.indexing
  let score := FLT_MAX
  let pt_start := passthrough_size ec
  let ec := prepare ec
  let dont_learn := DO_MULTIPREDICT && !is_learn
  if !ld.costs.isEmpty then
    labelled_branch is_learn constant c base s ec ld prediction score pt_start
  else if dont_learn then multipredict_branch constant c base s ec ld prediction pt_start
  else unlabelled_branch constant c base s ec ld prediction score pt_start

/-! ### Base learners used to state and exercise the theorems -/

/-- The kind of a call of the base learner. -/
inductive call_kind where
  | learn
  | predict
  | multipredict
  deriving DecidableEq

/-- One call of the base learner as the base learner sees it: the offset (the
first index for `multipredict`), the number of candidates, the scalar label
and the weight of the example on entry, and the `partial_prediction` of the
example on exit. -/
structure base_call where
  kind : call_kind
  offset : Nat
  count : Nat
  label : VWFloat
  weight : VWFloat
  score : VWFloat
  deriving DecidableEq

/-- The base learner `base` with a log of the calls it receives, oldest first.
The log changes nothing else (`predict_or_learn_recording`). -/
def recording {σ : Type} (base : single_learner σ) : single_learner (σ × List base_call) :=
  { learn := fun s ec i =>
      let r := base.learn s.1 ec i
      { state := (r.state, s.2 ++ [{ kind := call_kind.learn, offset := i, count := 1,
                                     label := ec.l.simple, weight := ec.weight,
                                     score := r.ec.partial_prediction }])
        ec := r.ec
        threw := r.threw }
    predict := fun s ec i =>
      let r := base.predict s.1 ec i
      { state := (r.state, s.2 ++ [{ kind := call_kind.predict, offset := i, count := 1,
                                     label := ec.l.simple, weight := ec.weight,
                                     score := r.ec.partial_prediction }])
        ec := r.ec
        threw := r.threw }
    multipredict := fun s ec lo count =>
      let r := base.multipredict s.1 ec lo count
      { state := (r.state, s.2 ++ [{ kind := call_kind.multipredict, offset := lo, count := count,
                                     label := ec.l.simple, weight := ec.weight,
                                     score := r.ec.partial_prediction }])
        ec := r.ec
        scores := r.scores
        threw := r.threw } }

/-- The result of a call made with a recording base learner, without the log. -/
def result.without_log {σ : Type} (r : result (σ × List base_call)) : result σ :=
  { c := r.c, state := r.state.1, ec := r.ec, status := r.status }

/-- What `inner_loop` leaves behind with a recording base learner, without the
log. -/
def inner_result.without_log {σ : Type} (r : inner_result (σ × List base_call)) :
    inner_result σ :=
  { state := r.state.1, ec := r.ec, prediction := r.prediction, score := r.score,
    partial_prediction := r.partial_prediction, threw := r.threw }

/-- What the loop over the cost entries leaves behind with a recording base
learner, without the log. -/
def loop_result.without_log {σ : Type} (r : loop_result (σ × List base_call)) : loop_result σ :=
  { state := r.state.1, ec := r.ec, costs := r.costs, prediction := r.prediction,
    score := r.score, threw := r.threw }

/-- A stateless base learner whose score is `f` of the offset, and which
touches nothing but the score. -/
def scoring_base (f : Nat → VWFloat) : single_learner Unit :=
  { learn := fun s ec i => { state := s, ec := { ec with partial_prediction := f i }, threw := false }
    predict := fun s ec i =>
      { state := s, ec := { ec with partial_prediction := f i }, threw := false }
    multipredict := fun s ec lo _ =>
      { state := s, ec := ec, scores := fun j => f (lo + j), threw := false } }

/-- A base learner that scores like `scoring_base f` and throws in every call
at the offset `bad`. -/
def failing_base (f : Nat → VWFloat) (bad : Nat) : single_learner Unit :=
  { learn := fun s ec i =>
      { state := s, ec := { ec with partial_prediction := f i }, threw := decide (i = bad) }
    predict := fun s ec i =>
      { state := s, ec := { ec with partial_prediction := f i }, threw := decide (i = bad) }
    multipredict := fun s ec lo _ =>
      { state := s, ec := ec, scores := fun j => f (lo + j), threw := decide (lo = bad) } }

end CSOAA

/-- The base learner is deterministic with scores that depend on the offset
alone and do not change from call to call: `predict` at the offset `i` returns
with the score `f i`, and `multipredict` returns with the scores `f lo`,
`f (lo + 1)`, and so on, whatever its state and the example. -/
def scores_by_offset {σ : Type} (base : CSOAA.single_learner σ) (f : Nat → VWFloat) : Prop :=
  (∀ s ec i, (base.predict s ec i).threw = false ∧
      (base.predict s ec i).ec.partial_prediction = f i) ∧
    ∀ s ec lo n, (base.multipredict s ec lo n).threw = false ∧
      ∀ j, (base.multipredict s ec lo n).scores j = f (lo + j)

/-- The class range of an indexing mode: `[0, num_classes - 1]` when 0-indexed,
`[1, num_classes]` when 1-indexed; an undetermined mode has no range to
leave. -/
def valid_class (indexing : Int) (num_classes : Nat) (k : Nat) : Bool :=
  if indexing = 0 then decide (k < num_classes)
  else if indexing = 1 then decide (1 ≤ k ∧ k ≤ num_classes)
  else true

/-- The boundary class of an indexing mode: 0 when 0-indexed, `num_classes`
otherwise. -/
def boundary_class (indexing : Int) (num_classes : Nat) : Nat :=
  if indexing = 0 then 0 else num_classes

/-- The pair `a` of a score and a class comes before the pair `b` in the
lexicographic order, with the comparisons of the source (line 58). -/
def lex_lt (a b : VWFloat × Nat) : Bool :=
  a.1.lt b.1 || (a.1.eq b.1 && decide (a.2 < b.2))

/-- The entry `e1` is the entry `e` after validation in the mode `indexing`:
the cost and the stored score are kept, and the class is kept when it lies in
the range of the mode and is the boundary class of the mode otherwise, so that
it lies in the range. -/
def validated_in (indexing : Int) (num_classes : Nat) (e e1 : COST_SENSITIVE.wclass) : Prop :=
  e1.x = e.x ∧ e1.partial_prediction = e.partial_prediction ∧
    valid_class indexing num_classes e1.class_index = true ∧
    e1.class_index =
      if valid_class indexing num_classes e.class_index = true then e.class_index
      else boundary_class indexing num_classes

/-- A node with three classes, the mode undetermined and the bypass off. -/
def node3 : CSOAA.csoaa := { num_classes := 3, indexing := -1, search := false, pred := [] }

/-- A cost entry with the cost 1 for the class `k`. -/
def entry (k : Nat) : COST_SENSITIVE.wclass :=
  { x := VWFloat.fin 1, class_index := k, partial_prediction := VWFloat.zero }

/-- A cost entry with the cost `FLT_MAX` for the class `k`. -/
def unknown_cost_entry (k : Nat) : COST_SENSITIVE.wclass :=
  { x := FLT_MAX, class_index := k, partial_prediction := VWFloat.zero }

/-- An example with the cost-sensitive label `costs` and no passthrough. -/
def example_of (costs : List COST_SENSITIVE.wclass) : Example :=
  { l := { simple := VWFloat.zero, cs := { costs := costs } }
    pred := { scalar := VWFloat.zero, multiclass := 0 }
    weight := VWFloat.fin 5
    partial_prediction := VWFloat.zero
    passthrough := none
    _reduction_features := simple_label_reduction_features.reset_to_default }

/-! ## Definitions for the claims on sections, errors and densities -/

/-- The C++ `a <= b` on floats. -/
def VWFloat.le : VWFloat → VWFloat → Bool
  | VWFloat.nan, _ => false
  | _, VWFloat.nan => false
  | VWFloat.ninf, _ => true
  | _, VWFloat.pinf => true
  | VWFloat.fin a, VWFloat.fin b => decide (a ≤ b)
  | VWFloat.pinf, _ => false
  | VWFloat.fin _, VWFloat.ninf => false

/-- The C++ `a >= b` on floats. -/
def VWFloat.ge (a b : VWFloat) : Bool := VWFloat.le b a

/-- The segment a word of a `pdf` section stands for: its first three fields
read as left, right and pdf_value. -/
def segment_of_word (P : parse_primitives) (w : String) : continuous_actions.pdf_segment :=
  { left := P.float_of_string ((P.tokenize ':' w).getD 0 "")
    right := P.float_of_string ((P.tokenize ':' w).getD 1 "")
    pdf_value := P.float_of_string ((P.tokenize ':' w).getD 2 "") }

/-- The segments of a `pdf` section, in the words of the claim on `parse_pdf`:
one segment for each word with at least three fields that is located before
the first `chosen_action` word. -/
def pdf_section_segments (P : parse_primitives) (ws : List String) :
    List continuous_actions.pdf_segment :=
  ((ws.takeWhile (fun w => decide (w ≠ CHOSEN_ACTION))).filter
    (fun w => decide (3 ≤ (P.tokenize ':' w).length))).map (segment_of_word P)

/-- The value of a `chosen_action` section, in the words of the claim on
`parse_chosen_action`: the first field of the first word that has at least one
field, when there is such a word. -/
def first_chosen_action (P : parse_primitives) (ws : List String) : Option VWFloat :=
  (ws.find? (fun w => decide (1 ≤ (P.tokenize ':' w).length))).map
    (fun w => P.float_of_string ((P.tokenize ':' w).getD 0 ""))

/-! ## Base learners that leave the weight or the passthrough alone -/

/-- The base learner leaves the weight of the example it is handed as it
finds it, in `learn`, `predict` and `multipredict`. -/
def keeps_weight {σ : Type} (base : CSOAA.single_learner σ) : Prop :=
  (∀ s ec i, (base.learn s ec i).ec.weight = ec.weight) ∧
    (∀ s ec i, (base.predict s ec i).ec.weight = ec.weight) ∧
    ∀ s ec lo n, (base.multipredict s ec lo n).ec.weight = ec.weight

/-- The base learner records no passthrough entry of its own and removes
none, in `learn`, `predict` and `multipredict`. -/
def keeps_passthrough {σ : Type} (base : CSOAA.single_learner σ) : Prop :=
  (∀ s ec i, (base.learn s ec i).ec.passthrough = ec.passthrough) ∧
    (∀ s ec i, (base.predict s ec i).ec.passthrough = ec.passthrough) ∧
    ∀ s ec lo n, (base.multipredict s ec lo n).ec.passthrough = ec.passthrough

/-- The passthrough entries a call adds after the entries of its candidates
`cand`, in the words of the claim on passthrough entries: two entries for the
runner-up, a candidate whose score is the smallest of those above
`partial_prediction` and below `FLT_MAX`, or one sentinel entry when there is
no such candidate. Indices are `uint64_t` values. -/
def runner_up_entries (constant : Nat) (partial_prediction : VWFloat)
    (cand extra : List (Nat × VWFloat)) : Prop :=
  (∃ r v, (r, v) ∈ cand ∧ v.gt partial_prediction = true ∧ v.lt FLT_MAX = true ∧
      (∀ e ∈ cand, e.2.gt partial_prediction = true → e.2.lt v = false) ∧
      (v.sub partial_prediction).gt VWFloat.zero = true ∧
      extra = [(constant * 2 % 2 ^ 64, v.sub partial_prediction),
               ((constant * 2 + 1 + r) % 2 ^ 64, VWFloat.one)]) ∨
    ((∀ e ∈ cand, ¬ (e.2.gt partial_prediction = true ∧ e.2.lt FLT_MAX = true)) ∧
      extra = [(constant * 3 % 2 ^ 64, VWFloat.one)])

/-- An example with the cost-sensitive label `costs` that records passthrough
entries and holds one entry, with the index 7 and the value 3/2, from an
earlier call. -/
def passthrough_example (costs : List COST_SENSITIVE.wclass) : Example :=
  { example_of costs with passthrough := some [(7, VWFloat.fin (mkRat 3 2))] }

/-- The scores -1 and 16777216 of the offsets 0 and above in the concrete
examples: two values of type `float` whose exact difference is none. -/
def scores_wide (i : Nat) : VWFloat :=
  if i = 0 then VWFloat.fin (-1) else VWFloat.fin 16777216

/-- The scores 3, 1, 2 of the offsets 0, 1, 2 in the concrete examples. -/
def scores_312 (i : Nat) : VWFloat :=
  if i = 0 then VWFloat.fin 3 else if i = 1 then VWFloat.fin 1 else VWFloat.fin 2

/-! ## The model-cache fields of a continuous-action label -/

namespace model_utils

open cb_continuous

/-- Modelled from the spec: the buffer `io_buf`, whose code is not part of the
sources at hand, as the model cache uses it: a sequential stream of bytes,
written at its end and read from its front. -/
abbrev io_buf := List Nat

/-- The overloads `write_model_field(io, const T&, upstream_name, text)` and
`read_model_field(io, T&)` of a primitive field type `T`, whose code
(`model_utils.h`) is not part of the sources at hand: parameters of the
embedding. `write` returns the byte count and the buffer after the write;
`read` is given the prior value of its destination and returns the byte count,
the buffer after the read and the value the destination then holds, or `none`
when it throws. -/
structure field_codec (α : Type) where
  write : io_buf → α → String → Bool → Nat × io_buf
  read : io_buf → α → Option (Nat × io_buf × α)

/-- What the cache expects of the write and the read of a field at the value
`v`: a binary write appends some bytes to the stream, whatever the name of the
field, and a read of a stream that starts with these bytes consumes them,
stores `v` whatever the destination held, and returns the byte count of the
write. -/
def round_trips {α : Type} (write : io_buf → α → String → Bool → Nat × io_buf)
    (read : io_buf → α → Option (Nat × io_buf × α)) (v : α) : Prop :=
  ∃ (bytes : List Nat) (n : Nat),
    (∀ (io : io_buf) (name : String), write io v name false = (n, io ++ bytes)) ∧
    (∀ (rest : io_buf) (prior : α), read (bytes ++ rest) prior = some (n, rest, v))

/-- The overload `read_model_field(io_buf&, continuous_label_elm&)`
(lines 161-168); `F` is the overload for `float`. -/
def read_model_field_elm (F : field_codec VWFloat) (io : io_buf) (cle : continuous_label_elm) :
    Option (Nat × io_buf × continuous_label_elm) :=
  let bytes := 0
  match F.read io cle.action with
  | none => none
  | some (n1, io, action) =>
    let cle := { cle with action := action }
    let bytes := bytes + n1
    match F.read io cle.cost with
    | none => none
    | some (n2, io, cost) =>
      let cle := { cle with cost := cost }
      let bytes := bytes + n2
      match F.read io cle.pdf_value with
      | none => none
      | some (n3, io, pdf_value) =>
        let cle := { cle with pdf_value := pdf_value }
        let bytes := bytes + n3
        some (bytes, io, cle)

/-- The overload `write_model_field(io_buf&, const continuous_label_elm&,
upstream_name, text)` (lines 170-178). -/
def write_model_field_elm (F : field_codec VWFloat) (io : io_buf) (cle : continuous_label_elm)
    (upstream_name : String) (text : Bool) : Nat × io_buf :=
  let bytes := 0
  let r1 := F.write io cle.action (upstream_name ++ "_action") text
  let bytes := bytes + r1.1
  let r2 := F.write r1.2 cle.cost (upstream_name ++ "_cost") text
  let bytes := bytes + r2.1
  let r3 := F.write r2.2 cle.pdf_value (upstream_name ++ "_pdf_value") text
  let bytes := bytes + r3.1
  (bytes, r3.2)

/-- The elements of a sequence, written one after the other. -/
def write_elements {α : Type} (write_elem : io_buf → α → String → Bool → Nat × io_buf) :
    io_buf → List α → String → Bool → Nat × io_buf
  | io, [], _, _ => (0, io)
  | io, v :: vec, upstream_name, text =>
    let r1 := write_elem io v upstream_name text
    let r2 := write_elements write_elem r1.2 vec upstream_name text
    (r1.1 + r2.1, r2.2)

/-- Modelled from the spec: the overload of `write_model_field` for a
sequence, whose code (`model_utils.h`) is not part of the sources at hand. The
cache is a stream of length-prefixed or fixed-width fields: the sequence is
written as its length, a primitive field written by `S`, followed by its
elements in order. -/
def write_model_field_vector {α : Type} (S : field_codec Nat)
    (write_elem : io_buf → α → String → Bool → Nat × io_buf) (io : io_buf) (vec : List α)
    (upstream_name : String) (text : Bool) : Nat × io_buf :=
  let bytes := 0
  let r1 := S.write io vec.length upstream_name text
  let bytes := bytes + r1.1
  let r2 := write_elements write_elem r1.2 vec upstream_name text
  let bytes := bytes + r2.1
  (bytes, r2.2)

/-- Reads `size` elements, each into a fresh element `fresh`, and pushes them
onto `vec`. -/
def read_elements {α : Type} (read_elem : io_buf → α → Option (Nat × io_buf × α)) (fresh : α) :
    Nat → io_buf → List α → Option (Nat × io_buf × List α)
  | 0, io, vec => some (0, io, vec)
  | size + 1, io, vec =>
    match read_elem io fresh with
    | none => none
    | some (n1, io, v) =>
      match read_elements read_elem fresh size io (vec ++ [v]) with
      | none => none
      | some (n2, io, vec) => some (n1 + n2, io, vec)

/-- Modelled from the spec: the overload of `read_model_field` for a sequence,
whose code (`model_utils.h`) is not part of the sources at hand: the length is
read first, then that many elements, which are pushed onto the destination in
the order read. -/
def read_model_field_vector {α : Type} (S : field_codec Nat)
    (read_elem : io_buf → α → Option (Nat × io_buf × α)) (fresh : α) (io : io_buf)
    (vec : List α) : Option (Nat × io_buf × List α) :=
  let bytes := 0
  match S.read io 0 with
  | none => none
  | some (n1, io, size) =>
    let bytes := bytes + n1
    match read_elements read_elem fresh size io vec with
    | none => none
    | some (n2, io, vec) =>
      let bytes := bytes + n2
      some (bytes, io, vec)

/-- The element a sequence read starts each element from. -/
def fresh_elm : continuous_label_elm :=
  { action := VWFloat.zero, cost := VWFloat.zero, pdf_value := VWFloat.zero }

/-- The overload `read_model_field(io_buf&, continuous_label&)`
(lines 180-185). -/
def read_model_field (F : field_codec VWFloat) (S : field_codec Nat) (io : io_buf)
    (cl : continuous_label) : Option (Nat × io_buf × continuous_label) :=
  let bytes := 0
  match read_model_field_vector S (read_model_field_elm F) fresh_elm io cl.costs with
  | none => none
  | some (n, io, costs) =>
    let bytes := bytes + n
    some (bytes, io, { cl with costs := costs })

/-- The overload `write_model_field(io_buf&, const continuous_label&,
upstream_name, text)` (lines 187-193). -/
def write_model_field (F : field_codec VWFloat) (S : field_codec Nat) (io : io_buf)
    (cl : continuous_label) (upstream_name : String) (text : Bool) : Nat × io_buf :=
  let bytes := 0
  let r := write_model_field_vector S (write_model_field_elm F) io cl.costs
    (upstream_name ++ "_costs") text
  let bytes := bytes + r.1
  (bytes, r.2)

/-- The entry `cache_label` of `the_label_parser` (lines 124-126), on the
continuous-action label `label.cb_cont`. -/
def cache_label (F : field_codec VWFloat) (S : field_codec Nat) (label : continuous_label)
    (cache : io_buf) (upstream_name : String) (text : Bool) : Nat × io_buf :=
  write_model_field F S cache label upstream_name text

/-- The entry `read_cached_label` of `the_label_parser` (lines 128-130), on
the continuous-action label `label.cb_cont`. -/
def read_cached_label (F : field_codec VWFloat) (S : field_codec Nat) (label : continuous_label)
    (cache : io_buf) : Option (Nat × io_buf × continuous_label) :=
  read_model_field F S cache label

/-- The byte a small whole number is stored as in the concrete examples. -/
def byte_of_float : VWFloat → Nat
  | VWFloat.fin q => q.num.toNat % 256
  | _ => 0

/-- A concrete field of type `float` for the examples: one byte, which holds
a whole number from 0 to 255. -/
def byte_float : field_codec VWFloat :=
  { write := fun io v _ _ => (1, io ++ [byte_of_float v])
    read := fun io _ =>
      match io with
      | [] => none
      | b :: rest => some (1, rest, VWFloat.fin b) }

/-- A concrete length field for the examples: one byte. -/
def byte_size : field_codec Nat :=
  { write := fun io n _ _ => (1, io ++ [n % 256])
    read := fun io _ =>
      match io with
      | [] => none
      | b :: rest => some (1, rest, b) }

/-- The label `{1,2,3}{4,5,0}` of the concrete examples. -/
def two_entry_label : continuous_label :=
  { costs := [{ action := VWFloat.fin 1, cost := VWFloat.fin 2, pdf_value := VWFloat.fin 3 },
              { action := VWFloat.fin 4, cost := VWFloat.fin 5, pdf_value := VWFloat.fin 0 }] }

end model_utils

/-! ## Loss functions -/

namespace squared

/-- Modelled from the spec: `get_loss` of the squared loss, whose code
(`loss_functions.cc`) is not part of the sources at hand: the loss `(p-y)^2`,
over exact rationals and for predictions where nothing is clipped. -/
def get_loss (p y : ℚ) : ℚ := (p - y) ^ 2

/-- Modelled from the spec: `first_derivative` of the squared loss, the exact
derivative of `get_loss` in `p`; `squared_loss_test` expects -0.2 at p = 0.4,
y = 0.5. -/
def first_derivative (p y : ℚ) : ℚ := 2 * (p - y)

/-- Modelled from the spec: `second_derivative` of the squared loss, the
exact second derivative of `get_loss` in `p`. -/
def second_derivative (_p _y : ℚ) : ℚ := 2

/-- Modelled from the spec: `get_square_grad` of the squared loss, the square
of the first derivative. -/
def get_square_grad (p y : ℚ) : ℚ := first_derivative p y ^ 2

/-- Modelled from the spec: `get_unsafe_update` of the squared loss, the raw
step of size `update_scale` times the first derivative, in the direction that
`squared_loss_test` expects: 0.02 at p = 0.4, y = 0.5, update_scale = 0.1,
where the first derivative is -0.2. -/
def get_unsafe_update (p y update_scale : ℚ) : ℚ := 2 * (y - p) * update_scale

/-- Modelled from the spec: `get_update` of the squared loss, whose code
(`loss_functions.cc`) is not part of the sources at hand: the closed-form step
that moves the prediction towards the label and never past it,
`(y - p) * (1 - exp(-2 * update_scale * pred_per_update)) / pred_per_update`,
which has the values the unit tests expect (`get_update_test_values`:
0.01812692 at p = 0.4, y = 0.5, update_scale = 0.1, pred_per_update = 1), and,
where `update_scale * pred_per_update` is too small for it (below 1e-6), its
first-order expansion, the raw step `2 * (y - p) * update_scale`. The
exponential function is the parameter `exp`. -/
def get_update (exp : ℚ → ℚ) (p y update_scale pred_per_update : ℚ) : ℚ :=
  if update_scale * pred_per_update < 1 / 1000000 then 2 * (y - p) * update_scale
  else (y - p) * (1 - exp (-2 * update_scale * pred_per_update)) / pred_per_update

end squared

namespace expectile

/-- Modelled from the spec: the factor that scales the squared loss into the
expectile loss with shape parameter `tau`: `tau` when `p ≥ y` is false and
`1 - tau` otherwise. -/
def factor (tau p y : ℚ) : ℚ := if p ≥ y then 1 - tau else tau

/-- Modelled from the spec: `get_loss` of the expectile loss, whose code
(`loss_functions.cc`) is not part of the sources at hand: the squared loss
scaled by the factor. -/
def get_loss (tau p y : ℚ) : ℚ := squared.get_loss p y * factor tau p y

/-- Modelled from the spec: `first_derivative` of the expectile loss, the one
of the squared loss scaled by the factor. -/
def first_derivative (tau p y : ℚ) : ℚ := squared.first_derivative p y * factor tau p y

/-- Modelled from the spec: `second_derivative` of the expectile loss, the
one of the squared loss scaled by the factor. -/
def second_derivative (tau p y : ℚ) : ℚ := squared.second_derivative p y * factor tau p y

/-- Modelled from the spec: `get_square_grad` of the expectile loss, the
square of its first derivative. -/
def get_square_grad (tau p y : ℚ) : ℚ := first_derivative tau p y ^ 2

/-- Modelled from the spec: `get_unsafe_update` of the expectile loss, the
one of the squared loss scaled by the factor. -/
def get_unsafe_update (tau p y update_scale : ℚ) : ℚ :=
  squared.get_unsafe_update p y update_scale * factor tau p y

/-- Modelled from the spec: `get_update` of the expectile loss, the step of
the squared loss with `update_scale` itself scaled by the factor. The spec
gives no closed form of the step of the squared loss, `squared_get_update`,
which is a parameter. -/
def get_update (squared_get_update : ℚ → ℚ → ℚ → ℚ → ℚ)
    (tau p y update_scale pred_per_update : ℚ) : ℚ :=
  squared_get_update p y (update_scale * factor tau p y) pred_per_update

end expectile

end VW

/-! ## Theorems: continuous-action label parsing -/

namespace VW

open continuous_actions cb_continuous

@[simp] theorem VWFloat.isnan_zero : VWFloat.zero.isnan = false := rfl

@[simp] theorem isnan_FLT_MAX : FLT_MAX.isnan = false := rfl

@[simp] theorem VWFloat.zero_lt_zero : VWFloat.zero.lt VWFloat.zero = false := by decide

theorem getD_mem_or_default {α : Type} (l : List α) (k : Nat) (d : α) :
    l.getD k d ∈ l ∨ l.getD k d = d := by
  induction l generalizing k with
  | nil => right; simp
  | cons a l ih =>
    cases k with
    | zero => left; simp
    | succ k =>
      rcases ih k with h | h
      · left; rw [List.getD_cons_succ]; exact List.mem_cons_of_mem _ h
      · right; rw [List.getD_cons_succ]; exact h

/-- Words that are neither a section keyword nor preceded by the marker are
skipped by the loop of `parse_label`. -/
theorem parse_label_loop_skip (P : parse_primitives) (words : List String) :
    ∀ (rest : List String) (i : Nat) (ld : continuous_label) (rf : reduction_features),
      (∀ t ∈ rest, t ≠ PDF ∧ t ≠ CHOSEN_ACTION) →
      (∀ j, i ≤ j → j < i + rest.length → words.getD (j - 1) "" ≠ CA_LABEL) →
      parse_label_loop P words i rest ld rf = .ok (ld, rf) := by
  intro rest
  induction rest with
  | nil => intro i ld rf _ _; rfl
  | cons w rest ih =>
    intro i ld rf hk hca
    have hw := hk w (by simp)
    unfold parse_label_loop
    rw [if_neg hw.1, if_neg hw.2, if_neg (hca i (le_refl i) (by simp))]
    exact ih (i + 1) ld rf (fun t ht => hk t (by simp [ht]))
      (fun j hj hlt => hca j (by omega) (by simp only [List.length_cons]; omega))

/-- A word with one to four fields, none of which reads as NaN, yields a cost
entry. -/
theorem parse_cost_word_ok (P : parse_primitives) (t : String)
    (h1 : 1 ≤ (P.tokenize ':' t).length) (h4 : (P.tokenize ':' t).length ≤ 4)
    (hnan : ∀ x ∈ P.tokenize ':' t, (P.float_of_string x).isnan = false) :
    ∃ f, parse_cost_word P t = .ok f := by
  unfold parse_cost_word
  generalize P.tokenize ':' t = tk at *
  match tk, h1, h4, hnan with
  | [a], _, _, hnan => simp
  | [a, b], _, _, hnan =>
    have hb := hnan b (by simp)
    simp [hb]
  | [a, b, c], _, _, hnan =>
    have hb := hnan b (by simp)
    have hc := hnan c (by simp)
    simp [hb, hc]
  | [a, b, c, d], _, _, hnan =>
    have hb := hnan b (by simp)
    have hc := hnan c (by simp)
    simp [hb, hc]

/-- The label parsed from the marker followed by one cost word and further
words that are skipped. -/
theorem parse_label_single (P : parse_primitives) (ld : continuous_label)
    (rf : reduction_features) (t : String) (ts : List String) (f : continuous_label_elm)
    (ht : t ≠ PDF ∧ t ≠ CHOSEN_ACTION)
    (hts : ∀ u ∈ ts, u ≠ PDF ∧ u ≠ CHOSEN_ACTION)
    (hca : ∀ k, k < ts.length → (t :: ts).getD k "" ≠ CA_LABEL)
    (hf : parse_cost_word P t = .ok f) :
    parse_label P ld rf (CA_LABEL :: t :: ts) = .ok ({ costs := [f] }, rf) := by
  have hskip := parse_label_loop_skip P (CA_LABEL :: t :: ts) ts 2 { costs := [f] } rf hts
    (by
      intro j hj hlt
      obtain ⟨k, rfl⟩ : ∃ k, j = k + 2 := ⟨j - 2, by omega⟩
      show (CA_LABEL :: t :: ts).getD (k + 1) "" ≠ CA_LABEL
      rw [List.getD_cons_succ]
      exact hca k (by omega))
  simp only [parse_label, List.isEmpty_cons, Bool.false_eq_true, if_false, List.getD_cons_zero,
    decide_True, Bool.not_true, List.drop_succ_cons, List.drop_zero]
  unfold parse_label_loop
  rw [if_neg ht.1, if_neg ht.2]
  simp only [Nat.sub_self, List.getD_cons_zero, if_true, hf, List.nil_append]
  exact hskip

/-- What `parse_cost_word` leaves in the cost and pdf_value of an entry whose
word lacks the second or the third field. -/
theorem parse_cost_word_defaults (P : parse_primitives) (w : String) (f : continuous_label_elm)
    (h : parse_cost_word P w = .ok f) :
    ((P.tokenize ':' w).length < 2 → f.cost = FLT_MAX) ∧
    ((P.tokenize ':' w).length < 3 → f.pdf_value = VWFloat.zero) := by
  simp only [parse_cost_word] at h
  split_ifs at h <;> simp only [Except.ok.injEq, reduceCtorEq] at h <;> subst h <;>
    constructor <;> intro hlen <;> first | rfl | omega

/-- C1 (as amended): for a word list `ca t1 ... tn` with `n ≥ 1` whose words
`ti` are well-formed cost tokens, `parse_label` succeeds and the cost sequence
has exactly one entry, the one built from `t1`: a word is read as a cost entry
only when the word right before it is the marker `ca`. -/
theorem C1_parse_label_reads_first_cost_word (P : parse_primitives) (ld : continuous_label)
    (rf : reduction_features) (t1 : String) (ts : List String)
    (h : ∀ t ∈ t1 :: ts, well_formed_cost_token P t) :
    ∃ f, parse_cost_word P t1 = .ok f ∧
      parse_label P ld rf (CA_LABEL :: t1 :: ts) = .ok ({ costs := [f] }, rf) := by
  have h1 := h t1 (by simp)
  obtain ⟨f, hf⟩ := parse_cost_word_ok P t1 h1.2.2.2.1 h1.2.2.2.2.1 h1.2.2.2.2.2
  refine ⟨f, hf, parse_label_single P ld rf t1 ts f ⟨h1.1, h1.2.1⟩ ?_ ?_ hf⟩
  · intro u hu
    have := h u (by simp [hu])
    exact ⟨this.1, this.2.1⟩
  · intro k hk
    rcases getD_mem_or_default (t1 :: ts) k "" with hm | hm
    · exact (h _ hm).2.2.1
    · rw [hm]; decide

/-- C1, witness: the word list `ca 1:2:3 4:5:6`. -/
theorem C1_parse_label_reads_first_cost_word_witness :
    ∃ f, parse_cost_word P0 "1:2:3" = .ok f ∧
      parse_label P0 { costs := [] } { pdf := [], chosen_action := VWFloat.nan }
        (CA_LABEL :: "1:2:3" :: ["4:5:6"]) =
        .ok ({ costs := [f] }, { pdf := [], chosen_action := VWFloat.nan }) :=
  C1_parse_label_reads_first_cost_word P0 _ _ "1:2:3" ["4:5:6"] (by
    simp only [well_formed_cost_token]
    decide)

/-- C1, counterexample: `ca 1:2:3 4:5:6` carries two well-formed cost tokens,
and the parsed cost sequence has one entry, not two. -/
theorem C1_counterexample :
    (∀ t ∈ ["1:2:3", "4:5:6"], well_formed_cost_token P0 t) ∧
      ∃ l rf, parse_label P0 { costs := [] } { pdf := [], chosen_action := VWFloat.nan }
          ["ca", "1:2:3", "4:5:6"] = .ok (l, rf) ∧
        l.costs.length = 1 ∧ l.costs.length ≠ ["1:2:3", "4:5:6"].length := by
  refine ⟨by simp only [well_formed_cost_token]; decide, _, _, rfl, by decide, by decide⟩

/-- C2 (as amended): for a word list `ca t` in which `t` is no section keyword
and has exactly one field `a`, `parse_label` yields the single cost entry with
action `a`, cost `FLT_MAX` and pdf_value 0; more generally the entry parsed from
`ca t` has cost `FLT_MAX` when `t` has no second field and pdf_value 0 when `t`
has no third field. -/
theorem C2_missing_fields_default (P : parse_primitives) (ld : continuous_label)
    (rf : reduction_features) (t : String) (hpdf : t ≠ PDF) (hchosen : t ≠ CHOSEN_ACTION) :
    (∀ a, P.tokenize ':' t = [a] →
      parse_label P ld rf [CA_LABEL, t] =
        .ok ({ costs := [{ action := P.float_of_string a, cost := FLT_MAX,
                           pdf_value := VWFloat.zero }] }, rf)) ∧
    (∀ l rf', parse_label P ld rf [CA_LABEL, t] = .ok (l, rf') →
      ∃ f, l.costs = [f] ∧
        ((P.tokenize ':' t).length < 2 → f.cost = FLT_MAX) ∧
        ((P.tokenize ':' t).length < 3 → f.pdf_value = VWFloat.zero)) := by
  constructor
  · intro a ha
    exact parse_label_single P ld rf t [] _ ⟨hpdf, hchosen⟩ (by simp) (by simp)
      (by simp [parse_cost_word, ha])
  · intro l rf' hl
    cases hw : parse_cost_word P t with
    | error e =>
      exfalso
      simp [parse_label, parse_label_loop, hpdf, hchosen, hw] at hl
    | ok f =>
      rw [parse_label_single P ld rf t [] f ⟨hpdf, hchosen⟩ (by simp) (by simp) hw] at hl
      simp only [Except.ok.injEq, Prod.mk.injEq] at hl
      exact ⟨f, by rw [← hl.1], parse_cost_word_defaults P t f hw⟩

/-- C2, witness: the word list `ca 7`. -/
theorem C2_missing_fields_default_witness :
    parse_label P0 { costs := [] } { pdf := [], chosen_action := VWFloat.nan } [CA_LABEL, "7"] =
      .ok ({ costs := [{ action := VWFloat.fin 7, cost := FLT_MAX, pdf_value := VWFloat.zero }] },
        { pdf := [], chosen_action := VWFloat.nan }) :=
  (C2_missing_fields_default P0 { costs := [] } { pdf := [], chosen_action := VWFloat.nan } "7"
    (by decide) (by decide)).1 "7" (by decide)

/-- C2, counterexample: the word `7` has exactly one field, and the entry
parsed from `ca 7` has the cost `FLT_MAX`, which is not 0. -/
theorem C2_counterexample :
    P0.tokenize ':' "7" = ["7"] ∧
      ∃ f rf, parse_label P0 { costs := [] } { pdf := [], chosen_action := VWFloat.nan }
          ["ca", "7"] = .ok ({ costs := [f] }, rf) ∧
        f.cost = FLT_MAX ∧ f.cost ≠ VWFloat.zero ∧ f.cost.eq VWFloat.zero = false := by
  refine ⟨by decide, _, _, rfl, rfl, by decide, by decide⟩

end VW

/-! ## Theorems: the csoaa reduction -/

namespace VW

namespace CSOAA

open COST_SENSITIVE

/-! ### The validation pass -/

theorem validate_cost_determined (c : csoaa) (e : wclass) (h : c.indexing ≠ -1) :
    (validate_cost c e).1 = c := by
  simp [validate_cost, h]

theorem validate_costs_determined (c : csoaa) (costs : List wclass) (h : c.indexing ≠ -1) :
    validate_costs c costs = (c, costs.map (fun e => (validate_cost c e).2)) := by
  induction costs with
  | nil => rfl
  | cons e rest ih =>
    simp only [validate_costs, validate_cost_determined c e h, ih, List.map_cons]

theorem validate_cost_skip (c : csoaa) (e : wclass) (h : c.indexing = -1)
    (h0 : e.class_index ≠ 0) (hn : e.class_index ≠ c.num_classes) :
    validate_cost c e = (c, e) := by
  simp [validate_cost, h, h0, hn]

theorem validate_cost_zero (c : csoaa) (e : wclass) (h : c.indexing = -1)
    (h0 : e.class_index = 0) (hn : 1 ≤ c.num_classes) :
    validate_cost c e = ({ c with indexing := 0 }, e) := by
  have : ¬ c.num_classes = 0 := by omega
  cases e
  simp_all [validate_cost]

theorem validate_cost_num_classes (c : csoaa) (e : wclass) (h : c.indexing = -1)
    (h0 : e.class_index ≠ 0) (hn : e.class_index = c.num_classes) :
    validate_cost c e = ({ c with indexing := 1 }, e) := by
  have h1 : ¬ c.num_classes = 0 := by omega
  have h2 : ¬ c.num_classes < 1 := by omega
  cases e
  simp_all [validate_cost]

theorem validate_cost_validated_in (c : csoaa) (e : wclass) (h : c.indexing ≠ -1)
    (hn : 1 ≤ c.num_classes) :
    validated_in c.indexing c.num_classes e (validate_cost c e).2 := by
  simp only [validated_in, validate_cost, valid_class, boundary_class, h, false_and, if_false]
  by_cases h0 : c.indexing = 0
  · simp only [h0, true_and, if_true]
    by_cases hk : e.class_index < c.num_classes
    · have : ¬ e.class_index ≥ c.num_classes := by omega
      simp [hk, this]
    · have : e.class_index ≥ c.num_classes := by omega
      simp [hk, this]; omega
  · by_cases h1 : c.indexing = 1
    · have h10 : ¬ ((1 : Int) = 0) := by decide
      simp only [h1, h10, false_and, true_and, if_true, if_false]
      by_cases hk : 1 ≤ e.class_index ∧ e.class_index ≤ c.num_classes
      · have h2 : ¬ (e.class_index = 0 ∨ c.num_classes < e.class_index) := by omega
        simp [hk, h2]
      · have h2 : e.class_index = 0 ∨ c.num_classes < e.class_index := by omega
        simp [hk, h2]
        omega
    · simp [h0, h1]

theorem forall₂_map_of_forall {α : Type} (R : α → α → Prop) (f : α → α)
    (h : ∀ a, R a (f a)) : ∀ l : List α, List.Forall₂ R l (l.map f)
  | [] => List.Forall₂.nil
  | a :: l => List.Forall₂.cons (h a) (forall₂_map_of_forall R f h l)

theorem validated_in_self (indexing : Int) (n : Nat) (e : wclass)
    (h : valid_class indexing n e.class_index = true) : validated_in indexing n e e := by
  simp [validated_in, h]

theorem validate_costs_num_classes (c : csoaa) (costs : List wclass) :
    (validate_costs c costs).1.num_classes = c.num_classes := by
  induction costs generalizing c with
  | nil => rfl
  | cons e rest ih =>
    simp only [validate_costs, ih]
    simp only [validate_cost]
    split_ifs <;> rfl

/-- The validation loop started in the undetermined mode: the entries before
the first mode-deciding one are kept, that entry and the later ones are
validated in the mode it decides. -/
theorem validate_costs_undetermined (c : csoaa) (h : c.indexing = -1) (hn : 1 ≤ c.num_classes) :
    ∀ costs : List wclass, ∃ pre post post1,
      costs = pre ++ post ∧ (validate_costs c costs).2 = pre ++ post1 ∧
      (∀ e ∈ pre, e.class_index ≠ 0 ∧ e.class_index ≠ c.num_classes) ∧
      (∀ d ∈ post.head?, d.class_index = 0 ∨ d.class_index = c.num_classes) ∧
      List.Forall₂ (validated_in (validate_costs c costs).1.indexing c.num_classes) post post1 := by
  intro costs
  induction costs with
  | nil => exact ⟨[], [], [], rfl, rfl, by simp, by simp, List.Forall₂.nil⟩
  | cons e rest ih =>
    by_cases h0 : e.class_index = 0
    · have hc : ({ c with indexing := 0 } : csoaa).indexing ≠ -1 := by simp
      refine ⟨[], e :: rest, e :: rest.map (fun a => (validate_cost { c with indexing := 0 } a).2),
        rfl, ?_, by simp, by simp [h0], ?_⟩
      · simp [validate_costs, validate_cost_zero c e h h0 hn, validate_costs_determined _ rest hc]
      · simp only [validate_costs, validate_cost_zero c e h h0 hn,
          validate_costs_determined _ rest hc]
        refine List.Forall₂.cons (validated_in_self _ _ _ ?_) ?_
        · simp [valid_class, h0]; omega
        · exact forall₂_map_of_forall _ _
            (fun a => validate_cost_validated_in { c with indexing := 0 } a hc hn) rest
    · by_cases h1 : e.class_index = c.num_classes
      · have hc : ({ c with indexing := 1 } : csoaa).indexing ≠ -1 := by simp
        refine ⟨[], e :: rest,
          e :: rest.map (fun a => (validate_cost { c with indexing := 1 } a).2),
          rfl, ?_, by simp, by simp [h1], ?_⟩
        · simp [validate_costs, validate_cost_num_classes c e h h0 h1,
            validate_costs_determined _ rest hc]
        · simp only [validate_costs, validate_cost_num_classes c e h h0 h1,
            validate_costs_determined _ rest hc]
          refine List.Forall₂.cons (validated_in_self _ _ _ ?_) ?_
          · simp [valid_class, h1]; omega
          · exact forall₂_map_of_forall _ _
              (fun a => validate_cost_validated_in { c with indexing := 1 } a hc hn) rest
      · obtain ⟨pre, post, post1, hsplit, hres, hpre, hhead, hall⟩ := ih
        refine ⟨e :: pre, post, post1, by simp [hsplit], ?_, ?_, hhead, ?_⟩
        · simp [validate_costs, validate_cost_skip c e h h0 h1, hres]
        · intro a ha
          rcases List.mem_cons.mp ha with rfl | ha
          · exact ⟨h0, h1⟩
          · exact hpre a ha
        · simpa [validate_costs, validate_cost_skip c e h h0 h1] using hall

/-- C3 (as amended): for a csoaa node with search-mode bypass off and
`num_classes ≥ 1` and every cost-sensitive label, the validation pass keeps
the entries `pre` that come before the first mode-deciding entry of a pass
started in the undetermined mode (there are none when the pass starts in mode
0 or 1), and every other entry `post` ends in the valid range of the resulting
mode: its class is kept when it lies in `[0, num_classes - 1]` (0-indexed) or
`[1, num_classes]` (1-indexed) and replaced by the boundary class (0, or
`num_classes`) otherwise. -/
theorem C3_validation_puts_classes_in_range (c : csoaa) (costs : List wclass)
    (hs : c.search = false) (hn : 1 ≤ c.num_classes) :
    ∃ pre post post1,
      costs = pre ++ post ∧ (validate c costs).2 = pre ++ post1 ∧
      (c.indexing ≠ -1 → pre = []) ∧
      (∀ e ∈ pre, e.class_index ≠ 0 ∧ e.class_index ≠ c.num_classes) ∧
      (c.indexing = -1 → ∀ d ∈ post.head?, d.class_index = 0 ∨ d.class_index = c.num_classes) ∧
      List.Forall₂ (validated_in (validate c costs).1.indexing c.num_classes) post post1 := by
  have hv : validate c costs = validate_costs c costs := by simp [validate, hs]
  rw [hv]
  by_cases h : c.indexing = -1
  · obtain ⟨pre, post, post1, h1, h2, h3, h4, h5⟩ := validate_costs_undetermined c h hn costs
    exact ⟨pre, post, post1, h1, h2, fun hne => absurd h hne, h3, fun _ => h4, h5⟩
  · refine ⟨[], costs, costs.map (fun a => (validate_cost c a).2), rfl, ?_, fun _ => rfl,
      by simp, fun h1 => absurd h1 h, ?_⟩
    · simp [validate_costs_determined c costs h]
    · rw [validate_costs_determined c costs h]
      exact forall₂_map_of_forall _ _ (fun a => validate_cost_validated_in c a h hn) costs

/-- C3, witness: three classes, the mode undetermined, the classes 5 and 0. -/
theorem C3_validation_puts_classes_in_range_witness :
    ∃ pre post post1,
      [entry 5, entry 0] = pre ++ post ∧ (validate node3 [entry 5, entry 0]).2 = pre ++ post1 ∧
      (node3.indexing ≠ -1 → pre = []) ∧
      (∀ e ∈ pre, e.class_index ≠ 0 ∧ e.class_index ≠ node3.num_classes) ∧
      (node3.indexing = -1 →
        ∀ d ∈ post.head?, d.class_index = 0 ∨ d.class_index = node3.num_classes) ∧
      List.Forall₂ (validated_in (validate node3 [entry 5, entry 0]).1.indexing node3.num_classes)
        post post1 :=
  C3_validation_puts_classes_in_range node3 [entry 5, entry 0] (by decide) (by decide)

/-- C3, counterexample: with three classes, the bypass off and the mode
undetermined, the label with the classes 5 and 0 leaves the validation pass of
`predict_or_learn` in the 0-indexed mode with the class 5 still in it, outside
`[0, 2]`. -/
theorem C3_counterexample :
    node3.search = false ∧ 1 ≤ node3.num_classes ∧
      (validate node3 [entry 5, entry 0]).1.indexing = 0 ∧
      (validate node3 [entry 5, entry 0]).2 = [entry 5, entry 0] ∧
      valid_class 0 3 (entry 5).class_index = false ∧
      (predict_or_learn true 0 node3 (scoring_base (fun _ => VWFloat.zero)) ()
        (example_of [entry 5, entry 0])).c.indexing = 0 ∧
      ((predict_or_learn true 0 node3 (scoring_base (fun _ => VWFloat.zero)) ()
        (example_of [entry 5, entry 0])).ec.l.cs.costs.map (fun e => e.class_index)) = [5, 0] := by
  decide

/-! ### What `predict_or_learn` leaves alone -/

theorem finish_c {σ : Type} (constant pt_start : Nat) (ld : label) (c : csoaa) (s : σ)
    (ec : Example) (prediction : Nat) :
    (finish constant pt_start ld c s ec prediction).c = c := by
  unfold finish; split <;> rfl

theorem finish_label {σ : Type} (constant pt_start : Nat) (ld : label) (c : csoaa) (s : σ)
    (ec : Example) (prediction : Nat) :
    (finish constant pt_start ld c s ec prediction).ec.l.cs = ld := by
  unfold finish; split <;> rfl

/-- The mode a call of `predict_or_learn` leaves in the node is the mode its
validation pass leaves. -/
theorem predict_or_learn_indexing {σ : Type} (is_learn : Bool) (constant : Nat) (c : csoaa)
    (base : single_learner σ) (s : σ) (ec : Example) :
    (predict_or_learn is_learn constant c base s ec).c.indexing =
      (validate c ec.l.cs.costs).1.indexing := by
  unfold predict_or_learn labelled_branch multipredict_branch unlabelled_branch
  simp only []
  repeat' split
  all_goals first | rfl | simp only [finish_c]

theorem validate_costs_skip_leading (c : csoaa) (h : c.indexing = -1) (rest : List wclass) :
    ∀ pre : List wclass, (∀ e ∈ pre, e.class_index ≠ 0 ∧ e.class_index ≠ c.num_classes) →
      validate_costs c (pre ++ rest) =
        ((validate_costs c rest).1, pre ++ (validate_costs c rest).2)
  | [], _ => rfl
  | e :: pre, hpre => by
    have he := hpre e (by simp)
    have ih := validate_costs_skip_leading c h rest pre (fun a ha => hpre a (by simp [ha]))
    simp [validate_costs, validate_cost_skip c e h he.1 he.2, ih]

theorem validate_costs_mode_determined (c : csoaa) (costs : List wclass) (h : c.indexing ≠ -1) :
    (validate_costs c costs).1.indexing = c.indexing := by
  rw [validate_costs_determined c costs h]

/-- The mode after validating a label whose first mode-deciding entry is `d`. -/
theorem validate_costs_first_deciding (c : csoaa) (h : c.indexing = -1)
    (pre : List wclass) (d : wclass) (post : List wclass)
    (hpre : ∀ e ∈ pre, e.class_index ≠ 0 ∧ e.class_index ≠ c.num_classes) :
    (d.class_index = 0 → (validate_costs c (pre ++ d :: post)).1.indexing = 0) ∧
    (d.class_index = c.num_classes → d.class_index ≠ 0 →
      (validate_costs c (pre ++ d :: post)).1.indexing = 1) := by
  rw [validate_costs_skip_leading c h (d :: post) pre hpre]
  constructor
  · intro h0
    have hd : validate_cost c d = ({ c with indexing := 0 }, (validate_cost c d).2) := by
      simp [validate_cost, h, h0]
    simp only [validate_costs]
    rw [hd, validate_costs_mode_determined _ post (by simp)]
  · intro hn h0
    have h1 : ¬ c.num_classes = 0 := by omega
    have hd : validate_cost c d = ({ c with indexing := 1 }, (validate_cost c d).2) := by
      simp [validate_cost, h, h0, hn, h1]
    simp only [validate_costs]
    rw [hd, validate_costs_mode_determined _ post (by simp)]

/-- C4: with the bypass off and the mode undetermined, a call of
`predict_or_learn` on a label whose first mode-deciding entry `d` (the first
entry with class 0 or `num_classes`) has class 0 leaves the node 0-indexed, and
one whose first mode-deciding entry has the class `num_classes`, the case of
line 82 where the class is not 0, leaves it 1-indexed; and a call made in mode
0 or 1 leaves the mode as it is, whatever the example, the base learner and
the way the call ends. -/
theorem C4_indexing_mode_detected_then_fixed {σ : Type} (is_learn : Bool) (constant : Nat)
    (c : csoaa) (base : single_learner σ) (s : σ) (ec : Example) :
    (c.search = false → c.indexing = -1 →
      ∀ pre d post, ec.l.cs.costs = pre ++ d :: post →
        (∀ e ∈ pre, e.class_index ≠ 0 ∧ e.class_index ≠ c.num_classes) →
        (d.class_index = 0 →
          (predict_or_learn is_learn constant c base s ec).c.indexing = 0) ∧
        (d.class_index = c.num_classes → d.class_index ≠ 0 →
          (predict_or_learn is_learn constant c base s ec).c.indexing = 1)) ∧
    (c.indexing = 0 ∨ c.indexing = 1 →
      (predict_or_learn is_learn constant c base s ec).c.indexing = c.indexing) := by
  rw [predict_or_learn_indexing]
  constructor
  · intro hs h pre d post hsplit hpre
    have hv : validate c ec.l.cs.costs = validate_costs c (pre ++ d :: post) := by
      simp [validate, hs, hsplit]
    rw [hv]
    exact validate_costs_first_deciding c h pre d post hpre
  · intro h
    have hne : c.indexing ≠ -1 := by
      rcases h with h | h <;> rw [h] <;> decide
    unfold validate
    split
    · exact validate_costs_mode_determined c _ hne
    · rfl

/-- C4, witness: three classes and the bypass off. The label with the classes
2, 0, 3 makes the undetermined node 0-indexed, the label with the classes 2, 3,
0 makes it 1-indexed, and a later call on a label with the class 0 leaves a
1-indexed node 1-indexed. -/
theorem C4_indexing_mode_detected_then_fixed_witness :
    (predict_or_learn true 0 node3 (scoring_base (fun _ => VWFloat.zero)) ()
      (example_of [entry 2, entry 0, entry 3])).c.indexing = 0 ∧
    (predict_or_learn true 0 node3 (scoring_base (fun _ => VWFloat.zero)) ()
      (example_of [entry 2, entry 3, entry 0])).c.indexing = 1 ∧
    (predict_or_learn true 0 { node3 with indexing := 1 } (scoring_base (fun _ => VWFloat.zero)) ()
      (example_of [entry 0])).c.indexing = 1 :=
  ⟨((C4_indexing_mode_detected_then_fixed true 0 node3 (scoring_base (fun _ => VWFloat.zero)) ()
      (example_of [entry 2, entry 0, entry 3])).1 rfl rfl [entry 2] (entry 0) [entry 3] rfl
      (by decide)).1 rfl,
   ((C4_indexing_mode_detected_then_fixed true 0 node3 (scoring_base (fun _ => VWFloat.zero)) ()
      (example_of [entry 2, entry 3, entry 0])).1 rfl rfl [entry 2] (entry 3) [entry 0] rfl
      (by decide)).2 rfl (by decide),
   (C4_indexing_mode_detected_then_fixed true 0 { node3 with indexing := 1 }
      (scoring_base (fun _ => VWFloat.zero)) () (example_of [entry 0])).2 (Or.inr rfl)⟩


/-! ### The label across a call -/

/-- The loop over the cost entries changes no cost and no class, whether or
not the base learner throws. -/
theorem costs_loop_keeps_entries {σ : Type} (is_learn : Bool) (base : single_learner σ)
    (indexing : Int) :
    ∀ (costs : List wclass) (s : σ) (ec : Example) (prediction : Nat) (score : VWFloat),
      (costs_loop is_learn base indexing costs s ec prediction score).costs.map
          (fun e => (e.class_index, e.x)) =
        costs.map (fun e => (e.class_index, e.x))
  | [], _, _, _, _ => rfl
  | cl :: rest, s, ec, prediction, score => by
    unfold costs_loop
    simp only []
    split
    · rfl
    · simp only [List.map_cons, List.cons.injEq, true_and]
      exact costs_loop_keeps_entries is_learn base indexing rest _ _ _ _

theorem labelled_branch_label {σ : Type} (is_learn : Bool) (constant : Nat) (c : csoaa)
    (base : single_learner σ) (s : σ) (ec : Example) (ld : label) (prediction : Nat)
    (score : VWFloat) (pt_start : Nat) :
    (labelled_branch is_learn constant c base s ec ld prediction score pt_start).ec.l.cs.costs.map
        (fun e => (e.class_index, e.x)) =
      ld.costs.map (fun e => (e.class_index, e.x)) := by
  unfold labelled_branch
  simp only []
  split
  · simp only [restore_guard, costs_loop_keeps_entries]
  · simp only [finish_label, costs_loop_keeps_entries]

theorem multipredict_branch_label {σ : Type} (constant : Nat) (c : csoaa)
    (base : single_learner σ) (s : σ) (ec : Example) (ld : label) (prediction : Nat)
    (pt_start : Nat) :
    (multipredict_branch constant c base s ec ld prediction pt_start).ec.l.cs = ld := by
  unfold multipredict_branch
  simp only []
  repeat' split
  all_goals first | rfl | simp only [finish_label]

theorem unlabelled_branch_label {σ : Type} (constant : Nat) (c : csoaa)
    (base : single_learner σ) (s : σ) (ec : Example) (ld : label) (prediction : Nat)
    (score : VWFloat) (pt_start : Nat) :
    (unlabelled_branch constant c base s ec ld prediction score pt_start).ec.l.cs = ld := by
  unfold unlabelled_branch
  simp only []
  split
  · rfl
  · simp only [finish_label]

/-- The label an exit of `predict_or_learn` leaves in the example, as far as
costs and classes go, is the label its validation pass produced. -/
theorem predict_or_learn_label {σ : Type} (is_learn : Bool) (constant : Nat) (c : csoaa)
    (base : single_learner σ) (s : σ) (ec : Example) :
    (predict_or_learn is_learn constant c base s ec).ec.l.cs.costs.map
        (fun e => (e.class_index, e.x)) =
      (validate c ec.l.cs.costs).2.map (fun e => (e.class_index, e.x)) := by
  unfold predict_or_learn
  simp only []
  split
  · exact labelled_branch_label _ _ _ _ _ _ _ _ _ _
  · split
    · rw [multipredict_branch_label]
    · rw [unlabelled_branch_label]

/-- C5: for every example and every base learner, also one that throws partway
through the cost entries, when `predict_or_learn` exits, by returning or by
letting the exception through, the cost-sensitive label of the example is
again the label the validation pass produced: the same number of entries in
the same order, each with the same class and cost. -/
theorem C5_label_restored_on_every_exit {σ : Type} (is_learn : Bool) (constant : Nat)
    (c : csoaa) (base : single_learner σ) (s : σ) (ec : Example)
    (_hexit : (predict_or_learn is_learn constant c base s ec).status = exit_status.returned ∨
      (predict_or_learn is_learn constant c base s ec).status = exit_status.threw) :
    (predict_or_learn is_learn constant c base s ec).ec.l.cs.costs.length =
        (validate c ec.l.cs.costs).2.length ∧
      (predict_or_learn is_learn constant c base s ec).ec.l.cs.costs.map
          (fun e => (e.class_index, e.x)) =
        (validate c ec.l.cs.costs).2.map (fun e => (e.class_index, e.x)) := by
  have h := predict_or_learn_label is_learn constant c base s ec
  refine ⟨?_, h⟩
  have hl := congrArg List.length h
  simpa using hl

/-- C5, witness: a learn call in which the base learner throws at the second
of three cost entries. -/
theorem C5_label_restored_on_every_exit_witness :
    (predict_or_learn true 0 { node3 with indexing := 1 }
        (failing_base (fun _ => VWFloat.zero) 1) ()
        (example_of [entry 1, entry 2, entry 7])).status = exit_status.threw ∧
      (predict_or_learn true 0 { node3 with indexing := 1 }
        (failing_base (fun _ => VWFloat.zero) 1) ()
        (example_of [entry 1, entry 2, entry 7])).ec.l.cs.costs.map
          (fun e => (e.class_index, e.x)) = [(1, VWFloat.fin 1), (2, VWFloat.fin 1), (3, VWFloat.fin 1)] :=
  ⟨by decide,
   (C5_label_restored_on_every_exit true 0 { node3 with indexing := 1 }
      (failing_base (fun _ => VWFloat.zero) 1) ()
      (example_of [entry 1, entry 2, entry 7]) (Or.inr (by decide))).2.trans (by decide)⟩


theorem validate_costs_keeps (c : csoaa) :
    ∀ costs : List wclass,
      (validate_costs c costs).2.map (fun e => (e.x, e.partial_prediction)) =
        costs.map (fun e => (e.x, e.partial_prediction)) := by
  intro costs
  induction costs generalizing c with
  | nil => rfl
  | cons e rest ih =>
    simp only [validate_costs, List.map_cons, ih]
    rfl

/-- The validation pass changes no cost and no stored score, and with the
bypass on it changes nothing. -/
theorem validate_keeps (c : csoaa) (costs : List wclass) :
    (validate c costs).2.map (fun e => (e.x, e.partial_prediction)) =
        costs.map (fun e => (e.x, e.partial_prediction)) ∧
      (c.search = true → validate c costs = (c, costs)) := by
  unfold validate
  constructor
  · split
    · exact validate_costs_keeps c costs
    · rfl
  · intro h
    simp [h]

theorem add_passthrough_feature_keeps (ec : Example) (i : Nat) (x : VWFloat) :
    (add_passthrough_feature ec i x).partial_prediction = ec.partial_prediction ∧
      (add_passthrough_feature ec i x).pred = ec.pred ∧
      (add_passthrough_feature ec i x).l = ec.l ∧
      (add_passthrough_feature ec i x).weight = ec.weight := by
  unfold add_passthrough_feature
  split <;> exact ⟨rfl, rfl, rfl, rfl⟩

theorem passthrough_tail_keeps (constant pt_start : Nat) (ec ec1 : Example)
    (h : passthrough_tail constant pt_start ec = some ec1) :
    ec1.partial_prediction = ec.partial_prediction ∧ ec1.pred = ec.pred ∧ ec1.l = ec.l ∧
      ec1.weight = ec.weight := by
  unfold passthrough_tail at h
  split at h
  · cases h; exact ⟨rfl, rfl, rfl, rfl⟩
  · split at h
    · cases h
    · simp only [] at h
      split at h <;> cases h <;> simp only [add_passthrough_feature_keeps, and_self]

theorem finish_state {σ : Type} (constant pt_start : Nat) (ld : label) (c : csoaa) (s : σ)
    (ec : Example) (prediction : Nat) :
    (finish constant pt_start ld c s ec prediction).state = s := by
  unfold finish; split <;> rfl

theorem finish_not_threw {σ : Type} (constant pt_start : Nat) (ld : label) (c : csoaa) (s : σ)
    (ec : Example) (prediction : Nat) :
    (finish constant pt_start ld c s ec prediction).status ≠ exit_status.threw := by
  unfold finish; split <;> simp

/-- What a returning `finish` leaves in the example. -/
theorem finish_returned {σ : Type} (constant pt_start : Nat) (ld : label) (c : csoaa) (s : σ)
    (ec : Example) (prediction : Nat)
    (h : (finish constant pt_start ld c s ec prediction).status = exit_status.returned) :
    (finish constant pt_start ld c s ec prediction).ec.partial_prediction =
        ec.partial_prediction ∧
      (finish constant pt_start ld c s ec prediction).ec.pred.multiclass = prediction ∧
      (finish constant pt_start ld c s ec prediction).ec.weight = ec.weight := by
  unfold finish at h ⊢
  split
  · rename_i hnone
    simp [hnone] at h
  · rename_i ec1 hsome
    have hk := passthrough_tail_keeps constant pt_start ec ec1 hsome
    exact ⟨hk.1, rfl, hk.2.2.2⟩

/-- What a returning labelled branch leaves behind, in terms of its loop. -/
theorem labelled_branch_returned {σ : Type} (is_learn : Bool) (constant : Nat) (c : csoaa)
    (base : single_learner σ) (s : σ) (ec : Example) (ld : label) (prediction : Nat)
    (score : VWFloat) (pt_start : Nat)
    (h : (labelled_branch is_learn constant c base s ec ld prediction score pt_start).status =
      exit_status.returned) :
    (costs_loop is_learn base c.indexing ld.costs s ec prediction score).threw = false ∧
      (labelled_branch is_learn constant c base s ec ld prediction score pt_start).state =
        (costs_loop is_learn base c.indexing ld.costs s ec prediction score).state ∧
      (labelled_branch is_learn constant c base s ec ld prediction score pt_start).ec.l.cs.costs =
        (costs_loop is_learn base c.indexing ld.costs s ec prediction score).costs ∧
      (labelled_branch is_learn constant c base s ec ld prediction score
          pt_start).ec.partial_prediction =
        (costs_loop is_learn base c.indexing ld.costs s ec prediction score).score ∧
      (labelled_branch is_learn constant c base s ec ld prediction score
          pt_start).ec.pred.multiclass =
        (costs_loop is_learn base c.indexing ld.costs s ec prediction score).prediction ∧
      (labelled_branch is_learn constant c base s ec ld prediction score pt_start).ec.weight =
        (costs_loop is_learn base c.indexing ld.costs s ec prediction score).ec.weight := by
  unfold labelled_branch at h ⊢
  simp only [] at h ⊢
  split at h
  · simp at h
  · rename_i hthrew
    rw [if_neg hthrew]
    have hf := finish_returned _ _ _ _ _ _ _ h
    refine ⟨by simpa using hthrew, finish_state _ _ _ _ _ _ _, ?_, hf.1, hf.2.1, hf.2.2⟩
    rw [finish_label]

/-- The labelled branch is the branch `predict_or_learn` takes on a label with
entries. -/
theorem predict_or_learn_labelled {σ : Type} (is_learn : Bool) (constant : Nat) (c : csoaa)
    (base : single_learner σ) (s : σ) (ec : Example) (h : ec.l.cs.costs ≠ []) :
    predict_or_learn is_learn constant c base s ec =
      labelled_branch is_learn constant (validate c ec.l.cs.costs).1 base s (prepare ec)
        { costs := (validate c ec.l.cs.costs).2 }
        (default_prediction (validate c ec.l.cs.costs).1.indexing) FLT_MAX
        (passthrough_size ec) := by
  have hne : (validate c ec.l.cs.costs).2 ≠ [] := by
    intro h0
    have := congrArg List.length (validate_keeps c ec.l.cs.costs).1
    rw [h0] at this
    simp only [List.map_nil, List.length_nil, List.length_map] at this
    exact h (List.length_eq_zero.mp this.symm)
  unfold predict_or_learn
  simp only []
  rw [if_pos]
  simpa using hne


/-! ### The calls the base learner receives -/

/-- One call of `inner_loop` on a recording base learner logs one call. -/
theorem inner_loop_recorded {σ : Type} (is_learn : Bool) (base : single_learner σ) (s : σ)
    (log : List base_call) (ec : Example) (i : Nat) (cost : VWFloat) (prediction : Nat)
    (score partial_prediction : VWFloat) (indexing : Int) :
    ∃ call : base_call,
      (inner_loop is_learn (recording base) (s, log) ec i cost prediction score
          partial_prediction indexing).state.2 = log ++ [call] ∧
      call.kind = (if is_learn then call_kind.learn else call_kind.predict) ∧
      call.offset = offset indexing i ∧
      (is_learn = true → call.label = cost ∧
        call.weight = if cost.eq FLT_MAX then VWFloat.zero else VWFloat.one) ∧
      ((inner_loop is_learn (recording base) (s, log) ec i cost prediction score
          partial_prediction indexing).threw = false →
        call.score = (inner_loop is_learn (recording base) (s, log) ec i cost prediction score
          partial_prediction indexing).partial_prediction) := by
  cases is_learn
  · refine ⟨{ kind := call_kind.predict, offset := offset indexing i, count := 1,
              label := ec.l.simple, weight := ec.weight,
              score := (base.predict s ec (offset indexing i)).ec.partial_prediction },
      ?_, rfl, rfl, by simp, ?_⟩
    · simp only [inner_loop, inner_call, recording, Bool.false_eq_true, if_false]
      split_ifs <;> rfl
    · simp only [inner_loop, inner_call, recording, Bool.false_eq_true, if_false]
      split_ifs <;> simp
  · refine ⟨{ kind := call_kind.learn, offset := offset indexing i, count := 1,
              label := cost, weight := if cost.eq FLT_MAX then VWFloat.zero else VWFloat.one,
              score := (base.learn s
                { ec with weight := if cost.eq FLT_MAX then VWFloat.zero else VWFloat.one,
                          l := { ec.l with simple := cost } }
                (offset indexing i)).ec.partial_prediction },
      ?_, rfl, rfl, fun _ => ⟨rfl, rfl⟩, ?_⟩
    · simp only [inner_loop, inner_call, recording, if_true]
      split_ifs <;> rfl
    · simp only [inner_loop, inner_call, recording, if_true]
      split_ifs <;> simp

/-- The log of a loop over the cost entries that the base learner lets run to
its end: one call per entry, in the order of the entries. -/
theorem costs_loop_recorded {σ : Type} (is_learn : Bool) (base : single_learner σ)
    (indexing : Int) :
    ∀ (costs : List wclass) (s : σ) (log : List base_call) (ec : Example) (prediction : Nat)
      (score : VWFloat),
      (costs_loop is_learn (recording base) indexing costs (s, log) ec prediction score).threw =
        false →
      ∃ calls : List base_call,
        (costs_loop is_learn (recording base) indexing costs (s, log) ec prediction
          score).state.2 = log ++ calls ∧
        calls.map (fun k => k.score) =
          (costs_loop is_learn (recording base) indexing costs (s, log) ec prediction
            score).costs.map (fun e => e.partial_prediction) ∧
        calls.map (fun k => (k.kind, k.offset)) =
          costs.map (fun e => (if is_learn then call_kind.learn else call_kind.predict,
            offset indexing e.class_index)) ∧
        (is_learn = true → calls.map (fun k => (k.label, k.weight)) =
          costs.map (fun e => (e.x, if e.x.eq FLT_MAX then VWFloat.zero else VWFloat.one)))
  | [], s, log, ec, prediction, score, _ => ⟨[], by simp [costs_loop], rfl, rfl, fun _ => rfl⟩
  | cl :: rest, s, log, ec, prediction, score, hthrew => by
    obtain ⟨call, hlog, hkind, hoff, hlearn, hscore⟩ :=
      inner_loop_recorded is_learn base s log ec cl.class_index cl.x prediction score
        cl.partial_prediction indexing
    unfold costs_loop at hthrew ⊢
    simp only [] at hthrew ⊢
    split at hthrew
    · simp at hthrew
    · rename_i hin
      rw [if_neg hin]
      have hin1 : (inner_loop is_learn (recording base) (s, log) ec cl.class_index cl.x
          prediction score cl.partial_prediction indexing).threw = false := by simpa using hin
      generalize hr : inner_loop is_learn (recording base) (s, log) ec cl.class_index cl.x
          prediction score cl.partial_prediction indexing = r at *
      obtain ⟨⟨s1, log1⟩, ec1, p1, sc1, pp1, t1⟩ := r
      simp only at hlog hscore hthrew hin1
      subst hlog
      obtain ⟨calls, h1, h2, h3, h4⟩ :=
        costs_loop_recorded is_learn base indexing rest s1 (log ++ [call]) ec1 p1 sc1 hthrew
      refine ⟨call :: calls, ?_, ?_, ?_, ?_⟩
      · simp only [h1, List.append_assoc, List.singleton_append]
      · simp only [List.map_cons, h2, hscore hin1]
      · simp only [List.map_cons, h3, hkind, hoff]
      · intro hl
        simp only [List.map_cons, h4 hl, (hlearn hl).1, (hlearn hl).2]


theorem labelled_branch_state {σ : Type} (is_learn : Bool) (constant : Nat) (c : csoaa)
    (base : single_learner σ) (s : σ) (ec : Example) (ld : label) (prediction : Nat)
    (score : VWFloat) (pt_start : Nat) :
    (labelled_branch is_learn constant c base s ec ld prediction score pt_start).state =
      (costs_loop is_learn base c.indexing ld.costs s ec prediction score).state := by
  unfold labelled_branch
  simp only []
  split
  · rfl
  · exact finish_state _ _ _ _ _ _ _

/-- A base learner whose `learn` never throws lets the learn loop run to its
end. -/
theorem costs_loop_learn_runs {σ : Type} (base : single_learner σ) (indexing : Int)
    (hbase : ∀ s ec i, (base.learn s ec i).threw = false) :
    ∀ (costs : List wclass) (s : σ) (ec : Example) (prediction : Nat) (score : VWFloat),
      (costs_loop true base indexing costs s ec prediction score).threw = false
  | [], _, _, _, _ => rfl
  | cl :: rest, s, ec, prediction, score => by
    have hin : (inner_loop true base s ec cl.class_index cl.x prediction score
        cl.partial_prediction indexing).threw = false := by
      simp only [inner_loop, inner_call, if_true, hbase]
      rfl
    unfold costs_loop
    simp only [hin, Bool.false_eq_true, if_false]
    exact costs_loop_learn_runs base indexing hbase rest _ _ _ _

/-- C6 (as amended): for every csoaa node state, every example and every base
learner, after `predict` returns the cost-sensitive label of the example has
the entries it had before the call, in the same order and with the same costs;
the class of each entry is the class the validation pass leaves (the class it
had before the call when the bypass is on), and the partial_prediction of each
entry is the score the base learner left for that entry. -/
theorem C6_predict_keeps_costs_stores_scores {σ : Type} (constant : Nat) (c : csoaa)
    (base : single_learner σ) (s : σ) (ec : Example)
    (hret : (predict_or_learn false constant c (recording base) (s, []) ec).status =
      exit_status.returned) :
    (predict_or_learn false constant c (recording base) (s, []) ec).ec.l.cs.costs.map
        (fun e => e.x) = ec.l.cs.costs.map (fun e => e.x) ∧
      (predict_or_learn false constant c (recording base) (s, []) ec).ec.l.cs.costs.map
        (fun e => e.class_index) = (validate c ec.l.cs.costs).2.map (fun e => e.class_index) ∧
      (c.search = true →
        (predict_or_learn false constant c (recording base) (s, []) ec).ec.l.cs.costs.map
          (fun e => e.class_index) = ec.l.cs.costs.map (fun e => e.class_index)) ∧
      (ec.l.cs.costs ≠ [] →
        (predict_or_learn false constant c (recording base) (s, []) ec).ec.l.cs.costs.map
          (fun e => e.partial_prediction) =
        (predict_or_learn false constant c (recording base) (s, []) ec).state.2.map
          (fun k => k.score)) := by
  have hlab := predict_or_learn_label false constant c (recording base) (s, []) ec
  have hkeep := validate_keeps c ec.l.cs.costs
  have hcls : (predict_or_learn false constant c (recording base) (s, []) ec).ec.l.cs.costs.map
      (fun e => e.class_index) = (validate c ec.l.cs.costs).2.map (fun e => e.class_index) := by
    have := congrArg (List.map Prod.fst) hlab
    simpa [List.map_map, Function.comp_def] using this
  refine ⟨?_, hcls, ?_, ?_⟩
  · have h1 := congrArg (List.map Prod.snd) hlab
    have h2 := congrArg (List.map Prod.fst) hkeep.1
    simp only [List.map_map, Function.comp_def] at h1 h2
    rw [h1, h2]
  · intro hs
    rw [hcls, hkeep.2 hs]
  · intro hne
    rw [predict_or_learn_labelled false constant c (recording base) (s, []) ec hne] at hret ⊢
    obtain ⟨hthrew, hstate, hcosts, -, -, -⟩ := labelled_branch_returned _ _ _ _ _ _ _ _ _ _ hret
    obtain ⟨calls, h1, h2, -, -⟩ := costs_loop_recorded false base _ _ s [] _ _ _ hthrew
    rw [hstate, hcosts, h1, List.nil_append, h2]

/-- C6, witness: a predict call on a 1-indexed node with three classes, on the
label with the classes 1 and 7, with a base learner that scores 9. -/
theorem C6_predict_keeps_costs_stores_scores_witness :
    (predict_or_learn false 0 { node3 with indexing := 1 }
        (recording (scoring_base (fun _ => VWFloat.fin 9))) ((), [])
        (example_of [entry 1, entry 7])).ec.l.cs.costs =
      [{ x := VWFloat.fin 1, class_index := 1, partial_prediction := VWFloat.fin 9 },
       { x := VWFloat.fin 1, class_index := 3, partial_prediction := VWFloat.fin 9 }] ∧
    (predict_or_learn false 0 { node3 with indexing := 1 }
        (recording (scoring_base (fun _ => VWFloat.fin 9))) ((), [])
        (example_of [entry 1, entry 7])).ec.l.cs.costs.map (fun e => e.partial_prediction) =
      (predict_or_learn false 0 { node3 with indexing := 1 }
        (recording (scoring_base (fun _ => VWFloat.fin 9))) ((), [])
        (example_of [entry 1, entry 7])).state.2.map (fun k => k.score) :=
  ⟨by decide,
   (C6_predict_keeps_costs_stores_scores 0 { node3 with indexing := 1 }
      (scoring_base (fun _ => VWFloat.fin 9)) () (example_of [entry 1, entry 7])
      (by decide)).2.2.2 (by decide)⟩

/-- C6, counterexample: a predict call on a 1-indexed node with three classes
returns with a label that differs from the label before the call: the
partial_prediction 0 of the entry has become the score 9. -/
theorem C6_counterexample :
    (predict_or_learn false 0 { node3 with indexing := 1 }
        (scoring_base (fun _ => VWFloat.fin 9)) () (example_of [entry 1])).status =
      exit_status.returned ∧
    (example_of [entry 1]).l.cs.costs =
      [{ x := VWFloat.fin 1, class_index := 1, partial_prediction := VWFloat.zero }] ∧
    (predict_or_learn false 0 { node3 with indexing := 1 }
        (scoring_base (fun _ => VWFloat.fin 9)) () (example_of [entry 1])).ec.l.cs.costs =
      [{ x := VWFloat.fin 1, class_index := 1, partial_prediction := VWFloat.fin 9 }] ∧
    (predict_or_learn false 0 { node3 with indexing := 1 }
        (scoring_base (fun _ => VWFloat.fin 9)) () (example_of [entry 1])).ec.l.cs ≠
      (example_of [entry 1]).l.cs := by
  decide

/-- In a determined mode the validation loop leaves an entry whose class lies
in the range of the mode as it is. -/
theorem validate_cost_valid (c : csoaa) (e : wclass) (h : c.indexing ≠ -1)
    (hv : valid_class c.indexing c.num_classes e.class_index = true) :
    (validate_cost c e).2 = e := by
  unfold valid_class at hv
  by_cases h0 : c.indexing = 0
  · simp only [h0, if_true, decide_eq_true_eq] at hv
    have : ¬ e.class_index ≥ c.num_classes := by omega
    simp [validate_cost, h0, this]
  · by_cases h1 : c.indexing = 1
    · have h10 : ¬ ((1 : Int) = 0) := by decide
      simp only [h1, h10, if_false, if_true, decide_eq_true_eq] at hv
      have h2 : ¬ (e.class_index = 0 ∨ c.num_classes < e.class_index) := by omega
      simp [validate_cost, h1, h2]
    · simp [validate_cost, h, h0, h1]

/-- In a determined mode the validation pass leaves a label whose classes all
lie in the range of the mode as it is. -/
theorem validate_valid (c : csoaa) (costs : List wclass) (h : c.indexing ≠ -1)
    (hv : ∀ e ∈ costs, valid_class c.indexing c.num_classes e.class_index = true) :
    validate c costs = (c, costs) := by
  unfold validate
  split
  · rw [validate_costs_determined c costs h]
    congr 1
    conv_rhs => rw [← List.map_id costs]
    exact List.map_congr_left (fun e he => validate_cost_valid c e h (hv e he))
  · rfl

/-- C9 (as amended): for a label with the entries `e1 .. en`, `n ≥ 1`, and a
base learner whose `learn` returns, `learn` issues exactly `n` calls of the
base learner, all of them learn calls, in the order of the entries; the j-th
call sees the scalar label `cost_j` and the weight 0 when `cost_j == FLT_MAX`
and 1 otherwise, and its offset is the class of the j-th entry as the
validation pass of the call leaves it when the node is then 0-indexed, and
that class minus one in `uint32_t` arithmetic otherwise. The class is the one
of the label handed in when the bypass is on, and when the mode is determined
before the call and the classes of the label lie in the range of the mode. -/
theorem C9_learn_calls_base_once_per_entry {σ : Type} (constant : Nat) (c : csoaa)
    (base : single_learner σ) (s : σ) (ec : Example) (hne : ec.l.cs.costs ≠ [])
    (hbase : ∀ s ec i, (base.learn s ec i).threw = false) :
    (predict_or_learn true constant c (recording base) (s, []) ec).state.2.length =
        ec.l.cs.costs.length ∧
      (∀ k ∈ (predict_or_learn true constant c (recording base) (s, []) ec).state.2,
        k.kind = call_kind.learn) ∧
      (predict_or_learn true constant c (recording base) (s, []) ec).state.2.map
          (fun k => (k.label, k.weight)) =
        ec.l.cs.costs.map
          (fun e => (e.x, if e.x.eq FLT_MAX then VWFloat.zero else VWFloat.one)) ∧
      (predict_or_learn true constant c (recording base) (s, []) ec).state.2.map
          (fun k => k.offset) =
        (validate c ec.l.cs.costs).2.map
          (fun e => if (validate c ec.l.cs.costs).1.indexing = 0 then e.class_index
            else (e.class_index + 2 ^ 32 - 1) % 2 ^ 32) ∧
      (c.search = true →
        (predict_or_learn true constant c (recording base) (s, []) ec).state.2.map
            (fun k => k.offset) =
          ec.l.cs.costs.map
            (fun e => if c.indexing = 0 then e.class_index
              else (e.class_index + 2 ^ 32 - 1) % 2 ^ 32)) ∧
      (c.indexing ≠ -1 →
        (∀ e ∈ ec.l.cs.costs, valid_class c.indexing c.num_classes e.class_index = true) →
        (predict_or_learn true constant c (recording base) (s, []) ec).state.2.map
            (fun k => k.offset) =
          ec.l.cs.costs.map
            (fun e => if c.indexing = 0 then e.class_index
              else (e.class_index + 2 ^ 32 - 1) % 2 ^ 32)) := by
  have hrun := costs_loop_learn_runs (recording base) (validate c ec.l.cs.costs).1.indexing
    (fun s ec i => hbase s.1 ec i) (validate c ec.l.cs.costs).2 (s, []) (prepare ec)
    (default_prediction (validate c ec.l.cs.costs).1.indexing) FLT_MAX
  obtain ⟨calls, h1, -, h3, h4⟩ := costs_loop_recorded true base _ _ s [] _ _ _ hrun
  have hstate : (predict_or_learn true constant c (recording base) (s, []) ec).state.2 = calls := by
    rw [predict_or_learn_labelled true constant c (recording base) (s, []) ec hne,
      labelled_branch_state, h1, List.nil_append]
  have hkeep := validate_keeps c ec.l.cs.costs
  have hoff : calls.map (fun k => k.offset) =
      (validate c ec.l.cs.costs).2.map
        (fun e => if (validate c ec.l.cs.costs).1.indexing = 0 then e.class_index
          else (e.class_index + 2 ^ 32 - 1) % 2 ^ 32) := by
    have := congrArg (List.map Prod.snd) h3
    simpa [List.map_map, Function.comp_def, offset] using this
  rw [hstate]
  refine ⟨?_, ?_, ?_, hoff, ?_, fun hd hv => by rw [hoff, validate_valid c _ hd hv]⟩
  · have h5 := congrArg List.length h3
    have h6 := congrArg List.length hkeep.1
    simp only [List.length_map] at h5 h6
    rw [h5, h6]
  · intro k hk
    have h5 := congrArg (List.map Prod.fst) h3
    simp only [List.map_map, Function.comp_def, if_true] at h5
    have hmem : k.kind ∈ calls.map (fun k => k.kind) := List.mem_map_of_mem _ hk
    rw [h5] at hmem
    simp only [List.mem_map] at hmem
    obtain ⟨e, -, he⟩ := hmem
    exact he.symm
  · rw [h4 rfl]
    have h5 := congrArg (List.map Prod.fst) hkeep.1
    simp only [List.map_map, Function.comp_def] at h5
    have h6 : ∀ l : List wclass,
        l.map (fun e => (e.x, if e.x.eq FLT_MAX then VWFloat.zero else VWFloat.one)) =
          (l.map (fun e => e.x)).map
            (fun x => (x, if x.eq FLT_MAX then VWFloat.zero else VWFloat.one)) := by
      intro l; simp [List.map_map, Function.comp_def]
    rw [h6, h6 ec.l.cs.costs, h5]
  · intro hs
    rw [hoff, hkeep.2 hs]

/-- C9, witness: learn on a 1-indexed node with three classes, on a label with
the costs 1 and `FLT_MAX` for the classes 2 and 1. -/
theorem C9_learn_calls_base_once_per_entry_witness :
    (predict_or_learn true 0 { node3 with indexing := 1 }
        (recording (scoring_base (fun _ => VWFloat.zero))) ((), [])
        (example_of [entry 2, unknown_cost_entry 1])).state.2.map
          (fun k => (k.label, k.weight)) =
      [(VWFloat.fin 1, VWFloat.one), (FLT_MAX, VWFloat.zero)] :=
  (C9_learn_calls_base_once_per_entry 0 { node3 with indexing := 1 }
      (scoring_base (fun _ => VWFloat.zero)) ()
      (example_of [entry 2, unknown_cost_entry 1])
      (by decide) (fun _ _ _ => rfl)).2.2.1.trans (by decide)

/-- C9, counterexample: on a 1-indexed node with three classes and the bypass
off, `learn` on the label with the one class 7 calls the base learner at the
offset 2, the boundary class 3 minus one, and not at the offset 7 - 1 = 6. -/
theorem C9_counterexample :
    (predict_or_learn true 0 { node3 with indexing := 1 }
        (recording (scoring_base (fun _ => VWFloat.zero))) ((), [])
        (example_of [entry 7])).status = exit_status.returned ∧
      (predict_or_learn true 0 { node3 with indexing := 1 }
        (recording (scoring_base (fun _ => VWFloat.zero))) ((), [])
        (example_of [entry 7])).state.2.map (fun k => (k.kind, k.offset)) =
        [(call_kind.learn, 2)] ∧
      (example_of [entry 7]).l.cs.costs.map
        (fun e => (e.class_index + 2 ^ 32 - 1) % 2 ^ 32) = [6] := by
  decide

end CSOAA

end VW

namespace VW
open CSOAA COST_SENSITIVE

/-! ### The order of scores -/

end VW

namespace VW
namespace CSOAA
open COST_SENSITIVE

/-! ### The class chosen on a label with entries -/

/-- Lines 57-62: a returning `inner_loop` keeps the smaller of the pair it was
handed and the pair of the score of the base learner and the class `i`. -/
theorem inner_loop_min {σ : Type} (is_learn : Bool) (base : single_learner σ) (s : σ)
    (ec : Example) (i : Nat) (cost : VWFloat) (prediction : Nat)
    (score partial_prediction : VWFloat) (indexing : Int)
    (h : (inner_loop is_learn base s ec i cost prediction score partial_prediction
      indexing).threw = false) :
    ((inner_loop is_learn base s ec i cost prediction score partial_prediction indexing).score,
      (inner_loop is_learn base s ec i cost prediction score partial_prediction
        indexing).prediction) =
      if lex_lt ((inner_loop is_learn base s ec i cost prediction score partial_prediction
          indexing).partial_prediction, i) (score, prediction) = true
      then ((inner_loop is_learn base s ec i cost prediction score partial_prediction
          indexing).partial_prediction, i)
      else (score, prediction) := by
  unfold inner_loop at h ⊢
  simp only [] at h ⊢
  generalize inner_call is_learn base s ec i cost indexing = r at h ⊢
  by_cases hthrew : r.threw = true
  · simp [hthrew] at h
  · simp only [if_neg hthrew, lex_lt]
    split <;> rfl

end CSOAA
end VW

namespace VW

theorem VWFloat.lt_irrefl_of (a : VWFloat) : a.lt a = false := by
  cases a <;> simp [VWFloat.lt]

theorem VWFloat.lt_trans_of (a b c : VWFloat) (h1 : a.lt b = true) (h2 : b.lt c = true) :
    a.lt c = true := by
  cases a <;> cases b <;> cases c <;> simp_all [VWFloat.lt]
  exact lt_trans h1 h2

theorem VWFloat.lt_of_eq_of_lt (a b c : VWFloat) (h1 : a.eq b = true) (h2 : b.lt c = true) :
    a.lt c = true := by
  cases a <;> cases b <;> cases c <;> simp_all [VWFloat.lt, VWFloat.eq]

/-- A float below another is no NaN. -/
theorem VWFloat.not_nan_of_lt (a b : VWFloat) (h : a.lt b = true) : a.isnan = false := by
  cases a <;> cases b <;> simp_all [VWFloat.lt, VWFloat.isnan]

/-- Of two floats that are no NaN, the one the other is not below is at most
the other. -/
theorem VWFloat.le_of_not_lt (a b : VWFloat) (ha : a.isnan = false) (hb : b.isnan = false)
    (h : b.lt a = false) : a.le b = true := by
  cases a <;> cases b <;> simp_all [VWFloat.lt, VWFloat.le, VWFloat.isnan]

namespace CSOAA
open COST_SENSITIVE

/-! ### The class chosen by `predict` on an empty label -/

theorem u32_pred_of_pos (i : Nat) (h1 : 1 ≤ i) (h2 : i < 2 ^ 32) : u32_pred i = i - 1 := by
  unfold u32_pred
  omega

theorem getElem?_eq_some_getD (P : List VWFloat) (i : Nat) (h : i < P.length) :
    P[i]? = some (P.getD i VWFloat.nan) := by
  simp [List.getD, List.getElem?_eq_getElem h]

/-- The loop of lines 139-143 over the classes `lo, lo + 1, ..`, started with a
class `p` that is minimal and lowest among the classes below `lo`, ends with a
class that is minimal and lowest among all the classes it has met. -/
theorem multipredict_loop_1_spec (P : List VWFloat) (hP : P.length < 2 ^ 32 - 1) :
    ∀ (k lo : Nat) (ec : Example) (p : Nat), 1 ≤ lo → lo + k ≤ P.length + 1 →
      1 ≤ p → p ≤ P.length → p ≤ lo →
      (∀ j, 1 ≤ j → j < lo →
        (P.getD (j - 1) VWFloat.nan).lt (P.getD (p - 1) VWFloat.nan) = false ∧
        ((P.getD (j - 1) VWFloat.nan).eq (P.getD (p - 1) VWFloat.nan) = true → p ≤ j)) →
      ∃ ec1 p1, multipredict_loop_1 P (List.range' lo k) ec p = some (ec1, p1) ∧
        1 ≤ p1 ∧ p1 ≤ P.length ∧
        ∀ j, 1 ≤ j → j < lo + k →
          (P.getD (j - 1) VWFloat.nan).lt (P.getD (p1 - 1) VWFloat.nan) = false ∧
          ((P.getD (j - 1) VWFloat.nan).eq (P.getD (p1 - 1) VWFloat.nan) = true → p1 ≤ j) := by
  intro k
  induction k with
  | zero =>
    intro lo ec p _ _ hp1 hp2 _ hinv
    exact ⟨ec, p, rfl, hp1, hp2, fun j h1 h2 => hinv j h1 (by omega)⟩
  | succ k ih =>
    intro lo ec p hlo hk hp1 hp2 hple hinv
    have hread1 : P[u32_pred lo]? = some (P.getD (lo - 1) VWFloat.nan) := by
      rw [u32_pred_of_pos lo hlo (by omega)]
      exact getElem?_eq_some_getD P _ (by omega)
    have hread2 : P[u32_pred p]? = some (P.getD (p - 1) VWFloat.nan) := by
      rw [u32_pred_of_pos p hp1 (by omega)]
      exact getElem?_eq_some_getD P _ (by omega)
    rw [List.range'_succ]
    unfold multipredict_loop_1
    simp only [hread1, hread2]
    by_cases hb : (P.getD (lo - 1) VWFloat.nan).lt (P.getD (p - 1) VWFloat.nan) = true
    · rw [if_pos hb]
      obtain ⟨ec1, p1, h1, h2, h3, h4⟩ := ih (lo + 1) (add_passthrough_feature ec lo
        (P.getD (lo - 1) VWFloat.nan)) lo (by omega) (by omega) hlo (by omega) (by omega) (by
          intro j hj1 hj2
          by_cases hjlo : j = lo
          · subst hjlo
            exact ⟨VWFloat.lt_irrefl_of _, fun _ => le_refl _⟩
          · have hj := hinv j hj1 (by omega)
            constructor
            · cases hq : (P.getD (j - 1) VWFloat.nan).lt (P.getD (lo - 1) VWFloat.nan)
              · rfl
              · rw [VWFloat.lt_trans_of _ _ _ hq hb] at hj
                exact absurd hj.1 (by simp)
            · intro heq
              rw [VWFloat.lt_of_eq_of_lt _ _ _ heq hb] at hj
              exact absurd hj.1 (by simp))
      exact ⟨ec1, p1, h1, h2, h3, fun j hj1 hj2 => h4 j hj1 (by omega)⟩
    · rw [if_neg hb]
      obtain ⟨ec1, p1, h1, h2, h3, h4⟩ := ih (lo + 1) (add_passthrough_feature ec lo
        (P.getD (lo - 1) VWFloat.nan)) p (by omega) (by omega) hp1 hp2 (by omega) (by
          intro j hj1 hj2
          by_cases hjlo : j = lo
          · subst hjlo
            exact ⟨by simpa using hb, fun _ => hple⟩
          · exact hinv j hj1 (by omega))
      exact ⟨ec1, p1, h1, h2, h3, fun j hj1 hj2 => h4 j hj1 (by omega)⟩


theorem validate_nil (c : csoaa) : validate c [] = (c, []) := by
  unfold validate
  split <;> rfl

/-- The multipredict branch is the branch `predict` takes on an empty label. -/
theorem predict_or_learn_multipredict {σ : Type} (constant : Nat) (c : csoaa)
    (base : single_learner σ) (s : σ) (ec : Example) (h : ec.l.cs.costs = []) :
    predict_or_learn false constant c base s ec =
      multipredict_branch constant c base s (prepare ec) { costs := [] }
        (default_prediction c.indexing) (passthrough_size ec) := by
  unfold predict_or_learn
  simp only [h, validate_nil, List.isEmpty_nil, Bool.not_true, Bool.false_eq_true, if_false,
    DO_MULTIPREDICT, Bool.not_false, Bool.and_self, if_true]

/-- The loop of lines 139-143, started with a class whose score is no NaN,
ends with a class whose score is no NaN: it moves to a class only when the
score of that class is below the one it holds. -/
theorem multipredict_loop_1_not_nan (P : List VWFloat) :
    ∀ (l : List Nat) (ec ec1 : Example) (p p1 : Nat),
      multipredict_loop_1 P l ec p = some (ec1, p1) →
      (∀ b, P[u32_pred p]? = some b → b.isnan = false) →
      ∀ b, P[u32_pred p1]? = some b → b.isnan = false := by
  intro l
  induction l with
  | nil =>
    intro ec ec1 p p1 h hp
    simp only [multipredict_loop_1, Option.some.injEq, Prod.mk.injEq] at h
    rw [← h.2]
    exact hp
  | cons i l ih =>
    intro ec ec1 p p1 h hp
    unfold multipredict_loop_1 at h
    cases hi : P[u32_pred i]? with
    | none => rw [hi] at h; simp at h
    | some a =>
      rw [hi] at h
      simp only [] at h
      cases hb : P[u32_pred p]? with
      | none => rw [hb] at h; simp at h
      | some b =>
        rw [hb] at h
        simp only [] at h
        refine ih _ _ _ _ h ?_
        by_cases hlt : a.lt b = true
        · rw [if_pos hlt]
          intro b1 hb1
          rw [hi] at hb1
          cases hb1
          exact VWFloat.not_nan_of_lt _ _ hlt
        · rw [if_neg hlt]
          exact hp

/-- C10 (as amended): for `1 ≤ num_classes` (a `uint32_t` below its largest
value, so that the counter of line 139 can pass it) and a node that is not
0-indexed, a `predict` that returns on an example with an empty label has made
exactly one call of the base learner, a multipredict for the `num_classes`
candidates from offset 0 on, and the buffer holds the `num_classes` scores of
that call. When the first of these scores is no NaN, the predicted class `p`
lies in `[1, num_classes]`, its score is no NaN and is at most every score
that is no NaN, so that no class has a score below it, every class whose score
equals the score of `p` is `p` or higher, and the partial_prediction of the
example is the score of `p`. The score of the class `i` is the buffer slot
`i - 1`. -/
theorem C10_multipredict_selects_lowest_minimum {σ : Type} (constant : Nat) (c : csoaa)
    (base : single_learner σ) (s : σ) (ec : Example)
    (hn : 1 ≤ c.num_classes) (hu : c.num_classes < 2 ^ 32 - 1)
    (hempty : ec.l.cs.costs = []) (hmode : c.indexing ≠ 0)
    (hret : (predict_or_learn false constant c (recording base) (s, []) ec).status =
      exit_status.returned)
    (hfirst : ((predict_or_learn false constant c (recording base) (s, []) ec).c.pred.getD 0
      VWFloat.nan).isnan = false) :
    (predict_or_learn false constant c (recording base) (s, []) ec).state.2.map
        (fun k => (k.kind, k.offset, k.count)) =
      [(call_kind.multipredict, 0, c.num_classes)] ∧
    (∃ ec0, (predict_or_learn false constant c (recording base) (s, []) ec).c.pred =
      (List.range c.num_classes).map (base.multipredict s ec0 0 c.num_classes).scores) ∧
    1 ≤ (predict_or_learn false constant c (recording base) (s, []) ec).ec.pred.multiclass ∧
    (predict_or_learn false constant c (recording base) (s, []) ec).ec.pred.multiclass ≤
      c.num_classes ∧
    ((predict_or_learn false constant c (recording base) (s, []) ec).c.pred.getD
        ((predict_or_learn false constant c (recording base) (s, []) ec).ec.pred.multiclass - 1)
        VWFloat.nan).isnan = false ∧
    (∀ i, 1 ≤ i → i ≤ c.num_classes →
      (((predict_or_learn false constant c (recording base) (s, []) ec).c.pred.getD (i - 1)
          VWFloat.nan).isnan = false →
        ((predict_or_learn false constant c (recording base) (s, []) ec).c.pred.getD
          ((predict_or_learn false constant c (recording base) (s, []) ec).ec.pred.multiclass - 1)
          VWFloat.nan).le
          ((predict_or_learn false constant c (recording base) (s, []) ec).c.pred.getD (i - 1)
            VWFloat.nan) = true) ∧
      (((predict_or_learn false constant c (recording base) (s, []) ec).c.pred.getD (i - 1)
          VWFloat.nan).lt
        ((predict_or_learn false constant c (recording base) (s, []) ec).c.pred.getD
          ((predict_or_learn false constant c (recording base) (s, []) ec).ec.pred.multiclass - 1)
          VWFloat.nan) = false) ∧
      (((predict_or_learn false constant c (recording base) (s, []) ec).c.pred.getD (i - 1)
          VWFloat.nan).eq
        ((predict_or_learn false constant c (recording base) (s, []) ec).c.pred.getD
          ((predict_or_learn false constant c (recording base) (s, []) ec).ec.pred.multiclass - 1)
          VWFloat.nan) = true →
        (predict_or_learn false constant c (recording base) (s, []) ec).ec.pred.multiclass ≤ i)) ∧
    (predict_or_learn false constant c (recording base) (s, []) ec).ec.partial_prediction =
      (predict_or_learn false constant c (recording base) (s, []) ec).c.pred.getD
        ((predict_or_learn false constant c (recording base) (s, []) ec).ec.pred.multiclass - 1)
        VWFloat.nan := by
  rw [predict_or_learn_multipredict constant c (recording base) (s, []) ec hempty]
    at hret hfirst ⊢
  unfold multipredict_branch at hret hfirst ⊢
  simp only [] at hret hfirst ⊢
  generalize hm : (recording base).multipredict (s, [])
    { l := { simple := FLT_MAX, cs := (prepare ec).l.cs }, pred := (prepare ec).pred,
      weight := (prepare ec).weight, partial_prediction := (prepare ec).partial_prediction,
      passthrough := (prepare ec).passthrough,
      _reduction_features := simple_label_reduction_features.reset_to_default } 0
    c.num_classes = m at hret hfirst ⊢
  have hlog : m.state.2.map (fun k => (k.kind, k.offset, k.count)) =
      [(call_kind.multipredict, 0, c.num_classes)] := by
    rw [← hm]; rfl
  have hscores : ∃ ec0, m.scores = (base.multipredict s ec0 0 c.num_classes).scores := by
    rw [← hm]; exact ⟨_, rfl⟩
  by_cases hthrew : m.threw = true
  · rw [if_pos hthrew] at hret
    simp at hret
  · rw [if_neg hthrew] at hret hfirst ⊢
    rw [if_neg hmode] at hret hfirst ⊢
    have hlen : (List.map m.scores (List.range c.num_classes)).length = c.num_classes := by simp
    obtain ⟨ec1, p1, hloop, hp1, hp2, hmin⟩ :=
      multipredict_loop_1_spec (List.map m.scores (List.range c.num_classes)) (by omega)
        c.num_classes 1 m.ec (default_prediction c.indexing) (le_refl 1) (by omega)
        (by simp [default_prediction, hmode]) (by simp [default_prediction, hmode]; omega)
        (by simp [default_prediction, hmode]) (fun j h1 h2 => by omega)
    rw [hlen] at hp2
    have hread : (List.map m.scores (List.range c.num_classes))[u32_pred p1]? =
        some ((List.map m.scores (List.range c.num_classes)).getD (p1 - 1) VWFloat.nan) := by
      rw [u32_pred_of_pos p1 hp1 (by omega)]
      exact getElem?_eq_some_getD _ _ (by omega)
    simp only [hloop, hread] at hret hfirst ⊢
    obtain ⟨hf1, hf2, -⟩ := finish_returned _ _ _ _ _ _ _ hret
    rw [finish_c] at hfirst
    rw [finish_c, finish_state, hf1, hf2]
    obtain ⟨ec0, hec0⟩ := hscores
    have hdp : default_prediction c.indexing = 1 := by simp [default_prediction, hmode]
    have hnan : ((List.map m.scores (List.range c.num_classes)).getD (p1 - 1)
        VWFloat.nan).isnan = false := by
      refine multipredict_loop_1_not_nan _ _ _ _ _ _ hloop ?_ _ hread
      intro b hb
      rw [hdp, u32_pred_of_pos 1 (le_refl 1) (by omega),
        getElem?_eq_some_getD _ _ (by omega)] at hb
      cases hb
      exact hfirst
    refine ⟨hlog, ⟨ec0, by rw [hec0]⟩, hp1, hp2, hnan, ?_, rfl⟩
    intro i hi1 hi2
    have h := hmin i hi1 (by omega)
    exact ⟨fun hi => VWFloat.le_of_not_lt _ _ hnan hi h.1, h.1, h.2⟩

/-- C10, witness: three classes with the scores 3, 1, 1 on a 1-indexed node:
one multipredict call, and the class 2 is predicted with the score 1. -/
theorem C10_multipredict_selects_lowest_minimum_witness :
    (predict_or_learn false 0 { node3 with indexing := 1 }
        (recording (scoring_base (fun i => if i = 0 then VWFloat.fin 3 else VWFloat.fin 1)))
        ((), []) (example_of [])).state.2.map (fun k => (k.kind, k.offset, k.count)) =
      [(call_kind.multipredict, 0, 3)] ∧
    (predict_or_learn false 0 { node3 with indexing := 1 }
        (recording (scoring_base (fun i => if i = 0 then VWFloat.fin 3 else VWFloat.fin 1)))
        ((), []) (example_of [])).ec.pred.multiclass = 2 ∧
    (predict_or_learn false 0 { node3 with indexing := 1 }
        (recording (scoring_base (fun i => if i = 0 then VWFloat.fin 3 else VWFloat.fin 1)))
        ((), []) (example_of [])).ec.partial_prediction = VWFloat.fin 1 :=
  ⟨(C10_multipredict_selects_lowest_minimum 0 { node3 with indexing := 1 }
      (scoring_base (fun i => if i = 0 then VWFloat.fin 3 else VWFloat.fin 1)) ()
      (example_of []) (by decide) (by decide) rfl (by decide) (by decide) (by decide)).1,
   by decide, by decide⟩

/-- C10, counterexample: on a 1-indexed node with three classes whose scores
are NaN, 1, 1, `predict` on an example with an empty label returns the class 1
and the partial_prediction NaN; the score of the class 1 is not at most the
score 1 of the class 2, so the class returned has no minimal score, and the
partial_prediction is not the minimal score 1. -/
theorem C10_counterexample :
    (predict_or_learn false 0 { node3 with indexing := 1 }
        (scoring_base (fun i => if i = 0 then VWFloat.nan else VWFloat.fin 1)) ()
        (example_of [])).status = exit_status.returned ∧
      (predict_or_learn false 0 { node3 with indexing := 1 }
        (scoring_base (fun i => if i = 0 then VWFloat.nan else VWFloat.fin 1)) ()
        (example_of [])).c.pred = [VWFloat.nan, VWFloat.fin 1, VWFloat.fin 1] ∧
      (predict_or_learn false 0 { node3 with indexing := 1 }
        (scoring_base (fun i => if i = 0 then VWFloat.nan else VWFloat.fin 1)) ()
        (example_of [])).ec.pred.multiclass = 1 ∧
      (predict_or_learn false 0 { node3 with indexing := 1 }
        (scoring_base (fun i => if i = 0 then VWFloat.nan else VWFloat.fin 1)) ()
        (example_of [])).ec.partial_prediction = VWFloat.nan ∧
      VWFloat.nan.le (VWFloat.fin 1) = false ∧
      (VWFloat.fin 1).le (VWFloat.fin 1) = true := by
  decide


/-! ### Two predict calls in a row -/

/-- The class the validation loop leaves in an entry depends on the class of
the entry alone. -/
theorem validate_costs_congr :
    ∀ (c : csoaa) (xs ys : List wclass),
      xs.map (fun e => e.class_index) = ys.map (fun e => e.class_index) →
      (validate_costs c xs).1 = (validate_costs c ys).1 ∧
      (validate_costs c xs).2.map (fun e => e.class_index) =
        (validate_costs c ys).2.map (fun e => e.class_index)
  | _, [], [], _ => ⟨rfl, rfl⟩
  | _, [], _ :: _, h => by simp at h
  | _, _ :: _, [], h => by simp at h
  | c, x :: xs, y :: ys, h => by
    simp only [List.map_cons, List.cons.injEq] at h
    have hc : (validate_cost c x).1 = (validate_cost c y).1 := by
      simp only [validate_cost, h.1]
    have hk : (validate_cost c x).2.class_index = (validate_cost c y).2.class_index := by
      simp only [validate_cost, h.1]
    have ih := validate_costs_congr (validate_cost c x).1 xs ys h.2
    simp only [validate_costs, List.map_cons]
    rw [← hc]
    exact ⟨ih.1, by rw [hk, ih.2]⟩

theorem validate_congr (c : csoaa) (xs ys : List wclass)
    (h : xs.map (fun e => e.class_index) = ys.map (fun e => e.class_index)) :
    (validate c xs).1 = (validate c ys).1 ∧
      (validate c xs).2.map (fun e => e.class_index) =
        (validate c ys).2.map (fun e => e.class_index) := by
  unfold validate
  split
  · exact validate_costs_congr c xs ys h
  · exact ⟨rfl, h⟩

theorem validate_cost_idem (c : csoaa) (e : wclass) (h : c.indexing ≠ -1) :
    (validate_cost c (validate_cost c e).2).2.class_index = (validate_cost c e).2.class_index := by
  simp only [validate_cost, h, false_and, if_false]
  split_ifs <;> simp_all

/-- In a determined mode and with the bypass on, a second validation pass
changes neither the mode nor a class. -/
theorem validate_stable (c : csoaa) (costs : List wclass)
    (h : c.search = true ∨ c.indexing ≠ -1) :
    (validate (validate c costs).1 (validate c costs).2).1.indexing =
        (validate c costs).1.indexing ∧
      (validate (validate c costs).1 (validate c costs).2).2.map (fun e => e.class_index) =
        (validate c costs).2.map (fun e => e.class_index) := by
  by_cases hs : c.search = true
  · simp [validate, hs]
  · have hne : c.indexing ≠ -1 := by
      rcases h with h | h
      · exact absurd h hs
      · exact h
    have hs1 : c.search = false := by simpa using hs
    have hv : validate c costs = (c, costs.map (fun e => (validate_cost c e).2)) := by
      simp [validate, hs1, validate_costs_determined c costs hne]
    rw [hv]
    simp only [validate, hs1, Bool.not_false, if_true, validate_costs_determined c _ hne,
      List.map_map, Function.comp_def, validate_cost_idem c _ hne, and_self]


/-- With scores that depend on the offset alone, a predicting `inner_loop`
returns, and what it keeps depends on the class, the mode and the pair it was
handed alone. -/
theorem inner_loop_scored {σ : Type} (base : single_learner σ) (f : Nat → VWFloat)
    (hbase : scores_by_offset base f) (s : σ) (ec : Example) (i : Nat) (cost : VWFloat)
    (prediction : Nat) (score partial_prediction : VWFloat) (indexing : Int) :
    (inner_loop false base s ec i cost prediction score partial_prediction indexing).threw =
        false ∧
      ((inner_loop false base s ec i cost prediction score partial_prediction indexing).score,
        (inner_loop false base s ec i cost prediction score partial_prediction
          indexing).prediction) =
        if lex_lt (f (offset indexing i), i) (score, prediction) = true
        then (f (offset indexing i), i) else (score, prediction) := by
  have hthrew : (inner_loop false base s ec i cost prediction score partial_prediction
      indexing).threw = false := by
    simp [inner_loop, inner_call, (hbase.1 s ec (offset indexing i)).1]
  have hpp : (inner_loop false base s ec i cost prediction score partial_prediction
      indexing).partial_prediction = f (offset indexing i) := by
    simp [inner_loop, inner_call, (hbase.1 s ec (offset indexing i)).1,
      (hbase.1 s ec (offset indexing i)).2]
  refine ⟨hthrew, ?_⟩
  rw [inner_loop_min false base s ec i cost prediction score partial_prediction indexing hthrew,
    hpp]

/-- With scores that depend on the offset alone, the predicting loop over the
cost entries returns, and the pair it ends with depends on the classes of the
entries, the mode and the pair it starts with alone. -/
theorem costs_loop_scored {σ : Type} (base : single_learner σ) (f : Nat → VWFloat)
    (hbase : scores_by_offset base f) (indexing : Int) :
    ∀ (xs ys : List wclass), xs.map (fun e => e.class_index) = ys.map (fun e => e.class_index) →
      ∀ (s1 s2 : σ) (ec1 ec2 : Example) (prediction : Nat) (score : VWFloat),
        (costs_loop false base indexing xs s1 ec1 prediction score).threw = false ∧
        (costs_loop false base indexing xs s1 ec1 prediction score).prediction =
          (costs_loop false base indexing ys s2 ec2 prediction score).prediction ∧
        (costs_loop false base indexing xs s1 ec1 prediction score).score =
          (costs_loop false base indexing ys s2 ec2 prediction score).score
  | [], [], _, _, _, _, _, _, _ => ⟨rfl, rfl, rfl⟩
  | [], _ :: _, h, _, _, _, _, _, _ => by simp at h
  | _ :: _, [], h, _, _, _, _, _, _ => by simp at h
  | x :: xs, y :: ys, h, s1, s2, ec1, ec2, prediction, score => by
    simp only [List.map_cons, List.cons.injEq] at h
    obtain ⟨hx1, hx2⟩ := inner_loop_scored base f hbase s1 ec1 x.class_index x.x prediction score
      x.partial_prediction indexing
    obtain ⟨hy1, hy2⟩ := inner_loop_scored base f hbase s2 ec2 y.class_index y.x prediction score
      y.partial_prediction indexing
    have heq : ((inner_loop false base s2 ec2 y.class_index y.x prediction score
          y.partial_prediction indexing).score,
        (inner_loop false base s2 ec2 y.class_index y.x prediction score
          y.partial_prediction indexing).prediction) =
        ((inner_loop false base s1 ec1 x.class_index x.x prediction score
          x.partial_prediction indexing).score,
        (inner_loop false base s1 ec1 x.class_index x.x prediction score
          x.partial_prediction indexing).prediction) := by
      rw [hy2, hx2, h.1]
    unfold costs_loop
    simp only [hx1, hy1, Bool.false_eq_true, if_false]
    rw [(Prod.mk.inj heq).1, (Prod.mk.inj heq).2]
    exact costs_loop_scored base f hbase indexing xs ys h.2 _ _ _ _ _ _

/-- The class the loop of lines 130-134 ends with does not depend on the
example. -/
theorem multipredict_loop_0_class (P : List VWFloat) :
    ∀ (l : List Nat) (ec1 ec2 : Example) (p : Nat),
      (multipredict_loop_0 P l ec1 p).map Prod.snd = (multipredict_loop_0 P l ec2 p).map Prod.snd
  | [], _, _, _ => rfl
  | i :: l, ec1, ec2, p => by
    unfold multipredict_loop_0
    cases P[i]? with
    | none => rfl
    | some a =>
      cases P[p]? with
      | none => rfl
      | some b => exact multipredict_loop_0_class P l _ _ _

/-- The class the loop of lines 139-143 ends with does not depend on the
example. -/
theorem multipredict_loop_1_class (P : List VWFloat) :
    ∀ (l : List Nat) (ec1 ec2 : Example) (p : Nat),
      (multipredict_loop_1 P l ec1 p).map Prod.snd = (multipredict_loop_1 P l ec2 p).map Prod.snd
  | [], _, _, _ => rfl
  | i :: l, ec1, ec2, p => by
    unfold multipredict_loop_1
    cases P[u32_pred i]? with
    | none => rfl
    | some a =>
      cases P[u32_pred p]? with
      | none => rfl
      | some b => exact multipredict_loop_1_class P l _ _ _

/-- With scores that depend on the offset alone, the class a returning
multipredict branch predicts is the class one of the two loops ends with on
the buffer of the scores `f 0, f 1, ..`. -/
theorem multipredict_branch_returned {σ : Type} (base : single_learner σ) (f : Nat → VWFloat)
    (hbase : scores_by_offset base f) (constant : Nat) (c : csoaa) (s : σ) (ec : Example)
    (ld : label) (prediction pt_start : Nat)
    (h : (multipredict_branch constant c base s ec ld prediction pt_start).status =
      exit_status.returned) :
    ∃ ec0,
      some (multipredict_branch constant c base s ec ld prediction pt_start).ec.pred.multiclass =
        if c.indexing = 0 then
          (multipredict_loop_0 ((List.range c.num_classes).map (fun j => f (0 + j)))
            (List.range (c.num_classes + 1)) ec0 prediction).map Prod.snd
        else
          (multipredict_loop_1 ((List.range c.num_classes).map (fun j => f (0 + j)))
            (List.range' 1 c.num_classes) ec0 prediction).map Prod.snd := by
  unfold multipredict_branch at h ⊢
  simp only [] at h ⊢
  have hm := hbase.2 s
    { l := { simple := FLT_MAX, cs := ec.l.cs }, pred := ec.pred,
      weight := ec.weight, partial_prediction := ec.partial_prediction,
      passthrough := ec.passthrough,
      _reduction_features := simple_label_reduction_features.reset_to_default } 0
    c.num_classes
  generalize base.multipredict s
    { l := { simple := FLT_MAX, cs := ec.l.cs }, pred := ec.pred,
      weight := ec.weight, partial_prediction := ec.partial_prediction,
      passthrough := ec.passthrough,
      _reduction_features := simple_label_reduction_features.reset_to_default } 0
    c.num_classes = m at h hm ⊢
  have hfun : m.scores = fun j => f (0 + j) := funext hm.2
  rw [if_neg (by simp [hm.1])] at h ⊢
  rw [hfun] at h ⊢
  refine ⟨m.ec, ?_⟩
  by_cases h0 : c.indexing = 0
  · rw [if_pos h0] at h ⊢
    rw [if_pos h0]
    cases hloop : multipredict_loop_0 (List.map (fun j => f (0 + j)) (List.range c.num_classes))
        (List.range (c.num_classes + 1)) m.ec prediction with
    | none =>
      rw [hloop] at h
      simp at h
    | some r =>
      obtain ⟨ec1, p1⟩ := r
      simp only [hloop] at h ⊢
      cases hread : (List.map (fun j => f (0 + j)) (List.range c.num_classes))[p1]? with
      | none =>
        rw [hread] at h
        simp at h
      | some v =>
        simp only [hread] at h ⊢
        rw [(finish_returned _ _ _ _ _ _ _ h).2.1]
        rfl
  · rw [if_neg h0] at h ⊢
    rw [if_neg h0]
    cases hloop : multipredict_loop_1 (List.map (fun j => f (0 + j)) (List.range c.num_classes))
        (List.range' 1 c.num_classes) m.ec prediction with
    | none =>
      rw [hloop] at h
      simp at h
    | some r =>
      obtain ⟨ec1, p1⟩ := r
      simp only [hloop] at h ⊢
      cases hread : (List.map (fun j => f (0 + j)) (List.range c.num_classes))[u32_pred p1]? with
      | none =>
        rw [hread] at h
        simp at h
      | some v =>
        simp only [hread] at h ⊢
        rw [(finish_returned _ _ _ _ _ _ _ h).2.1]
        rfl


theorem multipredict_branch_c {σ : Type} (constant : Nat) (c : csoaa)
    (base : single_learner σ) (s : σ) (ec : Example) (ld : label) (prediction pt_start : Nat) :
    (multipredict_branch constant c base s ec ld prediction pt_start).c.indexing = c.indexing ∧
      (multipredict_branch constant c base s ec ld prediction pt_start).c.num_classes =
        c.num_classes := by
  unfold multipredict_branch
  simp only []
  repeat' split
  all_goals first | exact ⟨rfl, rfl⟩ | (simp only [finish_c]; exact ⟨trivial, trivial⟩)

theorem labelled_branch_c {σ : Type} (is_learn : Bool) (constant : Nat) (c : csoaa)
    (base : single_learner σ) (s : σ) (ec : Example) (ld : label) (prediction : Nat)
    (score : VWFloat) (pt_start : Nat) :
    (labelled_branch is_learn constant c base s ec ld prediction score pt_start).c = c := by
  unfold labelled_branch
  simp only []
  split
  · rfl
  · exact finish_c _ _ _ _ _ _ _

/-- C7 (as amended): for a base learner whose scores depend on the offset alone
and do not change between the calls, two `predict` calls in a row on the same
example, both returning, predict the same class, provided the node is in mode
0 or 1 or has the bypass on when the first call starts, or more generally
provided a second validation pass changes neither the mode nor a class of the
label the first pass produced. -/
theorem C7_predict_twice_same_class {σ : Type} (constant : Nat) (c : csoaa)
    (base : single_learner σ) (f : Nat → VWFloat) (s : σ) (ec : Example)
    (hbase : scores_by_offset base f)
    (hstable : c.search = true ∨ c.indexing ≠ -1 ∨
      ((validate (validate c ec.l.cs.costs).1 (validate c ec.l.cs.costs).2).1.indexing =
          (validate c ec.l.cs.costs).1.indexing ∧
        (validate (validate c ec.l.cs.costs).1 (validate c ec.l.cs.costs).2).2.map
            (fun e => e.class_index) =
          (validate c ec.l.cs.costs).2.map (fun e => e.class_index)))
    (h1 : (predict_or_learn false constant c base s ec).status = exit_status.returned)
    (h2 : (predict_or_learn false constant (predict_or_learn false constant c base s ec).c base
        (predict_or_learn false constant c base s ec).state
        (predict_or_learn false constant c base s ec).ec).status = exit_status.returned) :
    (predict_or_learn false constant (predict_or_learn false constant c base s ec).c base
        (predict_or_learn false constant c base s ec).state
        (predict_or_learn false constant c base s ec).ec).ec.pred.multiclass =
      (predict_or_learn false constant c base s ec).ec.pred.multiclass := by
  have hst : (validate (validate c ec.l.cs.costs).1 (validate c ec.l.cs.costs).2).1.indexing =
        (validate c ec.l.cs.costs).1.indexing ∧
      (validate (validate c ec.l.cs.costs).1 (validate c ec.l.cs.costs).2).2.map
          (fun e => e.class_index) =
        (validate c ec.l.cs.costs).2.map (fun e => e.class_index) := by
    rcases hstable with h | h | h
    · exact validate_stable c _ (Or.inl h)
    · exact validate_stable c _ (Or.inr h)
    · exact h
  by_cases hne : ec.l.cs.costs = []
  · -- the multipredict branch, twice
    have hc := multipredict_branch_c constant c base s (prepare ec) { costs := [] }
      (default_prediction c.indexing) (passthrough_size ec)
    have hl := multipredict_branch_label constant c base s (prepare ec) { costs := [] }
      (default_prediction c.indexing) (passthrough_size ec)
    rw [← predict_or_learn_multipredict constant c base s ec hne] at hc hl
    obtain ⟨ec0, hp1⟩ := multipredict_branch_returned base f hbase constant c s (prepare ec)
      { costs := [] } (default_prediction c.indexing) (passthrough_size ec)
      (by rw [← predict_or_learn_multipredict constant c base s ec hne]; exact h1)
    rw [← predict_or_learn_multipredict constant c base s ec hne] at hp1
    generalize predict_or_learn false constant c base s ec = r1 at *
    have hne1 : r1.ec.l.cs.costs = [] := by rw [hl]
    rw [predict_or_learn_multipredict constant r1.c base r1.state r1.ec hne1] at h2 ⊢
    obtain ⟨ec1, hp2⟩ := multipredict_branch_returned base f hbase constant r1.c r1.state
      (prepare r1.ec) { costs := [] } (default_prediction r1.c.indexing) (passthrough_size r1.ec) h2
    rw [hc.1, hc.2] at hp2
    rw [hc.1]
    have : some (multipredict_branch constant r1.c base r1.state (prepare r1.ec) { costs := [] }
        (default_prediction c.indexing) (passthrough_size r1.ec)).ec.pred.multiclass =
        some r1.ec.pred.multiclass := by
      rw [hp1, hp2]
      split
      · exact multipredict_loop_0_class _ _ _ _ _
      · exact multipredict_loop_1_class _ _ _ _ _
    exact Option.some.inj this
  · -- the labelled branch, twice
    have hr1 := predict_or_learn_labelled false constant c base s ec hne
    have hc := labelled_branch_c false constant (validate c ec.l.cs.costs).1 base s (prepare ec)
      { costs := (validate c ec.l.cs.costs).2 }
      (default_prediction (validate c ec.l.cs.costs).1.indexing) FLT_MAX (passthrough_size ec)
    have hl := labelled_branch_label false constant (validate c ec.l.cs.costs).1 base s
      (prepare ec) { costs := (validate c ec.l.cs.costs).2 }
      (default_prediction (validate c ec.l.cs.costs).1.indexing) FLT_MAX (passthrough_size ec)
    have hret1 := labelled_branch_returned false constant (validate c ec.l.cs.costs).1 base s
      (prepare ec) { costs := (validate c ec.l.cs.costs).2 }
      (default_prediction (validate c ec.l.cs.costs).1.indexing) FLT_MAX (passthrough_size ec)
      (by rw [← hr1]; exact h1)
    have hp1 := hret1.2.2.2.2.1
    rw [← hr1] at hc hl hp1
    generalize predict_or_learn false constant c base s ec = r1 at *
    have hcls : r1.ec.l.cs.costs.map (fun e => e.class_index) =
        (validate c ec.l.cs.costs).2.map (fun e => e.class_index) := by
      have := congrArg (List.map Prod.fst) hl
      simpa [List.map_map, Function.comp_def] using this
    have hne1 : r1.ec.l.cs.costs ≠ [] := by
      intro h0
      rw [h0] at hcls
      have hlen := congrArg List.length hcls
      have hkeep := congrArg List.length (validate_keeps c ec.l.cs.costs).1
      simp only [List.map_nil, List.length_nil, List.length_map] at hlen hkeep
      exact hne (List.length_eq_zero.mp (by omega))
    have hcongr := validate_congr r1.c r1.ec.l.cs.costs (validate c ec.l.cs.costs).2 hcls
    rw [hc] at hcongr
    have hmode : (validate r1.c r1.ec.l.cs.costs).1.indexing =
        (validate c ec.l.cs.costs).1.indexing := by
      rw [hc, hcongr.1, hst.1]
    have hcls2 : (validate r1.c r1.ec.l.cs.costs).2.map (fun e => e.class_index) =
        (validate c ec.l.cs.costs).2.map (fun e => e.class_index) := by
      rw [hc, hcongr.2, hst.2]
    rw [predict_or_learn_labelled false constant r1.c base r1.state r1.ec hne1] at h2 ⊢
    have hret2 := labelled_branch_returned _ _ _ _ _ _ _ _ _ _ h2
    rw [hret2.2.2.2.2.1, hp1, hmode]
    exact (costs_loop_scored base f hbase _ _ _ hcls2 _ _ _ _ _ _).2.1


/-- C7, witness: two predict calls on a 1-indexed node with three classes, on
the classes 3, 1, 2 with the scores 4, 2, 2. -/
theorem C7_predict_twice_same_class_witness :
    (predict_or_learn false 0
        (predict_or_learn false 0 { node3 with indexing := 1 }
          (scoring_base (fun i => if i = 2 then VWFloat.fin 4 else VWFloat.fin 2)) ()
          (example_of [entry 3, entry 1, entry 2])).c
        (scoring_base (fun i => if i = 2 then VWFloat.fin 4 else VWFloat.fin 2))
        (predict_or_learn false 0 { node3 with indexing := 1 }
          (scoring_base (fun i => if i = 2 then VWFloat.fin 4 else VWFloat.fin 2)) ()
          (example_of [entry 3, entry 1, entry 2])).state
        (predict_or_learn false 0 { node3 with indexing := 1 }
          (scoring_base (fun i => if i = 2 then VWFloat.fin 4 else VWFloat.fin 2)) ()
          (example_of [entry 3, entry 1, entry 2])).ec).ec.pred.multiclass =
      (predict_or_learn false 0 { node3 with indexing := 1 }
        (scoring_base (fun i => if i = 2 then VWFloat.fin 4 else VWFloat.fin 2)) ()
        (example_of [entry 3, entry 1, entry 2])).ec.pred.multiclass :=
  C7_predict_twice_same_class 0 { node3 with indexing := 1 }
    (scoring_base (fun i => if i = 2 then VWFloat.fin 4 else VWFloat.fin 2))
    (fun i => if i = 2 then VWFloat.fin 4 else VWFloat.fin 2) ()
    (example_of [entry 3, entry 1, entry 2])
    ⟨fun _ _ _ => ⟨rfl, rfl⟩, fun _ _ _ _ => ⟨rfl, fun _ => rfl⟩⟩
    (Or.inr (Or.inl (by decide))) (by decide) (by decide)

/-- C7, counterexample: three classes, the bypass off, the mode undetermined,
the label with the classes 5 and 0, and a base learner that scores 1 at the
offset 5 and 2 elsewhere. The first predict makes the node 0-indexed and
predicts the class 5; the second one replaces the class 5 by 0 and predicts
the class 0. -/
theorem C7_counterexample :
    scores_by_offset (scoring_base (fun i => if i = 5 then VWFloat.fin 1 else VWFloat.fin 2))
        (fun i => if i = 5 then VWFloat.fin 1 else VWFloat.fin 2) ∧
    (predict_or_learn false 0 node3
        (scoring_base (fun i => if i = 5 then VWFloat.fin 1 else VWFloat.fin 2)) ()
        (example_of [entry 5, entry 0])).status = exit_status.returned ∧
    (predict_or_learn false 0 node3
        (scoring_base (fun i => if i = 5 then VWFloat.fin 1 else VWFloat.fin 2)) ()
        (example_of [entry 5, entry 0])).ec.pred.multiclass = 5 ∧
    (predict_or_learn false 0
        (predict_or_learn false 0 node3
          (scoring_base (fun i => if i = 5 then VWFloat.fin 1 else VWFloat.fin 2)) ()
          (example_of [entry 5, entry 0])).c
        (scoring_base (fun i => if i = 5 then VWFloat.fin 1 else VWFloat.fin 2))
        (predict_or_learn false 0 node3
          (scoring_base (fun i => if i = 5 then VWFloat.fin 1 else VWFloat.fin 2)) ()
          (example_of [entry 5, entry 0])).state
        (predict_or_learn false 0 node3
          (scoring_base (fun i => if i = 5 then VWFloat.fin 1 else VWFloat.fin 2)) ()
          (example_of [entry 5, entry 0])).ec).status = exit_status.returned ∧
    (predict_or_learn false 0
        (predict_or_learn false 0 node3
          (scoring_base (fun i => if i = 5 then VWFloat.fin 1 else VWFloat.fin 2)) ()
          (example_of [entry 5, entry 0])).c
        (scoring_base (fun i => if i = 5 then VWFloat.fin 1 else VWFloat.fin 2))
        (predict_or_learn false 0 node3
          (scoring_base (fun i => if i = 5 then VWFloat.fin 1 else VWFloat.fin 2)) ()
          (example_of [entry 5, entry 0])).state
        (predict_or_learn false 0 node3
          (scoring_base (fun i => if i = 5 then VWFloat.fin 1 else VWFloat.fin 2)) ()
          (example_of [entry 5, entry 0])).ec).ec.pred.multiclass = 0 :=
  ⟨⟨fun _ _ _ => ⟨rfl, rfl⟩, fun _ _ _ _ => ⟨rfl, fun _ => rfl⟩⟩,
    by decide, by decide, by decide, by decide⟩

/-! ### Recording the calls changes nothing else -/

theorem inner_loop_recording {σ : Type} (is_learn : Bool) (base : single_learner σ) (s : σ)
    (log : List base_call) (ec : Example) (i : Nat) (cost : VWFloat) (prediction : Nat)
    (score partial_prediction : VWFloat) (indexing : Int) :
    (inner_loop is_learn (recording base) (s, log) ec i cost prediction score
        partial_prediction indexing).without_log =
      inner_loop is_learn base s ec i cost prediction score partial_prediction indexing := by
  cases is_learn
  · simp only [inner_loop, inner_call, recording, Bool.false_eq_true, if_false]
    split_ifs <;> rfl
  · simp only [inner_loop, inner_call, recording, if_true]
    split_ifs <;> rfl

theorem costs_loop_recording {σ : Type} (is_learn : Bool) (base : single_learner σ)
    (indexing : Int) :
    ∀ (costs : List wclass) (s : σ) (log : List base_call) (ec : Example) (prediction : Nat)
      (score : VWFloat),
      (costs_loop is_learn (recording base) indexing costs (s, log) ec prediction
          score).without_log =
        costs_loop is_learn base indexing costs s ec prediction score
  | [], _, _, _, _, _ => rfl
  | cl :: rest, s, log, ec, prediction, score => by
    have hin := inner_loop_recording is_learn base s log ec cl.class_index cl.x prediction score
      cl.partial_prediction indexing
    unfold costs_loop
    simp only []
    rw [← hin]
    generalize inner_loop is_learn (recording base) (s, log) ec cl.class_index cl.x prediction
      score cl.partial_prediction indexing = r
    obtain ⟨⟨s1, log1⟩, ec1, p1, sc1, pp1, t1⟩ := r
    simp only [inner_result.without_log]
    cases t1
    · simp only [Bool.false_eq_true, if_false]
      have ih := costs_loop_recording is_learn base indexing rest s1 log1 ec1 p1 sc1
      rw [← ih]
      rfl
    · rfl

theorem classes_loop_recording {σ : Type} (base : single_learner σ) (indexing : Int) :
    ∀ (l : List Nat) (s : σ) (log : List base_call) (ec : Example) (prediction : Nat)
      (score temp : VWFloat),
      (classes_loop (recording base) indexing l (s, log) ec prediction score temp).without_log =
        classes_loop base indexing l s ec prediction score temp
  | [], _, _, _, _, _, _ => rfl
  | i :: rest, s, log, ec, prediction, score, temp => by
    have hin := inner_loop_recording false base s log ec i FLT_MAX prediction score temp indexing
    unfold classes_loop
    simp only []
    rw [← hin]
    generalize inner_loop false (recording base) (s, log) ec i FLT_MAX prediction score temp
      indexing = r
    obtain ⟨⟨s1, log1⟩, ec1, p1, sc1, pp1, t1⟩ := r
    simp only [inner_result.without_log]
    cases t1
    · simp only [Bool.false_eq_true, if_false]
      exact classes_loop_recording base indexing rest s1 log1 ec1 p1 sc1 pp1
    · rfl

theorem finish_recording {σ : Type} (constant pt_start : Nat) (ld : label) (c : csoaa) (s : σ)
    (log : List base_call) (ec : Example) (prediction : Nat) :
    (finish constant pt_start ld c (s, log) ec prediction).without_log =
      finish constant pt_start ld c s ec prediction := by
  unfold finish
  split <;> rfl

/-- A recording base learner leaves the node, the example and the way the call
ends as the base learner it records does, and the state of that base learner
too. -/
theorem predict_or_learn_recording {σ : Type} (is_learn : Bool) (constant : Nat) (c : csoaa)
    (base : single_learner σ) (s : σ) (log : List base_call) (ec : Example) :
    (predict_or_learn is_learn constant c (recording base) (s, log) ec).without_log =
      predict_or_learn is_learn constant c base s ec := by
  unfold predict_or_learn
  simp only []
  split
  · unfold labelled_branch
    simp only []
    rw [← costs_loop_recording is_learn base _ _ s log]
    generalize costs_loop is_learn (recording base) _ _ (s, log) _ _ _ = r
    obtain ⟨⟨s1, log1⟩, ec1, costs1, p1, sc1, t1⟩ := r
    simp only [loop_result.without_log]
    cases t1
    · simp only [Bool.false_eq_true, if_false]
      exact finish_recording _ _ _ _ _ _ _ _
    · rfl
  · split
    · unfold multipredict_branch
      simp only [recording]
      repeat' split
      all_goals first | rfl | exact finish_recording _ _ _ _ _ _ _ _
    · unfold unlabelled_branch
      simp only []
      rw [← classes_loop_recording base _ _ s log]
      generalize classes_loop (recording base) _ _ (s, log) _ _ _ _ = r
      obtain ⟨⟨s1, log1⟩, ec1, p1, sc1, pp1, t1⟩ := r
      simp only [inner_result.without_log]
      cases t1
      · simp only [Bool.false_eq_true, if_false]
        exact finish_recording _ _ _ _ _ _ _ _
      · rfl

/-! ### The two branches of an empty label -/

/-- The unlabelled branch is the branch `learn` takes on an empty label. -/
theorem predict_or_learn_unlabelled {σ : Type} (constant : Nat) (c : csoaa)
    (base : single_learner σ) (s : σ) (ec : Example) (h : ec.l.cs.costs = []) :
    predict_or_learn true constant c base s ec =
      unlabelled_branch constant c base s (prepare ec) { costs := [] }
        (default_prediction c.indexing) FLT_MAX (passthrough_size ec) := by
  unfold predict_or_learn
  simp only [h, validate_nil, List.isEmpty_nil, Bool.not_true, Bool.false_eq_true, if_false,
    DO_MULTIPREDICT, Bool.and_false]

/-- What a returning unlabelled branch predicts, in terms of its loop. -/
theorem unlabelled_branch_returned {σ : Type} (constant : Nat) (c : csoaa)
    (base : single_learner σ) (s : σ) (ec : Example) (ld : label) (prediction : Nat)
    (score : VWFloat) (pt_start : Nat)
    (h : (unlabelled_branch constant c base s ec ld prediction score pt_start).status =
      exit_status.returned) :
    (unlabelled_branch constant c base s ec ld prediction score pt_start).ec.pred.multiclass =
      (classes_loop base c.indexing (List.range' 1 c.num_classes) s ec prediction score
        VWFloat.zero).prediction := by
  unfold unlabelled_branch at h ⊢
  simp only [] at h ⊢
  split at h
  · simp at h
  · rename_i hthrew
    rw [if_neg hthrew]
    exact (finish_returned _ _ _ _ _ _ _ h).2.1

theorem offset_of_pos (indexing : Int) (i : Nat) (hmode : indexing ≠ 0) (h1 : 1 ≤ i)
    (h2 : i < 2 ^ 32) : offset indexing i = i - 1 := by
  unfold offset
  rw [if_neg hmode]
  omega

theorem scores_getD (f : Nat → VWFloat) (n i : Nat) (h : i < n) :
    ((List.range n).map (fun j => f (0 + j))).getD i VWFloat.nan = f i := by
  simp [List.getD, h]

/-- Once the kept score is the score of the kept class, the loop of lines
150-151 and the loop of lines 139-143 move in step: on the same classes they
end with the same class. -/
theorem classes_loop_follows_multipredict {σ : Type} (base : single_learner σ)
    (f : Nat → VWFloat) (hbase : scores_by_offset base f) (indexing : Int)
    (hmode : indexing ≠ 0) (n : Nat) (hn : n < 2 ^ 32 - 1) :
    ∀ (k lo : Nat) (s : σ) (ec ec1 : Example) (p : Nat) (temp : VWFloat),
      1 ≤ lo → lo + k ≤ n + 1 → 1 ≤ p → p ≤ lo → p ≤ n →
      (multipredict_loop_1 ((List.range n).map (fun j => f (0 + j))) (List.range' lo k) ec1
          p).map Prod.snd =
        some (classes_loop base indexing (List.range' lo k) s ec p (f (p - 1)) temp).prediction := by
  intro k
  induction k with
  | zero => intro lo s ec ec1 p temp _ _ _ _ _; rfl
  | succ k ih =>
    intro lo s ec ec1 p temp hlo hk hp1 hple hpn
    obtain ⟨hthrew, hstep⟩ := inner_loop_scored base f hbase s ec lo FLT_MAX p (f (p - 1)) temp
      indexing
    rw [offset_of_pos indexing lo hmode hlo (by omega)] at hstep
    have hread1 : ((List.range n).map (fun j => f (0 + j)))[u32_pred lo]? = some (f (lo - 1)) := by
      rw [u32_pred_of_pos lo hlo (by omega), getElem?_eq_some_getD _ _ (by simp; omega),
        scores_getD f n _ (by omega)]
    have hread2 : ((List.range n).map (fun j => f (0 + j)))[u32_pred p]? = some (f (p - 1)) := by
      rw [u32_pred_of_pos p hp1 (by omega), getElem?_eq_some_getD _ _ (by simp; omega),
        scores_getD f n _ (by omega)]
    have hlex : lex_lt (f (lo - 1), lo) (f (p - 1), p) = (f (lo - 1)).lt (f (p - 1)) := by
      have : ¬ lo < p := by omega
      simp [lex_lt, this]
    rw [hlex] at hstep
    rw [List.range'_succ]
    unfold multipredict_loop_1 classes_loop
    simp only [hread1, hread2, hthrew, Bool.false_eq_true, if_false]
    generalize inner_loop false base s ec lo FLT_MAX p (f (p - 1)) temp indexing = r at hstep ⊢
    obtain ⟨s1, ec2, p1, sc1, pp1, t1⟩ := r
    simp only at hstep ⊢
    by_cases hb : (f (lo - 1)).lt (f (p - 1)) = true
    · rw [if_pos hb] at hstep ⊢
      rw [(Prod.mk.inj hstep).1, (Prod.mk.inj hstep).2]
      exact ih (lo + 1) s1 ec2 _ lo pp1 (by omega) (by omega) hlo (by omega) (by omega)
    · rw [if_neg hb] at hstep ⊢
      rw [(Prod.mk.inj hstep).1, (Prod.mk.inj hstep).2]
      exact ih (lo + 1) s1 ec2 _ p pp1 (by omega) (by omega) hp1 (by omega) hpn

/-- When the first class scores below `FLT_MAX`, the loop of lines 150-151 and
the loop of lines 139-143, both started as `predict_or_learn` starts them on a
node that is not 0-indexed, end with the same class. -/
theorem classes_loop_matches_multipredict {σ : Type} (base : single_learner σ)
    (f : Nat → VWFloat) (hbase : scores_by_offset base f) (indexing : Int)
    (hmode : indexing ≠ 0) (n : Nat) (hn1 : 1 ≤ n) (hn : n < 2 ^ 32 - 1)
    (h0 : (f 0).lt FLT_MAX = true) (s : σ) (ec ec1 : Example) :
    (multipredict_loop_1 ((List.range n).map (fun j => f (0 + j))) (List.range' 1 n) ec1
        1).map Prod.snd =
      some (classes_loop base indexing (List.range' 1 n) s ec 1 FLT_MAX VWFloat.zero).prediction := by
  obtain ⟨k, rfl⟩ : ∃ k, n = k + 1 := ⟨n - 1, by omega⟩
  obtain ⟨hthrew, hstep⟩ := inner_loop_scored base f hbase s ec 1 FLT_MAX 1 FLT_MAX VWFloat.zero
    indexing
  rw [offset_of_pos indexing 1 hmode (le_refl 1) (by omega)] at hstep
  have hlex : lex_lt (f (1 - 1), 1) (FLT_MAX, 1) = true := by
    simp [lex_lt, h0]
  rw [if_pos hlex] at hstep
  have hread : ((List.range (k + 1)).map (fun j => f (0 + j)))[u32_pred 1]? = some (f (1 - 1)) := by
    rw [u32_pred_of_pos 1 (le_refl 1) (by omega), getElem?_eq_some_getD _ _ (by simp),
      scores_getD f (k + 1) _ (by omega)]
  rw [List.range'_succ]
  unfold multipredict_loop_1 classes_loop
  simp only [hread, hthrew, Bool.false_eq_true, if_false, VWFloat.lt_irrefl_of]
  generalize inner_loop false base s ec 1 FLT_MAX 1 FLT_MAX VWFloat.zero indexing = r at hstep ⊢
  obtain ⟨s1, ec2, p1, sc1, pp1, t1⟩ := r
  simp only at hstep ⊢
  rw [(Prod.mk.inj hstep).1, (Prod.mk.inj hstep).2]
  exact classes_loop_follows_multipredict base f hbase indexing hmode (k + 1) hn k 2 s1 ec2 _ 1
    pp1 (by omega) (by omega) (le_refl 1) (by omega) (by omega)

/-- C11 (as amended): on a node that is not 0-indexed, with `1 ≤ num_classes`
(a `uint32_t` below its largest value) and a base learner whose scores depend
on the offset alone, when the score of the first class is below `FLT_MAX`, as
it is when all scores are numbers below `FLT_MAX`, `predict` and `learn` on an
example with an empty label, both returning, set the same predicted class `p`:
a class of `[1, num_classes]` such that no class of that range has a score
below the score of `p`, and every class of that range whose score equals the
score of `p` is `p` or higher. The score of the class `i` is `f (i - 1)`. -/
theorem C11_empty_label_branches_agree {σ : Type} (constant : Nat) (c : csoaa)
    (base : single_learner σ) (f : Nat → VWFloat) (s1 s2 : σ) (ec : Example)
    (hbase : scores_by_offset base f)
    (hmode : c.indexing ≠ 0) (hn : 1 ≤ c.num_classes) (hu : c.num_classes < 2 ^ 32 - 1)
    (hempty : ec.l.cs.costs = []) (h0 : (f 0).lt FLT_MAX = true)
    (hp : (predict_or_learn false constant c base s1 ec).status = exit_status.returned)
    (hl : (predict_or_learn true constant c base s2 ec).status = exit_status.returned) :
    (predict_or_learn false constant c base s1 ec).ec.pred.multiclass =
        (predict_or_learn true constant c base s2 ec).ec.pred.multiclass ∧
      1 ≤ (predict_or_learn true constant c base s2 ec).ec.pred.multiclass ∧
      (predict_or_learn true constant c base s2 ec).ec.pred.multiclass ≤ c.num_classes ∧
      ∀ i, 1 ≤ i → i ≤ c.num_classes →
        (f (i - 1)).lt
            (f ((predict_or_learn true constant c base s2 ec).ec.pred.multiclass - 1)) = false ∧
          ((f (i - 1)).eq
              (f ((predict_or_learn true constant c base s2 ec).ec.pred.multiclass - 1)) = true →
            (predict_or_learn true constant c base s2 ec).ec.pred.multiclass ≤ i) := by
  rw [predict_or_learn_multipredict constant c base s1 ec hempty] at hp ⊢
  rw [predict_or_learn_unlabelled constant c base s2 ec hempty] at hl ⊢
  have hdp : default_prediction c.indexing = 1 := by simp [default_prediction, hmode]
  rw [hdp] at hp hl ⊢
  obtain ⟨ec0, hmp⟩ := multipredict_branch_returned base f hbase constant c s1 (prepare ec)
    { costs := [] } 1 (passthrough_size ec) hp
  rw [if_neg hmode] at hmp
  have hcl := unlabelled_branch_returned constant c base s2 (prepare ec) { costs := [] } 1
    FLT_MAX (passthrough_size ec) hl
  have hsim := classes_loop_matches_multipredict base f hbase c.indexing hmode c.num_classes hn hu
    h0 s2 (prepare ec) ec0
  have hlen : ((List.range c.num_classes).map (fun j => f (0 + j))).length = c.num_classes := by
    simp
  obtain ⟨ec1, p1, hloop, hp1, hp2, hmin⟩ :=
    multipredict_loop_1_spec ((List.range c.num_classes).map (fun j => f (0 + j))) (by omega)
      c.num_classes 1 ec0 1 (le_refl 1) (by omega) (le_refl 1) (by omega) (le_refl 1)
      (fun j h1 h2 => by omega)
  rw [hlen] at hp2
  rw [hloop] at hmp hsim
  have e1 : (multipredict_branch constant c base s1 (prepare ec) { costs := [] } 1
      (passthrough_size ec)).ec.pred.multiclass = p1 := Option.some.inj hmp
  have e2 : (classes_loop base c.indexing (List.range' 1 c.num_classes) s2 (prepare ec) 1
      FLT_MAX VWFloat.zero).prediction = p1 := (Option.some.inj hsim).symm
  rw [e1, hcl, e2]
  refine ⟨rfl, hp1, hp2, ?_⟩
  intro i hi1 hi2
  have := hmin i hi1 (by omega)
  rw [scores_getD f c.num_classes (i - 1) (by omega),
    scores_getD f c.num_classes (p1 - 1) (by omega)] at this
  exact this

/-- C11, witness: three classes with the scores 3, 1, 1 on a 1-indexed node:
`predict` and `learn` both predict the class 2. -/
theorem C11_empty_label_branches_agree_witness :
    (predict_or_learn false 0 { node3 with indexing := 1 }
        (scoring_base (fun i => if i = 0 then VWFloat.fin 3 else VWFloat.fin 1)) ()
        (example_of [])).ec.pred.multiclass =
      (predict_or_learn true 0 { node3 with indexing := 1 }
        (scoring_base (fun i => if i = 0 then VWFloat.fin 3 else VWFloat.fin 1)) ()
        (example_of [])).ec.pred.multiclass ∧
    (predict_or_learn true 0 { node3 with indexing := 1 }
        (scoring_base (fun i => if i = 0 then VWFloat.fin 3 else VWFloat.fin 1)) ()
        (example_of [])).ec.pred.multiclass = 2 :=
  ⟨(C11_empty_label_branches_agree 0 { node3 with indexing := 1 }
      (scoring_base (fun i => if i = 0 then VWFloat.fin 3 else VWFloat.fin 1))
      (fun i => if i = 0 then VWFloat.fin 3 else VWFloat.fin 1) () () (example_of [])
      ⟨fun _ _ _ => ⟨rfl, rfl⟩, fun _ _ _ _ => ⟨rfl, fun _ => rfl⟩⟩
      (by decide) (by decide) (by decide) rfl (by decide) (by decide) (by decide)).1,
   by decide⟩

/-- C11, counterexample: a 1-indexed node with three classes and an empty
label. With the scores NaN, 1, 1 `predict` keeps the class 1, below whose score
no score lies, and `learn` predicts the class 2, the first one below
`FLT_MAX`; with the scores +infinity, `FLT_MAX`, `FLT_MAX` `predict` predicts
the class 2 and `learn` keeps the class 1. -/
theorem C11_counterexample :
    scores_by_offset (scoring_base (fun i => if i = 0 then VWFloat.nan else VWFloat.fin 1))
        (fun i => if i = 0 then VWFloat.nan else VWFloat.fin 1) ∧
    (predict_or_learn false 0 { node3 with indexing := 1 }
        (scoring_base (fun i => if i = 0 then VWFloat.nan else VWFloat.fin 1)) ()
        (example_of [])).status = exit_status.returned ∧
    (predict_or_learn true 0 { node3 with indexing := 1 }
        (scoring_base (fun i => if i = 0 then VWFloat.nan else VWFloat.fin 1)) ()
        (example_of [])).status = exit_status.returned ∧
    (predict_or_learn false 0 { node3 with indexing := 1 }
        (scoring_base (fun i => if i = 0 then VWFloat.nan else VWFloat.fin 1)) ()
        (example_of [])).ec.pred.multiclass = 1 ∧
    (predict_or_learn true 0 { node3 with indexing := 1 }
        (scoring_base (fun i => if i = 0 then VWFloat.nan else VWFloat.fin 1)) ()
        (example_of [])).ec.pred.multiclass = 2 ∧
    (predict_or_learn false 0 { node3 with indexing := 1 }
        (scoring_base (fun i => if i = 0 then VWFloat.pinf else FLT_MAX)) ()
        (example_of [])).ec.pred.multiclass = 2 ∧
    (predict_or_learn true 0 { node3 with indexing := 1 }
        (scoring_base (fun i => if i = 0 then VWFloat.pinf else FLT_MAX)) ()
        (example_of [])).ec.pred.multiclass = 1 :=
  ⟨⟨fun _ _ _ => ⟨rfl, rfl⟩, fun _ _ _ _ => ⟨rfl, fun _ => rfl⟩⟩,
    by decide, by decide, by decide, by decide, by decide, by decide⟩

end CSOAA
end VW

/-! ## Theorems: sections, errors and densities of the label parser -/

namespace VW

open continuous_actions cb_continuous

/-! ### The section `pdf` -/

/-- The loop of `parse_pdf` appends the segments of the section to the density
it starts from. -/
theorem parse_pdf_loop_eq (P : parse_primitives) :
    ∀ (ws : List String) (pdf : List pdf_segment),
      parse_pdf_loop P ws pdf = pdf ++ pdf_section_segments P ws := by
  intro ws
  induction ws with
  | nil => intro pdf; simp [parse_pdf_loop, pdf_section_segments]
  | cons w ws ih =>
    intro pdf
    unfold parse_pdf_loop
    by_cases hw : w = CHOSEN_ACTION
    · simp [hw, pdf_section_segments]
    · rw [if_neg hw]
      by_cases h3 : (P.tokenize ':' w).length < 3
      · have hcond : ((P.tokenize ':' w).isEmpty || decide ((P.tokenize ':' w).length < 3)) = true := by
          simp [h3]
        simp only [hcond, if_true]
        rw [ih pdf]
        have : ¬ 3 ≤ (P.tokenize ':' w).length := by omega
        simp [pdf_section_segments, hw, this]
      · have hne : (P.tokenize ':' w).isEmpty = false := by
          cases hl : P.tokenize ':' w with
          | nil => simp [hl] at h3
          | cons a l => rfl
        have hcond : ((P.tokenize ':' w).isEmpty || decide ((P.tokenize ':' w).length < 3)) = false := by
          simp [h3, hne]
        simp only [hcond, Bool.false_eq_true, if_false]
        rw [ih]
        have : 3 ≤ (P.tokenize ':' w).length := by omega
        simp [pdf_section_segments, hw, this, segment_of_word]

/-- C12: after `parse_pdf` the stored density is `S` when `S` is valid and
empty otherwise, where `S` is the prior density followed by one segment for
each word with at least three fields located before the first `chosen_action`
word, from the start index on; the chosen action is left as it was, and a
stored density that is not empty is valid. -/
theorem C12_parse_pdf_keeps_valid_or_nothing (P : parse_primitives) (words : List String)
    (words_index : Nat) (red_features : reduction_features) :
    (parse_pdf P words words_index red_features).pdf =
        (if P.is_valid_pdf
            (red_features.pdf ++ pdf_section_segments P (words.drop words_index)) = true
         then red_features.pdf ++ pdf_section_segments P (words.drop words_index) else []) ∧
      (parse_pdf P words words_index red_features).chosen_action = red_features.chosen_action ∧
      ((parse_pdf P words words_index red_features).pdf ≠ [] →
        P.is_valid_pdf (parse_pdf P words words_index red_features).pdf = true) := by
  unfold parse_pdf
  simp only [parse_pdf_loop_eq]
  by_cases hv : P.is_valid_pdf
      (red_features.pdf ++ pdf_section_segments P (words.drop words_index)) = true
  · simp [hv]
  · simp [hv]

/-! ### The errors of `parse_label` -/

/-- A cost word is rejected as malformed exactly for its field count. -/
theorem parse_cost_word_malformed_iff (P : parse_primitives) (w : String) :
    parse_cost_word P w = .error .malformed_cost ↔
      (P.tokenize ':' w).length = 0 ∨ 4 < (P.tokenize ':' w).length := by
  constructor
  · intro h
    simp only [parse_cost_word] at h
    split_ifs at h with hc
    · rcases Bool.or_eq_true _ _ ▸ hc with h1 | h1
      · left
        rw [List.isEmpty_iff] at h1
        rw [h1]; rfl
      · right
        exact of_decide_eq_true h1
    all_goals simp at h
  · intro h
    have hc : ((P.tokenize ':' w).isEmpty || decide ((P.tokenize ':' w).length > 4)) = true := by
      rcases h with h | h
      · rw [List.length_eq_zero.1 h]; rfl
      · simp [h]
    simp only [parse_cost_word, hc, if_true]

/-- The words read by `parse_cost_word` never fail the first-word check. -/
theorem parse_cost_word_not_first_word (P : parse_primitives) (w : String) :
    parse_cost_word P w ≠ .error .first_word_not_ca := by
  intro h
  simp only [parse_cost_word] at h
  split_ifs at h <;> simp at h

/-- The loop of `parse_label` never fails the first-word check. -/
theorem parse_label_loop_not_first_word (P : parse_primitives) (words : List String) :
    ∀ (rest : List String) (i : Nat) (ld : continuous_label) (rf : reduction_features),
      parse_label_loop P words i rest ld rf ≠ .error .first_word_not_ca := by
  intro rest
  induction rest with
  | nil => intro i ld rf h; simp [parse_label_loop] at h
  | cons w rest ih =>
    intro i ld rf
    unfold parse_label_loop
    split_ifs
    · exact ih _ _ _
    · exact ih _ _ _
    · cases hw : parse_cost_word P w with
      | error e =>
        intro h
        simp only [Except.error.injEq] at h
        exact parse_cost_word_not_first_word P w (by rw [hw, h])
      | ok f => exact ih _ _ _
    · exact ih _ _ _

/-- Where no word comes right after a marker, the loop of `parse_label` reads
no cost entry and does not fail. -/
theorem parse_label_loop_no_cost (P : parse_primitives) (words : List String) :
    ∀ (rest : List String) (i : Nat) (ld : continuous_label) (rf : reduction_features),
      (∀ j, i ≤ j → j < i + rest.length → words.getD (j - 1) "" ≠ CA_LABEL) →
      ∃ rf1, parse_label_loop P words i rest ld rf = .ok (ld, rf1) := by
  intro rest
  induction rest with
  | nil => intro i ld rf _; exact ⟨rf, rfl⟩
  | cons w rest ih =>
    intro i ld rf hca
    have hrest : ∀ j, i + 1 ≤ j → j < i + 1 + rest.length → words.getD (j - 1) "" ≠ CA_LABEL :=
      fun j hj hlt => hca j (by omega) (by simp only [List.length_cons]; omega)
    unfold parse_label_loop
    split_ifs with h1 h2 h3
    · exact ih _ _ _ hrest
    · exact ih _ _ _ hrest
    · exact absurd h3 (hca i (le_refl i) (by simp))
    · exact ih _ _ _ hrest

/-- The first step of `parse_label` on a list that starts with the marker and
a word that is no section keyword. -/
theorem parse_label_second_word (P : parse_primitives) (ld : continuous_label)
    (rf : reduction_features) (w : String) (ts : List String) (hpdf : w ≠ PDF)
    (hchosen : w ≠ CHOSEN_ACTION) :
    parse_label P ld rf (CA_LABEL :: w :: ts) =
      match parse_cost_word P w with
      | .error e => .error e
      | .ok f => parse_label_loop P (CA_LABEL :: w :: ts) 2 ts { costs := [f] } rf := by
  simp only [parse_label, List.isEmpty_cons, Bool.false_eq_true, if_false, List.getD_cons_zero,
    decide_True, Bool.not_true, List.drop_succ_cons, List.drop_zero]
  rw [parse_label_loop, if_neg hpdf, if_neg hchosen]
  simp only [Nat.sub_self, List.getD_cons_zero, if_true, List.nil_append]
  try rfl

/-- C13 (as amended): for a word list whose first word is `ca` and whose
second word `w` is no section keyword, `parse_label` fails with the
malformed-cost error whenever `w` has zero fields or more than four; when no
later word comes right after another `ca`, it fails with that error only then;
and the reading of a cost word rejects it as malformed exactly for such a
field count, never for one to four fields. -/
theorem C13_malformed_cost_iff_field_count (P : parse_primitives) (ld : continuous_label)
    (rf : reduction_features) (w : String) (ts : List String) (hpdf : w ≠ PDF)
    (hchosen : w ≠ CHOSEN_ACTION) :
    (((P.tokenize ':' w).length = 0 ∨ 4 < (P.tokenize ':' w).length) →
        parse_label P ld rf (CA_LABEL :: w :: ts) = .error .malformed_cost) ∧
      ((∀ k, k < ts.length → (w :: ts).getD k "" ≠ CA_LABEL) →
        (parse_label P ld rf (CA_LABEL :: w :: ts) = .error .malformed_cost ↔
          ((P.tokenize ':' w).length = 0 ∨ 4 < (P.tokenize ':' w).length))) ∧
      (parse_cost_word P w = .error .malformed_cost ↔
        ((P.tokenize ':' w).length = 0 ∨ 4 < (P.tokenize ':' w).length)) := by
  have hstep := parse_label_second_word P ld rf w ts hpdf hchosen
  have hif : ((P.tokenize ':' w).length = 0 ∨ 4 < (P.tokenize ':' w).length) →
      parse_label P ld rf (CA_LABEL :: w :: ts) = .error .malformed_cost := by
    intro h
    rw [hstep, (parse_cost_word_malformed_iff P w).2 h]
  refine ⟨hif, ?_, parse_cost_word_malformed_iff P w⟩
  intro hca
  refine ⟨?_, hif⟩
  intro h
  rw [hstep] at h
  cases hw : parse_cost_word P w with
  | error e =>
    rw [hw] at h
    simp only [Except.error.injEq] at h
    rw [h] at hw
    exact (parse_cost_word_malformed_iff P w).1 hw
  | ok f =>
    rw [hw] at h
    exfalso
    obtain ⟨rf1, hok⟩ := parse_label_loop_no_cost P (CA_LABEL :: w :: ts) ts 2 { costs := [f] } rf
      (by
        intro j hj hlt
        obtain ⟨k, rfl⟩ : ∃ k, j = k + 2 := ⟨j - 2, by omega⟩
        show (CA_LABEL :: w :: ts).getD (k + 1) "" ≠ CA_LABEL
        rw [List.getD_cons_succ]
        exact hca k (by omega))
    simp only at h
    rw [hok] at h
    cases h

/-- C13, on the word lists `ca 1:2:3:4:5 6` and `ca 1:2 6`. -/
theorem C13_malformed_cost_iff_field_count_witness :
    parse_label P0 { costs := [] } { pdf := [], chosen_action := VWFloat.nan }
        (CA_LABEL :: "1:2:3:4:5" :: ["6"]) = .error .malformed_cost ∧
      ¬ (parse_label P0 { costs := [] } { pdf := [], chosen_action := VWFloat.nan }
        (CA_LABEL :: "1:2" :: ["6"]) = .error .malformed_cost) :=
  ⟨(C13_malformed_cost_iff_field_count P0 { costs := [] }
      { pdf := [], chosen_action := VWFloat.nan } "1:2:3:4:5" ["6"] (by decide) (by decide)).1
      (by decide),
    fun h => absurd
      (((C13_malformed_cost_iff_field_count P0 { costs := [] }
        { pdf := [], chosen_action := VWFloat.nan } "1:2" ["6"] (by decide) (by decide)).2.1
        (by decide)).1 h) (by decide)⟩

/-- C13, counterexample: in `ca 1:2 ca 1:2:3:4:5` the second word is no section
keyword and has two fields, and `parse_label` fails with the malformed-cost
error: the fourth word, which follows the second `ca`, has five fields. -/
theorem C13_counterexample :
    "1:2" ≠ PDF ∧ "1:2" ≠ CHOSEN_ACTION ∧ (P0.tokenize ':' "1:2").length = 2 ∧
      parse_label P0 { costs := [] } { pdf := [], chosen_action := VWFloat.nan }
        ["ca", "1:2", "ca", "1:2:3:4:5"] = .error .malformed_cost :=
  ⟨by decide, by decide, by decide, rfl⟩

/-- C14: `parse_label` fails at the first-word check exactly when the word
list is not empty and its first word is not `ca`; on the empty word list it
succeeds with an empty cost sequence, whatever costs the label held, and leaves
the reduction features as they were. -/
theorem C14_first_word_check (P : parse_primitives) (ld : continuous_label)
    (rf : reduction_features) (words : List String) :
    (parse_label P ld rf words = .error .first_word_not_ca ↔
        ∃ w ws, words = w :: ws ∧ w ≠ CA_LABEL) ∧
      parse_label P ld rf [] = .ok ({ costs := [] }, rf) := by
  refine ⟨?_, rfl⟩
  cases words with
  | nil => simp [parse_label]
  | cons w ws =>
    by_cases hw : w = CA_LABEL
    · subst hw
      simp only [parse_label, List.isEmpty_cons, Bool.false_eq_true, if_false,
        List.getD_cons_zero, decide_True, Bool.not_true, List.drop_succ_cons, List.drop_zero]
      constructor
      · intro h
        exact absurd h (parse_label_loop_not_first_word P _ _ _ _ _)
      · rintro ⟨w, ws1, heq, hne⟩
        exact absurd (List.cons.inj heq).1.symm hne
    · simp [parse_label, hw]

/-! ### The densities of the cost entries -/

/-- A float that is no NaN and not below zero is at least zero. -/
theorem VWFloat.ge_zero_of_not_lt (x : VWFloat) (hnan : x.isnan = false)
    (hlt : x.lt VWFloat.zero = false) : x.ge VWFloat.zero = true := by
  cases x with
  | nan => simp [VWFloat.isnan] at hnan
  | ninf => simp [VWFloat.lt, VWFloat.zero] at hlt
  | pinf => rfl
  | fin q =>
    simp only [VWFloat.lt, VWFloat.zero, decide_eq_false_iff_not, not_lt] at hlt
    simp only [VWFloat.ge, VWFloat.le, VWFloat.zero, decide_eq_true_eq]
    exact hlt

/-- The entry read from a cost word has a pdf_value that is at least zero. -/
theorem parse_cost_word_pdf_value (P : parse_primitives) (w : String) (f : continuous_label_elm)
    (h : parse_cost_word P w = .ok f) : f.pdf_value.ge VWFloat.zero = true := by
  simp only [parse_cost_word] at h
  split_ifs at h with h1 h2 h3 h4 h5 h6 h7 h8 h9 h10 h11 h12 <;>
    simp only [Except.ok.injEq, reduceCtorEq] at h <;> subst h <;>
    first
    | rfl
    | (apply VWFloat.ge_zero_of_not_lt <;> simp_all)


/-- Every entry the loop of `parse_label` adds is the entry read from one of
the words. -/
theorem parse_label_loop_entries (P : parse_primitives) (words : List String) :
    ∀ (rest : List String) (i : Nat) (ld l : continuous_label) (rf rf1 : reduction_features),
      parse_label_loop P words i rest ld rf = .ok (l, rf1) →
      ∀ f ∈ l.costs, f ∈ ld.costs ∨ ∃ w ∈ rest, parse_cost_word P w = .ok f := by
  intro rest
  induction rest with
  | nil =>
    intro i ld l rf rf1 h f hf
    simp only [parse_label_loop, Except.ok.injEq, Prod.mk.injEq] at h
    left
    rw [h.1]
    exact hf
  | cons w rest ih =>
    intro i ld l rf rf1 h f hf
    rw [parse_label_loop] at h
    split_ifs at h with h1 h2 h3
    · rcases ih _ _ _ _ _ h f hf with hm | ⟨u, hu, hfu⟩
      · exact Or.inl hm
      · exact Or.inr ⟨u, List.mem_cons_of_mem _ hu, hfu⟩
    · rcases ih _ _ _ _ _ h f hf with hm | ⟨u, hu, hfu⟩
      · exact Or.inl hm
      · exact Or.inr ⟨u, List.mem_cons_of_mem _ hu, hfu⟩
    · cases hw : parse_cost_word P w with
      | error e => rw [hw] at h; simp at h
      | ok g =>
        rw [hw] at h
        rcases ih _ _ _ _ _ h f hf with hm | ⟨u, hu, hfu⟩
        · simp only [List.mem_append, List.mem_singleton] at hm
          rcases hm with hm | hm
          · exact Or.inl hm
          · exact Or.inr ⟨w, by simp, by rw [hw, hm]⟩
        · exact Or.inr ⟨u, List.mem_cons_of_mem _ hu, hfu⟩
    · rcases ih _ _ _ _ _ h f hf with hm | ⟨u, hu, hfu⟩
      · exact Or.inl hm
      · exact Or.inr ⟨u, List.mem_cons_of_mem _ hu, hfu⟩

/-- The entry read from a word whose third field is below zero: the
pdf_value is stored as zero, the action and the cost as parsed. -/
theorem parse_cost_word_negative (P : parse_primitives) (w : String) (f : continuous_label_elm)
    (h : parse_cost_word P w = .ok f) (h3 : 3 ≤ (P.tokenize ':' w).length)
    (hneg : (P.float_of_string ((P.tokenize ':' w).getD 2 "")).lt VWFloat.zero = true) :
    f = { action := P.float_of_string ((P.tokenize ':' w).getD 0 "")
          cost := P.float_of_string ((P.tokenize ':' w).getD 1 "")
          pdf_value := VWFloat.zero } := by
  have h1 : (P.tokenize ':' w).length > 1 := by omega
  have h2 : (P.tokenize ':' w).length > 2 := by omega
  simp only [parse_cost_word, h1, h2, if_true, hneg] at h
  split_ifs at h
  simp only [Except.ok.injEq] at h
  exact h.symm

/-- C15: on every word list on which `parse_label` succeeds, every entry of
the resulting cost sequence has a pdf_value that is at least zero; each entry
is the one read from a word of the list, and an entry read from a word whose
third field is below zero has the pdf_value zero and the action and the cost
as parsed. -/
theorem C15_pdf_value_never_negative (P : parse_primitives) (ld : continuous_label)
    (rf : reduction_features) (words : List String) (l : continuous_label)
    (rf1 : reduction_features) (h : parse_label P ld rf words = .ok (l, rf1)) :
    ∀ f ∈ l.costs, f.pdf_value.ge VWFloat.zero = true ∧
      ∃ w ∈ words, parse_cost_word P w = .ok f ∧
        (3 ≤ (P.tokenize ':' w).length →
          (P.float_of_string ((P.tokenize ':' w).getD 2 "")).lt VWFloat.zero = true →
          f.pdf_value = VWFloat.zero ∧
            f.action = P.float_of_string ((P.tokenize ':' w).getD 0 "") ∧
            f.cost = P.float_of_string ((P.tokenize ':' w).getD 1 "")) := by
  intro f hf
  have hsrc : ∃ w ∈ words, parse_cost_word P w = .ok f := by
    unfold parse_label at h
    simp only [] at h
    split_ifs at h with h1 h2
    · simp only [Except.ok.injEq, Prod.mk.injEq] at h
      rw [← h.1] at hf
      simp at hf
    · rcases parse_label_loop_entries P words _ _ _ _ _ _ h f hf with hm | ⟨u, hu, hfu⟩
      · simp at hm
      · exact ⟨u, List.mem_of_mem_drop hu, hfu⟩
  obtain ⟨w, hw, hfw⟩ := hsrc
  refine ⟨parse_cost_word_pdf_value P w f hfw, w, hw, hfw, ?_⟩
  intro h3 hneg
  rw [parse_cost_word_negative P w f hfw h3 hneg]
  exact ⟨rfl, rfl, rfl⟩

/-- C15, on the word list `ca 1:2:-3`, whose entry is stored as action 1,
cost 2, pdf_value 0. -/
theorem C15_pdf_value_never_negative_witness :
    parse_label P0 { costs := [] } { pdf := [], chosen_action := VWFloat.nan } ["ca", "1:2:-3"] =
        .ok ({ costs := [{ action := VWFloat.fin 1, cost := VWFloat.fin 2,
                           pdf_value := VWFloat.zero }] },
          { pdf := [], chosen_action := VWFloat.nan }) ∧
      ∀ f ∈ [({ action := VWFloat.fin 1, cost := VWFloat.fin 2,
                pdf_value := VWFloat.zero } : continuous_label_elm)],
        f.pdf_value.ge VWFloat.zero = true ∧
        ∃ w ∈ ["ca", "1:2:-3"], parse_cost_word P0 w = .ok f ∧
          (3 ≤ (P0.tokenize ':' w).length →
            (P0.float_of_string ((P0.tokenize ':' w).getD 2 "")).lt VWFloat.zero = true →
            f.pdf_value = VWFloat.zero ∧
              f.action = P0.float_of_string ((P0.tokenize ':' w).getD 0 "") ∧
              f.cost = P0.float_of_string ((P0.tokenize ':' w).getD 1 "")) :=
  ⟨rfl, C15_pdf_value_never_negative P0 { costs := [] }
    { pdf := [], chosen_action := VWFloat.nan } ["ca", "1:2:-3"] _ _ rfl⟩

/-! ### The section `chosen_action` -/

/-- The loop of `parse_chosen_action` stores the first field of the first word
that has a field. -/
theorem parse_chosen_action_loop_eq (P : parse_primitives) :
    ∀ (ws : List String) (rf : reduction_features),
      parse_chosen_action_loop P ws rf =
        match first_chosen_action P ws with
        | some v => { rf with chosen_action := v }
        | none => rf := by
  intro ws
  induction ws with
  | nil => intro rf; rfl
  | cons w ws ih =>
    intro rf
    unfold parse_chosen_action_loop
    cases hl : P.tokenize ':' w with
    | nil =>
      have := ih rf
      simp only [first_chosen_action, List.find?, hl, List.length_nil] at this ⊢
      simpa using this
    | cons a l =>
      simp [first_chosen_action, List.find?, hl]

/-- The first chosen action of a section does not look past the first word
that has a field. -/
theorem first_chosen_action_append (P : parse_primitives) (pre : List String) (w : String)
    (post : List String) (hpre : ∀ u ∈ pre, (P.tokenize ':' u).length = 0)
    (hw : 1 ≤ (P.tokenize ':' w).length) :
    first_chosen_action P (pre ++ w :: post) =
      some (P.float_of_string ((P.tokenize ':' w).getD 0 "")) := by
  induction pre with
  | nil => simp [first_chosen_action, List.find?, hw]
  | cons u pre ih =>
    have hu := hpre u (by simp)
    have := ih (fun v hv => hpre v (by simp [hv]))
    simp only [first_chosen_action, List.cons_append, List.find?, hu] at this ⊢
    simpa using this

/-- A section in which no word has a field has no chosen action. -/
theorem first_chosen_action_none (P : parse_primitives) (ws : List String)
    (h : ∀ u ∈ ws, (P.tokenize ':' u).length = 0) : first_chosen_action P ws = none := by
  induction ws with
  | nil => rfl
  | cons u ws ih =>
    have hu := h u (by simp)
    have := ih (fun v hv => h v (by simp [hv]))
    simp only [first_chosen_action, List.find?, hu] at this ⊢
    simpa using this

/-- C17: `parse_chosen_action` sets the chosen action to the first field of
the first word at or after the start index that has at least one field; the
words after that one do not matter; when no word at or after the start index
has a field, the reduction features are left as they were. The density is
never touched. -/
theorem C17_parse_chosen_action_first_value (P : parse_primitives) (words : List String)
    (words_index : Nat) (red_features : reduction_features) :
    (parse_chosen_action P words words_index red_features =
        match first_chosen_action P (words.drop words_index) with
        | some v => { red_features with chosen_action := v }
        | none => red_features) ∧
      (∀ (pre : List String) (w : String) (post : List String),
        words.drop words_index = pre ++ w :: post →
        (∀ u ∈ pre, (P.tokenize ':' u).length = 0) → 1 ≤ (P.tokenize ':' w).length →
        ∀ later : List String,
          parse_chosen_action P words words_index red_features =
              { red_features with
                chosen_action := P.float_of_string ((P.tokenize ':' w).getD 0 "") } ∧
            parse_chosen_action P (words.take words_index ++ pre ++ w :: later) words_index
                red_features =
              parse_chosen_action P words words_index red_features) ∧
      ((∀ u ∈ words.drop words_index, (P.tokenize ':' u).length = 0) →
        parse_chosen_action P words words_index red_features = red_features) ∧
      (parse_chosen_action P words words_index red_features).pdf = red_features.pdf := by
  refine ⟨parse_chosen_action_loop_eq P _ _, ?_, ?_, ?_⟩
  · intro pre w post hsplit hpre hw later
    have h1 : parse_chosen_action P words words_index red_features =
        { red_features with
          chosen_action := P.float_of_string ((P.tokenize ':' w).getD 0 "") } := by
      unfold parse_chosen_action
      rw [parse_chosen_action_loop_eq, hsplit, first_chosen_action_append P pre w post hpre hw]
    refine ⟨h1, ?_⟩
    rw [h1]
    unfold parse_chosen_action
    have hlen : words_index ≤ words.length := by
      by_contra hc
      have : words.drop words_index = [] := List.drop_eq_nil_of_le (by omega)
      rw [this] at hsplit
      simp at hsplit
    have hdrop : (words.take words_index ++ pre ++ w :: later).drop words_index =
        pre ++ w :: later := by
      rw [List.append_assoc, List.drop_append_of_le_length (by simp [hlen])]
      rw [List.drop_eq_nil_of_le (by simp), List.nil_append]
    rw [parse_chosen_action_loop_eq, hdrop, first_chosen_action_append P pre w later hpre hw]
  · intro h
    unfold parse_chosen_action
    rw [parse_chosen_action_loop_eq, first_chosen_action_none P _ h]
  · unfold parse_chosen_action
    rw [parse_chosen_action_loop_eq]
    cases first_chosen_action P (words.drop words_index) <;> rfl

/-- C17, on the section `: 7:1 8` read from index 2 of `ca chosen_action : 7:1 8`. -/
theorem C17_parse_chosen_action_first_value_witness :
    parse_chosen_action P0 ["ca", "chosen_action", ":", "7:1", "8"] 2
        { pdf := [], chosen_action := VWFloat.nan } =
      { pdf := [], chosen_action := VWFloat.fin 7 } ∧
    parse_chosen_action P0 (["ca", "chosen_action"] ++ [":"] ++ "7:1" :: ["9", "10"]) 2
        { pdf := [], chosen_action := VWFloat.nan } =
      parse_chosen_action P0 ["ca", "chosen_action", ":", "7:1", "8"] 2
        { pdf := [], chosen_action := VWFloat.nan } :=
  (C17_parse_chosen_action_first_value P0 ["ca", "chosen_action", ":", "7:1", "8"] 2
    { pdf := [], chosen_action := VWFloat.nan }).2.1 [":"] "7:1" ["8"] rfl (by decide) (by decide)
    ["9", "10"]

end VW

/-! ## Theorems: the model cache of continuous-action labels -/

namespace VW
namespace model_utils
open cb_continuous

/-! ### The round trip through the model cache -/

/-- An entry whose three fields round-trip is written as the bytes of its
action, its cost and its pdf_value, in this order, and read back from them. -/
theorem elm_round_trip (F : field_codec VWFloat) (e : continuous_label_elm)
    (ha : round_trips F.write F.read e.action) (hc : round_trips F.write F.read e.cost)
    (hp : round_trips F.write F.read e.pdf_value) :
    ∃ (ba bc bp : List Nat) (na nc np : Nat),
      (∀ (io : io_buf) (name : String), F.write io e.action name false = (na, io ++ ba)) ∧
      (∀ (io : io_buf) (name : String), F.write io e.cost name false = (nc, io ++ bc)) ∧
      (∀ (io : io_buf) (name : String), F.write io e.pdf_value name false = (np, io ++ bp)) ∧
      (∀ (io : io_buf) (name : String),
        write_model_field_elm F io e name false = (na + nc + np, io ++ (ba ++ bc ++ bp))) ∧
      (∀ (rest : io_buf) (prior : continuous_label_elm),
        read_model_field_elm F (ba ++ bc ++ bp ++ rest) prior = some (na + nc + np, rest, e)) := by
  obtain ⟨ba, na, hwa, hra⟩ := ha
  obtain ⟨bc, nc, hwc, hrc⟩ := hc
  obtain ⟨bp, np, hwp, hrp⟩ := hp
  refine ⟨ba, bc, bp, na, nc, np, hwa, hwc, hwp, ?_, ?_⟩
  · intro io name
    simp only [write_model_field_elm, hwa, hwc, hwp, Nat.zero_add, List.append_assoc]
  · intro rest prior
    simp only [read_model_field_elm, List.append_assoc, hra, hrc, hrp, Nat.zero_add]

/-- An entry whose three fields round-trip does so itself. -/
theorem elm_round_trips (F : field_codec VWFloat) (e : continuous_label_elm)
    (ha : round_trips F.write F.read e.action) (hc : round_trips F.write F.read e.cost)
    (hp : round_trips F.write F.read e.pdf_value) :
    round_trips (write_model_field_elm F) (read_model_field_elm F) e := by
  obtain ⟨ba, bc, bp, na, nc, np, _, _, _, hw, hr⟩ := elm_round_trip F e ha hc hp
  exact ⟨ba ++ bc ++ bp, na + nc + np, hw, hr⟩

/-- The elements of a sequence, each of which round-trips, are read back in
the order written and pushed onto the destination. -/
theorem elements_round_trip {α : Type} (write_elem : io_buf → α → String → Bool → Nat × io_buf)
    (read_elem : io_buf → α → Option (Nat × io_buf × α)) (fresh : α) :
    ∀ vec : List α, (∀ v ∈ vec, round_trips write_elem read_elem v) →
      ∃ (bytes : List Nat) (n : Nat),
        (∀ (io : io_buf) (name : String),
          write_elements write_elem io vec name false = (n, io ++ bytes)) ∧
        (∀ (rest : io_buf) (acc : List α),
          read_elements read_elem fresh vec.length (bytes ++ rest) acc =
            some (n, rest, acc ++ vec)) := by
  intro vec
  induction vec with
  | nil =>
    intro _
    exact ⟨[], 0, fun io name => by simp [write_elements],
      fun rest acc => by simp [read_elements]⟩
  | cons v vec ih =>
    intro h
    obtain ⟨b1, n1, hw1, hr1⟩ := h v (by simp)
    obtain ⟨b2, n2, hw2, hr2⟩ := ih (fun u hu => h u (by simp [hu]))
    refine ⟨b1 ++ b2, n1 + n2, ?_, ?_⟩
    · intro io name
      simp only [write_elements, hw1, hw2, List.append_assoc]
    · intro rest acc
      simp only [List.length_cons, read_elements, List.append_assoc, hr1, hr2,
        List.singleton_append]

/-- A sequence whose length and whose elements round-trip is read back from
the bytes written for it, after what the destination held. -/
theorem vector_round_trip {α : Type} (S : field_codec Nat)
    (write_elem : io_buf → α → String → Bool → Nat × io_buf)
    (read_elem : io_buf → α → Option (Nat × io_buf × α)) (fresh : α) (vec : List α)
    (hS : round_trips S.write S.read vec.length)
    (h : ∀ v ∈ vec, round_trips write_elem read_elem v) :
    ∃ (bytes : List Nat) (n : Nat),
      (∀ (io : io_buf) (name : String),
        write_model_field_vector S write_elem io vec name false = (n, io ++ bytes)) ∧
      (∀ (rest : io_buf) (acc : List α),
        read_model_field_vector S read_elem fresh (bytes ++ rest) acc =
          some (n, rest, acc ++ vec)) := by
  obtain ⟨b1, n1, hw1, hr1⟩ := hS
  obtain ⟨b2, n2, hw2, hr2⟩ := elements_round_trip write_elem read_elem fresh vec h
  refine ⟨b1 ++ b2, n1 + n2, ?_, ?_⟩
  · intro io name
    simp only [write_model_field_vector, hw1, hw2, Nat.zero_add, List.append_assoc]
  · intro rest acc
    simp only [read_model_field_vector, List.append_assoc, hr1, hr2, Nat.zero_add]

/-- C16: for a continuous-action label `x` whose length and whose floats the
primitive fields of the cache round-trip, the bytes that `write_model_field`
(and so `cache_label`) appends in binary mode are read back by
`read_model_field` (and so `read_cached_label`) into a label without costs as
a label equal to `x`, with the byte count of the write; each entry is written
as the bytes of its action, cost and pdf_value, in this order, and read from
them in the same order. -/
theorem C16_cached_label_round_trip (F : field_codec VWFloat) (S : field_codec Nat)
    (x : continuous_label)
    (hF : ∀ e ∈ x.costs, round_trips F.write F.read e.action ∧
      round_trips F.write F.read e.cost ∧ round_trips F.write F.read e.pdf_value)
    (hS : round_trips S.write S.read x.costs.length) :
    (∃ (bytes : List Nat) (n : Nat),
      (∀ (io : io_buf) (upstream_name : String),
        write_model_field F S io x upstream_name false = (n, io ++ bytes) ∧
        cache_label F S x io upstream_name false = (n, io ++ bytes)) ∧
      (∀ (rest : io_buf) (prior : continuous_label), prior.costs = [] →
        read_model_field F S (bytes ++ rest) prior = some (n, rest, x) ∧
        read_cached_label F S prior (bytes ++ rest) = some (n, rest, x))) ∧
    (∀ e ∈ x.costs, ∃ (ba bc bp : List Nat) (na nc np : Nat),
      (∀ (io : io_buf) (name : String), F.write io e.action name false = (na, io ++ ba)) ∧
      (∀ (io : io_buf) (name : String), F.write io e.cost name false = (nc, io ++ bc)) ∧
      (∀ (io : io_buf) (name : String), F.write io e.pdf_value name false = (np, io ++ bp)) ∧
      (∀ (io : io_buf) (name : String),
        write_model_field_elm F io e name false = (na + nc + np, io ++ (ba ++ bc ++ bp))) ∧
      (∀ (rest : io_buf) (prior : continuous_label_elm),
        read_model_field_elm F (ba ++ bc ++ bp ++ rest) prior =
          some (na + nc + np, rest, e))) := by
  constructor
  · obtain ⟨bytes, n, hw, hr⟩ := vector_round_trip S (write_model_field_elm F)
      (read_model_field_elm F) fresh_elm x.costs hS
      (fun e he => elm_round_trips F e (hF e he).1 (hF e he).2.1 (hF e he).2.2)
    have hwrite : ∀ (io : io_buf) (upstream_name : String),
        write_model_field F S io x upstream_name false = (n, io ++ bytes) := by
      intro io upstream_name
      simp only [write_model_field, hw, Nat.zero_add]
    have hread : ∀ (rest : io_buf) (prior : continuous_label), prior.costs = [] →
        read_model_field F S (bytes ++ rest) prior = some (n, rest, x) := by
      intro rest prior hprior
      simp only [read_model_field, hr, hprior, List.nil_append, Nat.zero_add]
    exact ⟨bytes, n, fun io name => ⟨hwrite io name, hwrite io name⟩,
      fun rest prior hprior => ⟨hread rest prior hprior, hread rest prior hprior⟩⟩
  · intro e he
    exact elm_round_trip F e (hF e he).1 (hF e he).2.1 (hF e he).2.2

/-- The fields of the examples round-trip on the whole numbers from 0 to 255. -/
theorem byte_float_round_trips (b : Nat) (hb : b < 256) :
    round_trips byte_float.write byte_float.read (VWFloat.fin b) := by
  refine ⟨[b], 1, ?_, ?_⟩
  · intro io name
    simp [byte_float, byte_of_float, Nat.mod_eq_of_lt hb]
  · intro rest prior
    rfl

/-- The length field of the examples round-trips on the lengths below 256. -/
theorem byte_size_round_trips (b : Nat) (hb : b < 256) :
    round_trips byte_size.write byte_size.read b := by
  refine ⟨[b], 1, ?_, ?_⟩
  · intro io name
    simp [byte_size, Nat.mod_eq_of_lt hb]
  · intro rest prior
    rfl

/-- The cache of the label `{1,2,3}{4,5,0}` with the fields of the examples:
seven bytes, read back as the label. -/
theorem cache_label_two_entries :
    cache_label byte_float byte_size two_entry_label [] "l" false =
        (7, [2, 1, 2, 3, 4, 5, 0]) ∧
      read_cached_label byte_float byte_size { costs := [] } [2, 1, 2, 3, 4, 5, 0] =
        some (7, [], two_entry_label) := by
  constructor
  · rfl
  · simp [read_cached_label, read_model_field, read_model_field_vector, read_elements,
      read_model_field_elm, byte_float, byte_size, two_entry_label]

/-- C16, on the label `{1,2,3}{4,5,0}` and the one-byte fields of the
examples. -/
theorem C16_cached_label_round_trip_witness :
    ∃ (bytes : List Nat) (n : Nat),
      (∀ (io : io_buf) (upstream_name : String),
        write_model_field byte_float byte_size io two_entry_label upstream_name false =
          (n, io ++ bytes) ∧
        cache_label byte_float byte_size two_entry_label io upstream_name false =
          (n, io ++ bytes)) ∧
      (∀ (rest : io_buf) (prior : continuous_label), prior.costs = [] →
        read_model_field byte_float byte_size (bytes ++ rest) prior =
          some (n, rest, two_entry_label) ∧
        read_cached_label byte_float byte_size prior (bytes ++ rest) =
          some (n, rest, two_entry_label)) :=
  (C16_cached_label_round_trip byte_float byte_size two_entry_label
    (by
      intro e he
      simp only [two_entry_label, List.mem_cons, List.mem_singleton, List.not_mem_nil,
        or_false] at he
      rcases he with rfl | rfl
      · exact ⟨by simpa using byte_float_round_trips 1 (by decide),
          by simpa using byte_float_round_trips 2 (by decide),
          by simpa using byte_float_round_trips 3 (by decide)⟩
      · exact ⟨by simpa using byte_float_round_trips 4 (by decide),
          by simpa using byte_float_round_trips 5 (by decide),
          by simpa using byte_float_round_trips 0 (by decide)⟩)
    (byte_size_round_trips 2 (by decide))).1

end model_utils
end VW

/-! ## Theorems: loss functions -/

namespace VW

/-! ### The values the unit tests expect -/

/-- The values `squared_loss_test` expects at p = 0.4, y = 0.5,
update_scale = 0.1, but for `get_update`. -/
theorem squared_loss_test_values :
    squared.get_loss (2 / 5) (1 / 2) = 1 / 100 ∧
      squared.get_unsafe_update (2 / 5) (1 / 2) (1 / 10) = 2 / 100 ∧
      squared.get_square_grad (2 / 5) (1 / 2) = 4 / 100 ∧
      squared.first_derivative (2 / 5) (1 / 2) = -(2 / 10) ∧
      squared.second_derivative (2 / 5) (1 / 2) = 2 := by
  simp only [squared.get_loss, squared.get_unsafe_update, squared.get_square_grad,
    squared.first_derivative, squared.second_derivative]
  norm_num

/-- The values `expectile_loss_label_is_greater_than_prediction_test` expects
at parameter 0.4, p = 0.4, y = 0.5, update_scale = 0.1, but for `get_update`. -/
theorem expectile_loss_label_is_greater_values :
    expectile.get_loss (2 / 5) (2 / 5) (1 / 2) = 4 / 1000 ∧
      expectile.get_unsafe_update (2 / 5) (2 / 5) (1 / 2) (1 / 10) = 8 / 1000 ∧
      expectile.get_square_grad (2 / 5) (2 / 5) (1 / 2) = 64 / 10000 ∧
      expectile.first_derivative (2 / 5) (2 / 5) (1 / 2) = -(8 / 100) ∧
      expectile.second_derivative (2 / 5) (2 / 5) (1 / 2) = 8 / 10 := by
  simp only [expectile.get_loss, expectile.get_unsafe_update, expectile.get_square_grad,
    expectile.first_derivative, expectile.second_derivative, expectile.factor, squared.get_loss,
    squared.get_unsafe_update, squared.first_derivative, squared.second_derivative]
  norm_num

/-- The values `expectile_loss_prediction_is_greater_than_label_test` expects
at parameter 0.4, p = 0.5, y = 0.4, update_scale = 0.1, but for `get_update`. -/
theorem expectile_loss_prediction_is_greater_values :
    expectile.get_loss (2 / 5) (1 / 2) (2 / 5) = 6 / 1000 ∧
      expectile.get_unsafe_update (2 / 5) (1 / 2) (2 / 5) (1 / 10) = -(12 / 1000) ∧
      expectile.get_square_grad (2 / 5) (1 / 2) (2 / 5) = 144 / 10000 ∧
      expectile.first_derivative (2 / 5) (1 / 2) (2 / 5) = 12 / 100 ∧
      expectile.second_derivative (2 / 5) (1 / 2) (2 / 5) = 12 / 10 := by
  simp only [expectile.get_loss, expectile.get_unsafe_update, expectile.get_square_grad,
    expectile.first_derivative, expectile.second_derivative, expectile.factor, squared.get_loss,
    squared.get_unsafe_update, squared.first_derivative, squared.second_derivative]
  norm_num

/-- The factor of the expectile loss when the label is above the prediction. -/
theorem expectile.factor_of_gt (tau p y : ℚ) (h : y > p) : expectile.factor tau p y = tau := by
  unfold expectile.factor
  rw [if_neg (not_le.2 h)]

/-- The factor of the expectile loss when the label is not above the
prediction. -/
theorem expectile.factor_of_le (tau p y : ℚ) (h : y ≤ p) :
    expectile.factor tau p y = 1 - tau := by
  unfold expectile.factor
  rw [if_pos h]

/-! ### Expectile loss and squared loss -/

/-- C18: for a label `y` above the prediction `p`, the expectile loss with
shape parameter `tau` has `get_loss`, `first_derivative` and
`second_derivative` equal to those of the squared loss times `tau`,
`get_square_grad` equal to the one of the squared loss times `tau * tau`, and
`get_unsafe_update` and `get_update` at the update scale `s` equal to those of
the squared loss at the update scale `s * tau`. -/
theorem C18_expectile_is_scaled_squared (squared_get_update : ℚ → ℚ → ℚ → ℚ → ℚ)
    (tau p y s ppu : ℚ) (h : y > p) :
    expectile.get_loss tau p y = squared.get_loss p y * tau ∧
      expectile.first_derivative tau p y = squared.first_derivative p y * tau ∧
      expectile.second_derivative tau p y = squared.second_derivative p y * tau ∧
      expectile.get_square_grad tau p y = squared.get_square_grad p y * tau * tau ∧
      expectile.get_unsafe_update tau p y s = squared.get_unsafe_update p y (s * tau) ∧
      expectile.get_update squared_get_update tau p y s ppu =
        squared_get_update p y (s * tau) ppu := by
  have hf := expectile.factor_of_gt tau p y h
  refine ⟨?_, ?_, ?_, ?_, ?_, ?_⟩
  · rw [expectile.get_loss, hf]
  · rw [expectile.first_derivative, hf]
  · rw [expectile.second_derivative, hf]
  · rw [expectile.get_square_grad, expectile.first_derivative, hf, squared.get_square_grad]
    ring
  · rw [expectile.get_unsafe_update, hf, squared.get_unsafe_update, squared.get_unsafe_update]
    ring
  · rw [expectile.get_update, hf]

/-- C18, at the values of `compare_expectile_loss_with_squared_loss_test`:
parameter 0.3, p = 0.4, y = 0.5, update_scale = 0.1, pred_per_update = 1. -/
theorem C18_expectile_is_scaled_squared_witness :
    expectile.get_loss (mkRat 3 10) (mkRat 2 5) (mkRat 1 2) =
        squared.get_loss (mkRat 2 5) (mkRat 1 2) * mkRat 3 10 ∧
      expectile.first_derivative (mkRat 3 10) (mkRat 2 5) (mkRat 1 2) =
        squared.first_derivative (mkRat 2 5) (mkRat 1 2) * mkRat 3 10 ∧
      expectile.second_derivative (mkRat 3 10) (mkRat 2 5) (mkRat 1 2) =
        squared.second_derivative (mkRat 2 5) (mkRat 1 2) * mkRat 3 10 ∧
      expectile.get_square_grad (mkRat 3 10) (mkRat 2 5) (mkRat 1 2) =
        squared.get_square_grad (mkRat 2 5) (mkRat 1 2) * mkRat 3 10 * mkRat 3 10 ∧
      expectile.get_unsafe_update (mkRat 3 10) (mkRat 2 5) (mkRat 1 2) (mkRat 1 10) =
        squared.get_unsafe_update (mkRat 2 5) (mkRat 1 2) (mkRat 1 10 * mkRat 3 10) ∧
      expectile.get_update (fun p y s _ => 2 * (y - p) * s) (mkRat 3 10) (mkRat 2 5) (mkRat 1 2)
          (mkRat 1 10) 1 =
        (fun p y s _ => 2 * (y - p) * s) (mkRat 2 5) (mkRat 1 2) (mkRat 1 10 * mkRat 3 10) 1 :=
  C18_expectile_is_scaled_squared (fun p y s _ => 2 * (y - p) * s) (mkRat 3 10) (mkRat 2 5)
    (mkRat 1 2) (mkRat 1 10) 1 (by decide)

/-- The values the three unit tests expect of `get_update` (0.01812692,
0.007688365 and -0.011307956), within 1e-8, for every function `exp` that
agrees with the exponential function to seven decimals at -0.2, -0.08 and
-0.12. -/
theorem get_update_test_values (exp : ℚ → ℚ)
    (h1 : 8187307 / 10000000 ≤ exp (-(1 / 5))) (h2 : exp (-(1 / 5)) ≤ 8187308 / 10000000)
    (h3 : 9231163 / 10000000 ≤ exp (-(2 / 25))) (h4 : exp (-(2 / 25)) ≤ 9231164 / 10000000)
    (h5 : 8869204 / 10000000 ≤ exp (-(3 / 25))) (h6 : exp (-(3 / 25)) ≤ 8869205 / 10000000) :
    |squared.get_update exp (2 / 5) (1 / 2) (1 / 10) 1 - 1812692 / 100000000| ≤
        1 / 100000000 ∧
      |expectile.get_update (squared.get_update exp) (2 / 5) (2 / 5) (1 / 2) (1 / 10) 1 -
          7688365 / 1000000000| ≤ 1 / 100000000 ∧
      |expectile.get_update (squared.get_update exp) (2 / 5) (1 / 2) (2 / 5) (1 / 10) 1 -
          -(11307956 / 1000000000)| ≤ 1 / 100000000 := by
  have a1 : (-2 : ℚ) * (1 / 10) * 1 = -(1 / 5) := by norm_num
  have a2 : (-2 : ℚ) * (1 / 10 * (2 / 5)) * 1 = -(2 / 25) := by norm_num
  have a3 : (-2 : ℚ) * (1 / 10 * (1 - 2 / 5)) * 1 = -(3 / 25) := by norm_num
  have c1 : ¬ ((1 : ℚ) / 10 * 1 < 1 / 1000000) := by norm_num
  have c2 : ¬ ((1 : ℚ) / 10 * (2 / 5) * 1 < 1 / 1000000) := by norm_num
  have c3 : ¬ ((1 : ℚ) / 10 * (1 - 2 / 5) * 1 < 1 / 1000000) := by norm_num
  have f2 : expectile.factor (2 / 5) (2 / 5) (1 / 2) = 2 / 5 :=
    expectile.factor_of_gt _ _ _ (by norm_num)
  have f3 : expectile.factor (2 / 5) (1 / 2) (2 / 5) = 1 - 2 / 5 :=
    expectile.factor_of_le _ _ _ (by norm_num)
  refine ⟨?_, ?_, ?_⟩
  · rw [squared.get_update, if_neg c1, a1, abs_le]
    constructor <;> linarith
  · rw [expectile.get_update, f2, squared.get_update, if_neg c2, a2, abs_le]
    constructor <;> linarith
  · rw [expectile.get_update, f3, squared.get_update, if_neg c3, a3, abs_le]
    constructor <;> linarith

/-- C19 (as amended): for the expectile loss with shape parameter 0 and a
label `y` above the prediction `p`, `get_loss`, `get_update`,
`get_unsafe_update`, `get_square_grad`, `first_derivative` and
`second_derivative` are all 0, for every update scale `s`; `get_update` is the
step of the squared loss at the update scale `s * 0`. -/
theorem C19_expectile_zero_parameter (exp : ℚ → ℚ) (p y s ppu : ℚ) (h : y > p) :
    expectile.get_loss 0 p y = 0 ∧
      expectile.get_update (squared.get_update exp) 0 p y s ppu = 0 ∧
      expectile.get_unsafe_update 0 p y s = 0 ∧
      expectile.get_square_grad 0 p y = 0 ∧
      expectile.first_derivative 0 p y = 0 ∧
      expectile.second_derivative 0 p y = 0 := by
  have hf := expectile.factor_of_gt 0 p y h
  refine ⟨?_, ?_, ?_, ?_, ?_, ?_⟩
  · rw [expectile.get_loss, hf, mul_zero]
  · rw [expectile.get_update, hf, mul_zero, squared.get_update, zero_mul,
      if_pos (by norm_num), mul_zero]
  · rw [expectile.get_unsafe_update, hf, mul_zero]
  · rw [expectile.get_square_grad, expectile.first_derivative, hf, mul_zero]
    norm_num
  · rw [expectile.first_derivative, hf, mul_zero]
  · rw [expectile.second_derivative, hf, mul_zero]

/-- C19, at the values of `expectile_loss_parameter_equals_zero_test`:
p = 0.4, y = 0.5, update_scale = 0.1, pred_per_update = 1, with a stand-in for
the exponential function that is never consulted. -/
theorem C19_expectile_zero_parameter_witness :
    expectile.get_loss 0 (mkRat 2 5) (mkRat 1 2) = 0 ∧
      expectile.get_update (squared.get_update (fun _ => 1)) 0 (mkRat 2 5) (mkRat 1 2)
        (mkRat 1 10) 1 = 0 ∧
      expectile.get_unsafe_update 0 (mkRat 2 5) (mkRat 1 2) (mkRat 1 10) = 0 ∧
      expectile.get_square_grad 0 (mkRat 2 5) (mkRat 1 2) = 0 ∧
      expectile.first_derivative 0 (mkRat 2 5) (mkRat 1 2) = 0 ∧
      expectile.second_derivative 0 (mkRat 2 5) (mkRat 1 2) = 0 :=
  C19_expectile_zero_parameter (fun _ => 1) (mkRat 2 5) (mkRat 1 2) (mkRat 1 10) 1 (by decide)

/-- C19, counterexample: with shape parameter 0, p = 0.5 and y = 0.4, the
prediction and the label of `expectile_loss_prediction_is_greater_than_label_test`,
whose expected values have the factor `1 - tau`, the expectile loss is the
squared loss, 0.01, its first derivative 0.2 and its second derivative 2: none
of them is 0. -/
theorem C19_counterexample :
    expectile.get_loss 0 (1 / 2) (2 / 5) = 1 / 100 ∧ expectile.get_loss 0 (1 / 2) (2 / 5) ≠ 0 ∧
      expectile.first_derivative 0 (1 / 2) (2 / 5) = 2 / 10 ∧
      expectile.second_derivative 0 (1 / 2) (2 / 5) = 2 := by
  simp only [expectile.get_loss, expectile.first_derivative, expectile.second_derivative,
    expectile.factor, squared.get_loss, squared.first_derivative, squared.second_derivative]
  norm_num

/-! ### The raw step of the squared loss -/

/-- C20 (as amended): for the squared loss, `get_unsafe_update(p, y, s)` is
`s` times the first derivative with the sign changed, that is `2 * s * (y - p)`:
a step against the gradient. -/
theorem C20_squared_unsafe_update (p y s : ℚ) :
    squared.get_unsafe_update p y s = -(s * squared.first_derivative p y) ∧
      squared.get_unsafe_update p y s = 2 * s * (y - p) := by
  simp only [squared.get_unsafe_update, squared.first_derivative]
  constructor <;> ring

/-- C20, counterexample: at the values of `squared_loss_test`, p = 0.4,
y = 0.5 and update_scale = 0.1, `get_unsafe_update` is 0.02, as the test
expects, and update_scale times the first derivative is -0.02. -/
theorem C20_counterexample :
    squared.get_unsafe_update (2 / 5) (1 / 2) (1 / 10) = 2 / 100 ∧
      1 / 10 * squared.first_derivative (2 / 5) (1 / 2) = -(2 / 100) ∧
      squared.get_unsafe_update (2 / 5) (1 / 2) (1 / 10) ≠
        1 / 10 * squared.first_derivative (2 / 5) (1 / 2) := by
  simp only [squared.get_unsafe_update, squared.first_derivative]
  norm_num

end VW

/-! ## Theorems: float subtraction -/

namespace VW

/-- Rounding to the nearest whole number does not take a number that is at
least 1 below 1. -/
theorem VWFloat.one_le_round_half_even (x : ℚ) (h : 1 ≤ x) : 1 ≤ VWFloat.round_half_even x := by
  have hf : (1 : ℤ) ≤ ⌊x⌋ := Int.le_floor.2 (by exact_mod_cast h)
  unfold VWFloat.round_half_even
  simp only []
  split_ifs <;> omega

/-- A rational on the grid of the floats is a whole multiple of `2 ^ (-149)`. -/
theorem VWFloat.grid_multiple (q : ℚ) (h : 2 ^ 149 % q.den = 0) :
    ∃ n : ℤ, q = n / 2 ^ 149 := by
  obtain ⟨k, hk⟩ := Nat.dvd_of_mod_eq_zero h
  refine ⟨q.num * k, ?_⟩
  have hden : (q.den : ℚ) ≠ 0 := by exact_mod_cast q.den_nz
  have hk' : ((2 : ℚ) ^ 149) = q.den * k := by exact_mod_cast hk
  have hkne : (k : ℚ) ≠ 0 := by
    intro h0
    rw [h0, mul_zero] at hk'
    exact absurd hk' (by positivity)
  rw [hk']
  push_cast
  rw [mul_div_mul_right _ _ hkne]
  exact (Rat.num_div_den q).symm

/-- A result of at least `2 ^ (-149)` is rounded to a float above zero. -/
theorem VWFloat.round_to_float_pos (q : ℚ) (h : (2 : ℚ) ^ (-149 : ℤ) ≤ q) :
    (VWFloat.round_to_float q).gt VWFloat.zero = true := by
  have hq : 0 < q := lt_of_lt_of_le (by positivity) h
  have habs : |q| = q := abs_of_pos hq
  have hx : (1 : ℚ) ≤ q / 2 ^ (max (-149) (Int.log 2 q - 23)) := by
    rw [le_div_iff₀ (by positivity), one_mul]
    rcases le_total (Int.log 2 q - 23) (-149) with hle | hle
    · rw [max_eq_left hle]
      exact h
    · rw [max_eq_right hle]
      calc (2 : ℚ) ^ (Int.log 2 q - 23) ≤ 2 ^ Int.log 2 q :=
            zpow_le_zpow_right₀ (by norm_num) (by omega)
        _ ≤ q := by exact_mod_cast Int.zpow_log_le_self (by norm_num) hq
  have hm := VWFloat.one_le_round_half_even _ hx
  have hr : (0 : ℚ) < (VWFloat.round_half_even (q / 2 ^ (max (-149) (Int.log 2 q - 23))) : ℚ) *
      2 ^ (max (-149) (Int.log 2 q - 23)) := by
    have : (0 : ℚ) < (VWFloat.round_half_even (q / 2 ^ (max (-149) (Int.log 2 q - 23))) : ℚ) := by
      exact_mod_cast lt_of_lt_of_le one_pos hm
    positivity
  unfold VWFloat.round_to_float
  simp only [hq.ne', if_false, habs, not_lt.2 hq.le]
  split_ifs
  · rfl
  · simp only [VWFloat.gt, VWFloat.lt, VWFloat.zero, decide_eq_true_eq]
    exact hr

/-- The difference of two floats, the first above the second and below
`FLT_MAX`, is a float above zero. -/
theorem VWFloat.sub_pos_of_gt (a b : VWFloat) (ha : a.on_float_grid = true)
    (hb : b.on_float_grid = true) (h1 : a.gt b = true) (h2 : a.lt FLT_MAX = true) :
    (a.sub b).gt VWFloat.zero = true := by
  cases a with
  | nan => simp [VWFloat.lt] at h2
  | ninf => cases b <;> simp [VWFloat.gt, VWFloat.lt] at h1
  | pinf => simp [VWFloat.lt, FLT_MAX] at h2
  | fin x =>
    cases b with
    | nan => simp [VWFloat.gt, VWFloat.lt] at h1
    | pinf => simp [VWFloat.gt, VWFloat.lt] at h1
    | ninf => rfl
    | fin y =>
      simp only [VWFloat.gt, VWFloat.lt, decide_eq_true_eq] at h1
      simp only [VWFloat.on_float_grid, decide_eq_true_eq] at ha hb
      obtain ⟨n, hn⟩ := VWFloat.grid_multiple x ha
      obtain ⟨m, hm⟩ := VWFloat.grid_multiple y hb
      simp only [VWFloat.sub]
      apply VWFloat.round_to_float_pos
      have hnm : m < n := by
        rw [hn, hm] at h1
        have := (div_lt_div_iff_of_pos_right (by positivity : (0 : ℚ) < 2 ^ 149)).1 h1
        exact_mod_cast this
      have h1' : (1 : ℚ) ≤ (n : ℚ) - m := by
        have : (1 : ℤ) ≤ n - m := by omega
        exact_mod_cast this
      have hpow : (2 : ℚ) ^ (-149 : ℤ) = 1 / 2 ^ 149 := by
        rw [zpow_neg, zpow_ofNat, one_div]
      rw [hn, hm, ← sub_div, hpow]
      exact div_le_div_of_nonneg_right h1' (by positivity)

/-- The exponent of a positive rational between two powers of two. -/
theorem VWFloat.log_two_eq (q : ℚ) (k : ℤ) (h1 : (2 : ℚ) ^ k ≤ q) (h2 : q < (2 : ℚ) ^ (k + 1)) :
    Int.log 2 q = k := by
  have hq : 0 < q := lt_of_lt_of_le (by positivity) h1
  have ha : k ≤ Int.log 2 q :=
    (Int.zpow_le_iff_le_log (by norm_num) hq).1 (by exact_mod_cast h1)
  have hb : Int.log 2 q < k + 1 :=
    (Int.lt_zpow_iff_log_lt (by norm_num) hq).1 (by exact_mod_cast h2)
  omega

/-- Rounding leaves a whole number as it is. -/
theorem VWFloat.round_half_even_intCast (n : ℤ) : VWFloat.round_half_even (n : ℚ) = n := by
  unfold VWFloat.round_half_even
  simp

/-- Halfway above an even whole number, rounding goes down to it. -/
theorem VWFloat.round_half_even_half (n : ℤ) (h : n % 2 = 0) :
    VWFloat.round_half_even ((n : ℚ) + 1 / 2) = n := by
  have hf : ⌊(n : ℚ) + 1 / 2⌋ = n := by
    rw [Int.floor_eq_iff]
    constructor <;> norm_num
  unfold VWFloat.round_half_even
  simp only [hf, add_sub_cancel_left, lt_irrefl, if_false, h, if_true]

/-- Rounding to the nearest whole number does not go below the floor. -/
theorem VWFloat.floor_le_round_half_even (x : ℚ) : ⌊x⌋ ≤ VWFloat.round_half_even x := by
  unfold VWFloat.round_half_even
  simp only []
  split_ifs <;> omega

/-- A result of `2 ^ 128` or more overflows to +infinity. -/
theorem VWFloat.round_to_float_overflow (q : ℚ) (h : (2 : ℚ) ^ (128 : ℤ) ≤ q) :
    VWFloat.round_to_float q = VWFloat.pinf := by
  have hq : 0 < q := lt_of_lt_of_le (by positivity) h
  have habs : |q| = q := abs_of_pos hq
  have hlog : (128 : ℤ) ≤ Int.log 2 q :=
    (Int.zpow_le_iff_le_log (by norm_num) hq).1 (by exact_mod_cast h)
  have he : max (-149) (Int.log 2 q - 23) = Int.log 2 q - 23 := max_eq_right (by omega)
  have hx : ((2 : ℚ) ^ (23 : ℕ)) ≤ q / 2 ^ (Int.log 2 q - 23) := by
    rw [le_div_iff₀ (by positivity), ← zpow_natCast, ← zpow_add₀ (by norm_num)]
    have : ((23 : ℕ) : ℤ) + (Int.log 2 q - 23) = Int.log 2 q := by push_cast; ring
    rw [this]
    exact_mod_cast Int.zpow_log_le_self (by norm_num) hq
  have hm : ((2 : ℤ) ^ (23 : ℕ)) ≤ VWFloat.round_half_even (q / 2 ^ (Int.log 2 q - 23)) :=
    le_trans (Int.le_floor.2 (by exact_mod_cast hx)) (VWFloat.floor_le_round_half_even _)
  have hr : ((2 : ℚ) ^ 24 - 1) * 2 ^ 104 <
      (VWFloat.round_half_even (q / 2 ^ (Int.log 2 q - 23)) : ℚ) * 2 ^ (Int.log 2 q - 23) := by
    have h1 : ((2 : ℚ) ^ (23 : ℕ)) ≤
        (VWFloat.round_half_even (q / 2 ^ (Int.log 2 q - 23)) : ℚ) := by exact_mod_cast hm
    have h2 : ((2 : ℚ) ^ (105 : ℤ)) ≤ 2 ^ (Int.log 2 q - 23) :=
      zpow_le_zpow_right₀ (by norm_num) (by omega)
    calc ((2 : ℚ) ^ 24 - 1) * 2 ^ 104 < 2 ^ (23 : ℕ) * 2 ^ (105 : ℤ) := by norm_num
      _ ≤ (VWFloat.round_half_even (q / 2 ^ (Int.log 2 q - 23)) : ℚ) *
          2 ^ (Int.log 2 q - 23) := mul_le_mul h1 h2 (by positivity) (by positivity)
  unfold VWFloat.round_to_float
  simp only [hq.ne', if_false, habs, he, hr, if_true, not_lt.2 hq.le]

/-- Subtraction rounds: `16777216 - (-1)` is 16777216, the float nearest to
16777217, which is no float; `3e38 - (-3e38)` is +infinity; `2 - 1` is 1. -/
theorem VWFloat.sub_rounds :
    (VWFloat.fin 16777216).sub (VWFloat.fin (-1)) = VWFloat.fin 16777216 ∧
      (VWFloat.fin 300000000000000000000000000000000000000).sub
        (VWFloat.fin (-300000000000000000000000000000000000000)) = VWFloat.pinf ∧
      (VWFloat.fin 2).sub (VWFloat.fin 1) = VWFloat.fin 1 ∧
      (VWFloat.fin 3).sub (VWFloat.fin 2) = VWFloat.fin 1 := by
  have h1 : VWFloat.round_to_float 1 = VWFloat.fin 1 := by
    have hlog : Int.log 2 (1 : ℚ) = 0 := Int.log_one_right 2
    have hr : VWFloat.round_half_even (8388608 : ℚ) = 8388608 := by
      simpa using VWFloat.round_half_even_intCast 8388608
    unfold VWFloat.round_to_float
    simp only [one_ne_zero, if_false, abs_one, hlog, zero_sub]
    norm_num [hr]
  refine ⟨?_, ?_, ?_, ?_⟩
  · have hlog : Int.log 2 (16777217 : ℚ) = 24 :=
      VWFloat.log_two_eq _ 24 (by norm_num) (by norm_num)
    have hx : (16777217 : ℚ) / 2 ^ (1 : ℤ) = ((8388608 : ℤ) : ℚ) + 1 / 2 := by norm_num
    have hq : (16777216 : ℚ) - -1 = 16777217 := by norm_num
    simp only [VWFloat.sub, hq]
    unfold VWFloat.round_to_float
    have habs : |(16777217 : ℚ)| = 16777217 := abs_of_pos (by norm_num)
    have he : max (-149 : ℤ) (24 - 23) = 1 := by norm_num
    simp only [habs, hlog, he, hx, VWFloat.round_half_even_half 8388608 (by norm_num)]
    norm_num
  · simp only [VWFloat.sub]
    exact VWFloat.round_to_float_overflow _ (by norm_num)
  · have hq : (2 : ℚ) - 1 = 1 := by norm_num
    simp only [VWFloat.sub, hq, h1]
  · have hq : (3 : ℚ) - 2 = 1 := by norm_num
    simp only [VWFloat.sub, hq, h1]

end VW

/-! ## Theorems: buffer reads, passthrough entries and weight in csoaa -/

namespace VW
namespace CSOAA
open COST_SENSITIVE

/-! ### The 0-indexed loop over the multipredict buffer -/

/-- The loop of lines 130-134 does not come back from a list of indices that
holds an index outside the buffer: the read `c.pred[i]` of line 132 at that
index, if no earlier read, falls outside. -/
theorem multipredict_loop_0_outside (pred : List VWFloat) :
    ∀ (l : List Nat) (ec : Example) (prediction : Nat), (∃ i ∈ l, pred.length ≤ i) →
      multipredict_loop_0 pred l ec prediction = none := by
  intro l
  induction l with
  | nil => intro ec prediction h; simp at h
  | cons i l ih =>
    intro ec prediction h
    unfold multipredict_loop_0
    cases hi : pred[i]? with
    | none => rfl
    | some a =>
      simp only []
      cases hp : pred[prediction]? with
      | none => rfl
      | some b =>
        simp only []
        apply ih
        obtain ⟨j, hj, hlen⟩ := h
        rcases List.mem_cons.1 hj with hji | hjl
        · subst hji
          have := List.getElem?_eq_none hlen
          rw [this] at hi
          cases hi
        · exact ⟨j, hjl, hlen⟩

/-- C21, what the code does where the claim fails: on a 0-indexed node,
`predict` on an example with an empty label, when `multipredict` returns, does
not end in a defined state. The loop of line 130
runs over the indices `0, .., num_classes`, the buffer `c.pred` has the
`num_classes` slots `0, .., num_classes - 1`, and the read `c.pred[i]` of line
132 at `i = num_classes` falls outside the buffer. -/
theorem C21_zero_indexed_multipredict_reads_outside {σ : Type} (constant : Nat) (c : csoaa)
    (base : single_learner σ) (s : σ) (ec : Example) (hmode : c.indexing = 0)
    (hempty : ec.l.cs.costs = [])
    (hbase : ∀ s1 ec1 lo n, (base.multipredict s1 ec1 lo n).threw = false) :
    (predict_or_learn false constant c base s ec).status = exit_status.undefined ∧
      (predict_or_learn false constant c base s ec).c.pred.length = c.num_classes ∧
      c.num_classes ∈ List.range (c.num_classes + 1) ∧
      (predict_or_learn false constant c base s ec).c.pred[c.num_classes]? = none := by
  rw [predict_or_learn_multipredict constant c base s ec hempty]
  unfold multipredict_branch
  simp only [hbase, Bool.false_eq_true, if_false, hmode, if_true]
  rw [multipredict_loop_0_outside _ _ _ _ ⟨c.num_classes, by simp, by simp⟩]
  simp

/-- C21, on a 0-indexed node with three classes whose base learner scores the
offsets 0, 1, 2 with 3, 1, 2. -/
theorem C21_zero_indexed_multipredict_reads_outside_witness :
    (predict_or_learn false 0 { node3 with indexing := 0 } (scoring_base scores_312) ()
        (example_of [])).status = exit_status.undefined ∧
      (predict_or_learn false 0 { node3 with indexing := 0 } (scoring_base scores_312) ()
        (example_of [])).c.pred.length = 3 ∧
      3 ∈ List.range (3 + 1) ∧
      (predict_or_learn false 0 { node3 with indexing := 0 } (scoring_base scores_312) ()
        (example_of [])).c.pred[3]? = none :=
  C21_zero_indexed_multipredict_reads_outside 0 { node3 with indexing := 0 }
    (scoring_base scores_312) () (example_of []) rfl rfl (fun _ _ _ _ => rfl)

/-- The loop of lines 139-143, for comparison: on a buffer with `num_classes`
slots every index it reads lies in the buffer, and it comes back. -/
theorem multipredict_loop_1_inside (pred : List VWFloat) (hlen : pred.length < 2 ^ 32 - 1)
    (hn : 1 ≤ pred.length) (ec : Example) :
    ∃ ec1 p1, multipredict_loop_1 pred (List.range' 1 pred.length) ec 1 = some (ec1, p1) ∧
      1 ≤ p1 ∧ p1 ≤ pred.length := by
  obtain ⟨ec1, p1, h, h1, h2, _⟩ := multipredict_loop_1_spec pred hlen pred.length 1 ec 1
    (le_refl 1) (by omega) (le_refl 1) hn (le_refl 1) (fun j h1 h2 => by omega)
  exact ⟨ec1, p1, h, h1, h2⟩

/-! ### The runner-up among the passthrough entries -/

/-- What the loop of lines 158-166 keeps: the pair it started with, or an
entry above `partial_prediction` and below the cost it started with; and no
entry above `partial_prediction` is below the cost it keeps. -/
theorem second_best_loop_spec (pp : VWFloat) :
    ∀ (L : List (Nat × VWFloat)) (sb0 : Nat) (cost0 : VWFloat),
      (second_best_loop pp L sb0 cost0 = (sb0, cost0) ∨
        (second_best_loop pp L sb0 cost0 ∈ L ∧
          (second_best_loop pp L sb0 cost0).2.gt pp = true ∧
          (second_best_loop pp L sb0 cost0).2.lt cost0 = true)) ∧
      ∀ e ∈ L, e.2.gt pp = true → e.2.lt (second_best_loop pp L sb0 cost0).2 = false := by
  intro L
  induction L with
  | nil =>
    intro sb0 cost0
    exact ⟨Or.inl rfl, fun e he => by simp at he⟩
  | cons hd rest ih =>
    obtain ⟨idx, val⟩ := hd
    intro sb0 cost0
    unfold second_best_loop
    by_cases hc : (val.gt pp && val.lt cost0) = true
    · rw [if_pos hc]
      obtain ⟨hgt, hlt⟩ := Bool.and_eq_true _ _ ▸ hc
      obtain ⟨h1, h2⟩ := ih idx val
      constructor
      · right
        rcases h1 with h1 | ⟨hm, hg, hl⟩
        · rw [h1]
          exact ⟨by simp, hgt, hlt⟩
        · exact ⟨List.mem_cons_of_mem _ hm, hg, VWFloat.lt_trans_of _ _ _ hl hlt⟩
      · intro e he hge
        rcases List.mem_cons.1 he with he | he
        · subst he
          rw [Bool.eq_false_iff]
          intro hcontra
          rcases h1 with h1 | ⟨_, _, hl⟩
          · rw [h1] at hcontra
            simp only [VWFloat.lt_irrefl_of] at hcontra
            cases hcontra
          · have := VWFloat.lt_trans_of _ _ _ hcontra hl
            simp only [VWFloat.lt_irrefl_of] at this
            cases this
        · exact h2 e he hge
    · rw [if_neg hc]
      obtain ⟨h1, h2⟩ := ih sb0 cost0
      constructor
      · rcases h1 with h1 | ⟨hm, hg, hl⟩
        · exact Or.inl h1
        · exact Or.inr ⟨List.mem_cons_of_mem _ hm, hg, hl⟩
      · intro e he hge
        rcases List.mem_cons.1 he with he | he
        · subst he
          rw [Bool.eq_false_iff]
          intro hcontra
          apply hc
          rw [Bool.and_eq_true]
          refine ⟨hge, ?_⟩
          rcases h1 with h1 | ⟨_, _, hl⟩
          · rw [h1] at hcontra
            exact hcontra
          · exact VWFloat.lt_trans_of _ _ _ hcontra hl
        · exact h2 e he hge

/-- Lines 154-175 on an example that records passthrough entries: the entries
added are the entries of the runner-up among the entries recorded from
`pt_start` on, or the sentinel entry. The margin is above zero when the scores
are values of type `float`. -/
theorem passthrough_tail_spec (constant pt_start : Nat) (ec : Example)
    (pt : List (Nat × VWFloat)) (hpt : ec.passthrough = some pt) (hlen : pt_start ≤ pt.length) :
    ∃ ec1 extra, passthrough_tail constant pt_start ec = some ec1 ∧
      ec1.passthrough = some (pt ++ extra) ∧
      (ec.partial_prediction.on_float_grid = true →
        (∀ e ∈ pt.drop pt_start, e.2.on_float_grid = true) →
        runner_up_entries constant ec.partial_prediction (pt.drop pt_start) extra) := by
  obtain ⟨h1, h2⟩ := second_best_loop_spec ec.partial_prediction (pt.drop pt_start) 0 FLT_MAX
  unfold passthrough_tail
  simp only [hpt, if_neg (not_lt.2 hlen)]
  by_cases hsb : (second_best_loop ec.partial_prediction (pt.drop pt_start) 0 FLT_MAX).2.lt
      FLT_MAX = true
  · rw [if_pos hsb]
    rcases h1 with h1 | ⟨hm, hg, _⟩
    · rw [h1] at hsb
      simp only [VWFloat.lt_irrefl_of] at hsb
      cases hsb
    · refine ⟨_, _, rfl, ?_, fun hpp hcand => Or.inl ⟨_, _, hm, hg, hsb, h2,
        VWFloat.sub_pos_of_gt _ _ (hcand _ hm) hpp hg hsb, rfl⟩⟩
      simp [add_passthrough_feature, hpt]
  · rw [if_neg hsb]
    refine ⟨_, _, rfl, ?_, fun _ _ => Or.inr ⟨?_, rfl⟩⟩
    · simp [add_passthrough_feature, hpt]
    · rintro e he ⟨hge, hlt⟩
      rcases h1 with h1 | ⟨_, _, hl⟩
      · have := h2 e he hge
        rw [h1] at this
        rw [this] at hlt
        cases hlt
      · exact hsb hl

/-- What a returning `finish` leaves in the passthrough entries. -/
theorem finish_passthrough {σ : Type} (constant pt_start : Nat) (ld : label) (c : csoaa) (s : σ)
    (ec : Example) (prediction : Nat) (pt : List (Nat × VWFloat))
    (hpt : ec.passthrough = some pt)
    (h : (finish constant pt_start ld c s ec prediction).status = exit_status.returned) :
    pt_start ≤ pt.length ∧
      ∃ extra, (finish constant pt_start ld c s ec prediction).ec.passthrough =
          some (pt ++ extra) ∧
        (ec.partial_prediction.on_float_grid = true →
          (∀ e ∈ pt.drop pt_start, e.2.on_float_grid = true) →
          runner_up_entries constant ec.partial_prediction (pt.drop pt_start) extra) := by
  have hlen : pt_start ≤ pt.length := by
    by_contra hc
    have hnone : passthrough_tail constant pt_start ec = none := by
      unfold passthrough_tail
      simp only [hpt, if_pos (not_le.1 hc)]
    unfold finish at h
    rw [hnone] at h
    simp at h
  obtain ⟨ec1, extra, htail, hpass, hru⟩ := passthrough_tail_spec constant pt_start ec pt hpt hlen
  refine ⟨hlen, extra, ?_, hru⟩
  unfold finish
  rw [htail]
  exact hpass

/-! ### The passthrough entries of the candidates -/

/-- What `add_passthrough_feature` does to the passthrough entries. -/
theorem add_passthrough_feature_passthrough (ec : Example) (i : Nat) (x : VWFloat) :
    (add_passthrough_feature ec i x).passthrough = ec.passthrough.map (fun pt => pt ++ [(i, x)]) := by
  unfold add_passthrough_feature
  cases h : ec.passthrough <;> simp [h]

/-- A call of `inner_loop` in which a base learner that keeps the passthrough
entries returns adds the entry of its class and score. -/
theorem inner_loop_passthrough {σ : Type} (is_learn : Bool) (base : single_learner σ)
    (hbase : keeps_passthrough base) (s : σ) (ec : Example) (i : Nat) (cost : VWFloat)
    (prediction : Nat) (score partial_prediction : VWFloat) (indexing : Int)
    (h : (inner_loop is_learn base s ec i cost prediction score partial_prediction
      indexing).threw = false) :
    (inner_loop is_learn base s ec i cost prediction score partial_prediction
        indexing).ec.passthrough =
      ec.passthrough.map (fun pt => pt ++ [(i,
        (inner_loop is_learn base s ec i cost prediction score partial_prediction
          indexing).partial_prediction)]) := by
  have hcall : (inner_call is_learn base s ec i cost indexing).ec.passthrough =
      ec.passthrough := by
    unfold inner_call
    cases is_learn
    · simp only [Bool.false_eq_true, ↓reduceIte, hbase.2.1]
    · simp only [↓reduceIte, hbase.1]
  unfold inner_loop at h ⊢
  simp only [] at h ⊢
  by_cases ht : (inner_call is_learn base s ec i cost indexing).threw = true
  · rw [if_pos ht] at h
    simp at h
  · rw [if_neg ht]
    simp only [add_passthrough_feature_passthrough, hcall]

/-- The loop over the entries of the label, when a base learner that keeps
the passthrough entries does not throw, adds one entry for each entry of the
label, in order: its class and the score stored for it. -/
theorem costs_loop_passthrough {σ : Type} (is_learn : Bool) (base : single_learner σ)
    (hbase : keeps_passthrough base) (indexing : Int) :
    ∀ (costs : List wclass) (s : σ) (ec : Example) (prediction : Nat) (score : VWFloat),
      (costs_loop is_learn base indexing costs s ec prediction score).threw = false →
      (costs_loop is_learn base indexing costs s ec prediction score).ec.passthrough =
        ec.passthrough.map (fun pt => pt ++
          (costs_loop is_learn base indexing costs s ec prediction score).costs.map
            (fun e => (e.class_index, e.partial_prediction))) := by
  intro costs
  induction costs with
  | nil =>
    intro s ec prediction score _
    simp [costs_loop]
  | cons cl rest ih =>
    intro s ec prediction score h
    unfold costs_loop at h ⊢
    simp only [] at h ⊢
    by_cases ht : (inner_loop is_learn base s ec cl.class_index cl.x prediction score
        cl.partial_prediction indexing).threw = true
    · rw [if_pos ht] at h
      simp at h
    · rw [if_neg ht] at h ⊢
      simp only [] at h ⊢
      rw [ih _ _ _ _ h, inner_loop_passthrough is_learn base hbase _ _ _ _ _ _ _ _
        (by simpa using ht), Option.map_map]
      congr 1
      funext pt
      simp

/-- The loop over the classes of lines 150-151, when a base learner that
keeps the passthrough entries does not throw, adds one entry for each class,
in order. -/
theorem classes_loop_passthrough {σ : Type} (base : single_learner σ)
    (hbase : keeps_passthrough base) (indexing : Int) :
    ∀ (l : List Nat) (s : σ) (ec : Example) (prediction : Nat) (score temp : VWFloat),
      (classes_loop base indexing l s ec prediction score temp).threw = false →
      ∃ cand : List (Nat × VWFloat), cand.map Prod.fst = l ∧
        (classes_loop base indexing l s ec prediction score temp).ec.passthrough =
          ec.passthrough.map (fun pt => pt ++ cand) := by
  intro l
  induction l with
  | nil =>
    intro s ec prediction score temp _
    exact ⟨[], rfl, by simp [classes_loop]⟩
  | cons i l ih =>
    intro s ec prediction score temp h
    unfold classes_loop at h ⊢
    simp only [] at h ⊢
    by_cases ht : (inner_loop false base s ec i FLT_MAX prediction score temp indexing).threw =
        true
    · rw [if_pos ht] at h
      rw [ht] at h
      cases h
    · rw [if_neg ht] at h ⊢
      obtain ⟨cand, hc1, hc2⟩ := ih _ _ _ _ _ h
      refine ⟨(i, (inner_loop false base s ec i FLT_MAX prediction score temp
        indexing).partial_prediction) :: cand, by simp [hc1], ?_⟩
      rw [hc2, inner_loop_passthrough false base hbase _ _ _ _ _ _ _ _ (by simpa using ht),
        Option.map_map]
      congr 1
      funext pt
      simp

/-- The loop of lines 139-143, when it comes back, adds one entry for each
class, in order. -/
theorem multipredict_loop_1_passthrough (pred : List VWFloat) :
    ∀ (l : List Nat) (ec ec1 : Example) (p p1 : Nat),
      multipredict_loop_1 pred l ec p = some (ec1, p1) →
      ∃ cand : List (Nat × VWFloat), cand.map Prod.fst = l ∧
        ec1.passthrough = ec.passthrough.map (fun pt => pt ++ cand) := by
  intro l
  induction l with
  | nil =>
    intro ec ec1 p p1 h
    simp only [multipredict_loop_1, Option.some.injEq, Prod.mk.injEq] at h
    exact ⟨[], rfl, by rw [← h.1]; simp⟩
  | cons i l ih =>
    intro ec ec1 p p1 h
    unfold multipredict_loop_1 at h
    cases hi : pred[u32_pred i]? with
    | none => rw [hi] at h; simp at h
    | some a =>
      rw [hi] at h
      simp only [] at h
      cases hp : pred[u32_pred p]? with
      | none => rw [hp] at h; simp at h
      | some b =>
        rw [hp] at h
        simp only [] at h
        obtain ⟨cand, hc1, hc2⟩ := ih _ _ _ _ h
        refine ⟨(i, a) :: cand, by simp [hc1], ?_⟩
        rw [hc2, add_passthrough_feature_passthrough, Option.map_map]
        congr 1
        funext pt
        simp

/-! ### The passthrough entries of a call -/

/-- A returning `finish`, reached with the entries `cand` recorded since the
call began, adds the entries of the runner-up among `cand`, or the sentinel
entry. -/
theorem finish_runner_up {σ : Type} (constant : Nat) (ld : label) (c : csoaa) (s : σ)
    (ec : Example) (prediction : Nat) (pt0 cand : List (Nat × VWFloat))
    (hpt : ec.passthrough = some (pt0 ++ cand))
    (h : (finish constant pt0.length ld c s ec prediction).status = exit_status.returned) :
    ∃ extra, (finish constant pt0.length ld c s ec prediction).ec.passthrough =
        some (pt0 ++ cand ++ extra) ∧
      ((finish constant pt0.length ld c s ec prediction).ec.partial_prediction.on_float_grid =
          true →
        (∀ e ∈ cand, e.2.on_float_grid = true) →
        runner_up_entries constant
          (finish constant pt0.length ld c s ec prediction).ec.partial_prediction cand extra) := by
  obtain ⟨_, extra, hfin, hru⟩ := finish_passthrough constant pt0.length ld c s ec prediction
    (pt0 ++ cand) hpt h
  rw [List.drop_left] at hru
  rw [(finish_returned constant pt0.length ld c s ec prediction h).1]
  exact ⟨extra, hfin, hru⟩

/-- Lines 103-112 leave the passthrough entries alone. -/
theorem prepare_passthrough (ec : Example) : (prepare ec).passthrough = ec.passthrough := rfl

/-- The value `pt_start` of an example that records passthrough entries. -/
theorem passthrough_size_of_some (ec : Example) (pt0 : List (Nat × VWFloat))
    (hpt : ec.passthrough = some pt0) : passthrough_size ec = pt0.length := by
  simp [passthrough_size, hpt]

/-- The passthrough entries a returning call leaves, with a base learner that
keeps the passthrough entries: the entries `pt0` it found, one entry for each
candidate, and the entries of the runner-up among the candidates or the
sentinel entry. -/
theorem predict_or_learn_passthrough {σ : Type} (is_learn : Bool) (constant : Nat)
    (c : csoaa) (base : single_learner σ) (s : σ) (ec : Example) (pt0 : List (Nat × VWFloat))
    (hbase : keeps_passthrough base) (hpt : ec.passthrough = some pt0)
    (hret : (predict_or_learn is_learn constant c base s ec).status = exit_status.returned) :
    ∃ cand extra,
      (predict_or_learn is_learn constant c base s ec).ec.passthrough =
        some (pt0 ++ cand ++ extra) ∧
      (ec.l.cs.costs ≠ [] →
        cand = (predict_or_learn is_learn constant c base s ec).ec.l.cs.costs.map
          (fun e => (e.class_index, e.partial_prediction))) ∧
      (ec.l.cs.costs = [] → cand.map Prod.fst = List.range' 1 c.num_classes) ∧
      ((predict_or_learn is_learn constant c base s ec).ec.partial_prediction.on_float_grid =
          true →
        (∀ e ∈ cand, e.2.on_float_grid = true) →
        runner_up_entries constant
          (predict_or_learn is_learn constant c base s ec).ec.partial_prediction cand extra) := by
  have hsize := passthrough_size_of_some ec pt0 hpt
  by_cases hne : ec.l.cs.costs = []
  · cases is_learn
    · -- predict on an empty label
      rw [predict_or_learn_multipredict constant c base s ec hne, hsize] at hret ⊢
      unfold multipredict_branch at hret ⊢
      simp only [] at hret ⊢
      generalize hm : base.multipredict _ _ _ _ = m at hret ⊢
      have hmp : m.ec.passthrough = some pt0 := by
        rw [← hm, hbase.2.2]
        exact hpt
      by_cases hthrew : m.threw = true
      · rw [if_pos hthrew] at hret
        simp at hret
      · rw [if_neg hthrew] at hret ⊢
        by_cases hmode : c.indexing = 0
        · rw [if_pos hmode,
            multipredict_loop_0_outside _ _ _ _ ⟨c.num_classes, by simp, by simp⟩] at hret
          simp at hret
        · rw [if_neg hmode] at hret ⊢
          generalize hloop : multipredict_loop_1 _ _ _ _ = lr at hret ⊢
          cases lr with
          | none => simp at hret
          | some pr =>
            obtain ⟨ec1, p1⟩ := pr
            simp only [] at hret ⊢
            generalize hsc : (List.map m.scores (List.range c.num_classes))[u32_pred p1]? = o
              at hret ⊢
            cases o with
            | none => simp at hret
            | some sc =>
              simp only [] at hret ⊢
              obtain ⟨cand, hc1, hc2⟩ := multipredict_loop_1_passthrough _ _ _ _ _ _ hloop
              simp only [hmp, Option.map_some'] at hc2
              obtain ⟨extra, hfin, hru⟩ := finish_runner_up constant _ _ _
                { ec1 with partial_prediction := sc } p1 pt0 cand hc2 hret
              exact ⟨cand, extra, hfin, fun h => absurd hne h, fun _ => hc1, hru⟩
    · -- learn on an empty label
      rw [predict_or_learn_unlabelled constant c base s ec hne, hsize] at hret ⊢
      unfold unlabelled_branch at hret ⊢
      simp only [] at hret ⊢
      split at hret
      · simp at hret
      · rename_i hthrew
        rw [if_neg hthrew]
        obtain ⟨cand, hc1, hc2⟩ := classes_loop_passthrough base hbase _ _ _ _ _ _ _
          (by simpa using hthrew)
        simp only [prepare_passthrough, hpt, Option.map_some'] at hc2
        obtain ⟨extra, hfin, hru⟩ := finish_runner_up constant _ _ _ _ _ pt0 cand hc2 hret
        exact ⟨cand, extra, hfin, fun h => absurd hne h, fun _ => hc1, hru⟩
  · rw [predict_or_learn_labelled is_learn constant c base s ec hne, hsize] at hret ⊢
    unfold labelled_branch at hret ⊢
    simp only [] at hret ⊢
    split at hret
    · simp at hret
    · rename_i hthrew
      rw [if_neg hthrew]
      have hc2 := costs_loop_passthrough is_learn base hbase _ _ _ _ _ _ (by simpa using hthrew)
      simp only [prepare_passthrough, hpt, Option.map_some'] at hc2
      obtain ⟨extra, hfin, hru⟩ := finish_runner_up constant _ _ _
        { (costs_loop is_learn base (validate c ec.l.cs.costs).1.indexing
              (validate c ec.l.cs.costs).2 s (prepare ec)
              (default_prediction (validate c ec.l.cs.costs).1.indexing) FLT_MAX).ec with
          partial_prediction := (costs_loop is_learn base (validate c ec.l.cs.costs).1.indexing
              (validate c ec.l.cs.costs).2 s (prepare ec)
              (default_prediction (validate c ec.l.cs.costs).1.indexing) FLT_MAX).score }
        _ pt0 _ hc2 hret
      refine ⟨_, extra, hfin, fun _ => ?_, fun h => absurd h hne, hru⟩
      rw [finish_label]

/-- C22: with a base learner that keeps the passthrough entries, a call of
`predict_or_learn` that returns on an example that records passthrough
entries, and leaves in them and in `partial_prediction` values on the grid of
the type `float` (NaN, an infinity or a whole multiple of `2 ^ (-149)`, as
every value of type `float` is), leaves the entries `pt0` it found, then one entry for each candidate (the
class and the stored score of each entry of the label, or one entry for each
class `1, .., num_classes` when the label is empty), then either the two
entries `(constant*2, margin)` and `(constant*2 + 1 + r, 1)`, where `(r, v)`
is a candidate entry whose score `v` is above the example's
`partial_prediction`, below `FLT_MAX` and the smallest such, and `margin` is
the float `v - partial_prediction`, which is above zero, or, when no candidate
has such a score, the one entry `(constant*3, 1)`. The entries of `pt0` are not
looked at. Indices are `uint64_t` values. -/
theorem C22_passthrough_runner_up_or_sentinel {σ : Type} (is_learn : Bool) (constant : Nat)
    (c : csoaa) (base : single_learner σ) (s : σ) (ec : Example) (pt0 : List (Nat × VWFloat))
    (hbase : keeps_passthrough base) (hpt : ec.passthrough = some pt0)
    (hret : (predict_or_learn is_learn constant c base s ec).status = exit_status.returned)
    (hfloat : ∀ pt, (predict_or_learn is_learn constant c base s ec).ec.passthrough = some pt →
      ∀ e ∈ pt, e.2.on_float_grid = true)
    (hfloat_pp :
      (predict_or_learn is_learn constant c base s ec).ec.partial_prediction.on_float_grid =
        true) :
    ∃ cand extra,
      (predict_or_learn is_learn constant c base s ec).ec.passthrough =
        some (pt0 ++ cand ++ extra) ∧
      (ec.l.cs.costs ≠ [] →
        cand = (predict_or_learn is_learn constant c base s ec).ec.l.cs.costs.map
          (fun e => (e.class_index, e.partial_prediction))) ∧
      (ec.l.cs.costs = [] → cand.map Prod.fst = List.range' 1 c.num_classes) ∧
      runner_up_entries constant
        (predict_or_learn is_learn constant c base s ec).ec.partial_prediction cand extra := by
  obtain ⟨cand, extra, hpass, h1, h2, hru⟩ :=
    predict_or_learn_passthrough is_learn constant c base s ec pt0 hbase hpt hret
  exact ⟨cand, extra, hpass, h1, h2,
    hru hfloat_pp (fun e he => hfloat _ hpass e (by simp [he]))⟩

/-- The base learners of the examples keep the passthrough entries. -/
theorem scoring_base_keeps_passthrough (f : Nat → VWFloat) :
    keeps_passthrough (scoring_base f) :=
  ⟨fun _ _ _ => rfl, fun _ _ _ => rfl, fun _ _ _ _ => rfl⟩

/-- The passthrough entries of four calls on a node with three classes and
the constant 10. With the scores 3, 1, 2 for the classes 1, 2, 3 and the three
classes in the label the runner-up is the class 3 with the margin 2 - 1,
though the entry (7, 3/2) of the earlier call lies closer; with the class 3
alone there is no runner-up; `learn` on an empty label compares with the score
of the last class, 2, and finds the class 1 with the margin 3 - 2. With the
scores -1 and 16777216 for the classes 1 and 2 the margin is the float
16777216, the exact difference 16777217 being no float. -/
theorem passthrough_entries_of_four_calls :
    (predict_or_learn false 10 node3 (scoring_base scores_312) ()
        (passthrough_example [entry 1, entry 2, entry 3])).ec.passthrough =
      some [(7, VWFloat.fin (mkRat 3 2)), (1, VWFloat.fin 3), (2, VWFloat.fin 1),
        (3, VWFloat.fin 2), (20, VWFloat.fin 1), (24, VWFloat.fin 1)] ∧
    (predict_or_learn true 10 node3 (scoring_base scores_312) ()
        (passthrough_example [entry 3])).ec.passthrough =
      some [(7, VWFloat.fin (mkRat 3 2)), (3, VWFloat.fin 2), (30, VWFloat.fin 1)] ∧
    (predict_or_learn true 10 node3 (scoring_base scores_312) ()
        (passthrough_example [])).ec.passthrough =
      some [(7, VWFloat.fin (mkRat 3 2)), (1, VWFloat.fin 3), (2, VWFloat.fin 1),
        (3, VWFloat.fin 2), (20, VWFloat.fin 1), (22, VWFloat.fin 1)] ∧
    (predict_or_learn false 10 { node3 with indexing := 1 } (scoring_base scores_wide) ()
        (passthrough_example [entry 1, entry 2])).ec.passthrough =
      some [(7, VWFloat.fin (mkRat 3 2)), (1, VWFloat.fin (-1)), (2, VWFloat.fin 16777216),
        (20, VWFloat.fin 16777216), (23, VWFloat.fin 1)] := by
  have h1 : (predict_or_learn false 10 node3 (scoring_base scores_312) ()
        (passthrough_example [entry 1, entry 2, entry 3])).ec.passthrough =
      some [(7, VWFloat.fin (mkRat 3 2)), (1, VWFloat.fin 3), (2, VWFloat.fin 1),
        (3, VWFloat.fin 2), (20, (VWFloat.fin 2).sub (VWFloat.fin 1)), (24, VWFloat.fin 1)] :=
    rfl
  have h3 : (predict_or_learn true 10 node3 (scoring_base scores_312) ()
        (passthrough_example [])).ec.passthrough =
      some [(7, VWFloat.fin (mkRat 3 2)), (1, VWFloat.fin 3), (2, VWFloat.fin 1),
        (3, VWFloat.fin 2), (20, (VWFloat.fin 3).sub (VWFloat.fin 2)), (22, VWFloat.fin 1)] :=
    rfl
  have h4 : (predict_or_learn false 10 { node3 with indexing := 1 } (scoring_base scores_wide)
        () (passthrough_example [entry 1, entry 2])).ec.passthrough =
      some [(7, VWFloat.fin (mkRat 3 2)), (1, VWFloat.fin (-1)), (2, VWFloat.fin 16777216),
        (20, (VWFloat.fin 16777216).sub (VWFloat.fin (-1))), (23, VWFloat.fin 1)] :=
    rfl
  rw [VWFloat.sub_rounds.2.2.1] at h1
  rw [VWFloat.sub_rounds.2.2.2] at h3
  rw [VWFloat.sub_rounds.1] at h4
  exact ⟨h1, by decide, h3, h4⟩

/-- C22, on a node with three classes, the constant 10, the scores 3, 1, 2 for
the classes 1, 2, 3 and an example that holds the entry (7, 3/2) of an earlier
call: after that entry and the entries of the three candidates come the margin
1 of the runner-up, the class 3, and its index 24. -/
theorem C22_passthrough_runner_up_or_sentinel_witness :
    (predict_or_learn false 10 node3 (scoring_base scores_312) ()
        (passthrough_example [entry 1, entry 2, entry 3])).ec.passthrough =
      some ([(7, VWFloat.fin (mkRat 3 2))] ++
        [(1, VWFloat.fin 3), (2, VWFloat.fin 1), (3, VWFloat.fin 2)] ++
        [(20, VWFloat.fin 1), (24, VWFloat.fin 1)]) ∧
      runner_up_entries 10 (VWFloat.fin 1)
        [(1, VWFloat.fin 3), (2, VWFloat.fin 1), (3, VWFloat.fin 2)]
        [(20, VWFloat.fin 1), (24, VWFloat.fin 1)] := by
  have hval := passthrough_entries_of_four_calls.1
  obtain ⟨cand, extra, hpass, hcand, -, hru⟩ :=
    C22_passthrough_runner_up_or_sentinel false 10 node3 (scoring_base scores_312) ()
      (passthrough_example [entry 1, entry 2, entry 3]) [(7, VWFloat.fin (mkRat 3 2))]
      (scoring_base_keeps_passthrough _) rfl (by decide)
      (by
        intro pt hpt
        rw [hval] at hpt
        cases hpt
        decide)
      (by decide)
  have hc : cand = [(1, VWFloat.fin 3), (2, VWFloat.fin 1), (3, VWFloat.fin 2)] := by
    rw [hcand (by decide)]
    decide
  subst hc
  rw [hval] at hpass
  have he : extra = [(20, VWFloat.fin 1), (24, VWFloat.fin 1)] := by
    simpa using hpass.symm
  subst he
  exact ⟨hval, hru⟩

/-! ### The weight of the example -/

/-- The weight `inner_loop` leaves is the weight its call of the base learner
leaves. -/
theorem inner_loop_weight {σ : Type} (is_learn : Bool) (base : single_learner σ) (s : σ)
    (ec : Example) (i : Nat) (cost : VWFloat) (prediction : Nat)
    (score partial_prediction : VWFloat) (indexing : Int) :
    (inner_loop is_learn base s ec i cost prediction score partial_prediction indexing).ec.weight =
      (inner_call is_learn base s ec i cost indexing).ec.weight := by
  unfold inner_loop
  simp only []
  by_cases ht : (inner_call is_learn base s ec i cost indexing).threw = true
  · rw [if_pos ht]
  · rw [if_neg ht]
    exact (add_passthrough_feature_keeps _ _ _).2.2.2

/-- The weight `inner_loop<true>` sets for an entry with the cost `cost`
(line 40). -/
theorem inner_loop_learn_weight {σ : Type} (base : single_learner σ) (hbase : keeps_weight base)
    (s : σ) (ec : Example) (i : Nat) (cost : VWFloat) (prediction : Nat)
    (score partial_prediction : VWFloat) (indexing : Int) :
    (inner_loop true base s ec i cost prediction score partial_prediction indexing).ec.weight =
      if cost.eq FLT_MAX = true then VWFloat.zero else VWFloat.one := by
  rw [inner_loop_weight]
  simp only [inner_call, ↓reduceIte, hbase.1]

/-- The function `inner_loop<false>` leaves the weight alone. -/
theorem inner_loop_predict_weight {σ : Type} (base : single_learner σ)
    (hbase : keeps_weight base) (s : σ) (ec : Example) (i : Nat) (cost : VWFloat)
    (prediction : Nat) (score partial_prediction : VWFloat) (indexing : Int) :
    (inner_loop false base s ec i cost prediction score partial_prediction indexing).ec.weight =
      ec.weight := by
  rw [inner_loop_weight]
  simp only [inner_call, Bool.false_eq_true, ↓reduceIte, hbase.2.1]

/-- After the learning loop over a label with entries, when the base learner
did not throw, the weight is the one set for the last entry. -/
theorem costs_loop_learn_weight {σ : Type} (base : single_learner σ) (hbase : keeps_weight base)
    (indexing : Int) :
    ∀ (costs : List wclass) (s : σ) (ec : Example) (prediction : Nat) (score : VWFloat)
      (last : wclass), costs.getLast? = some last →
      (costs_loop true base indexing costs s ec prediction score).threw = false →
      (costs_loop true base indexing costs s ec prediction score).ec.weight =
        if last.x.eq FLT_MAX = true then VWFloat.zero else VWFloat.one := by
  intro costs
  induction costs with
  | nil => intro s ec prediction score last h; simp at h
  | cons cl rest ih =>
    intro s ec prediction score last hlast hthrew
    unfold costs_loop at hthrew ⊢
    simp only [] at hthrew ⊢
    split at hthrew
    · simp at hthrew
    · rename_i hno
      rw [if_neg hno]
      cases rest with
      | nil =>
        simp only [List.getLast?_singleton, Option.some.injEq] at hlast
        subst hlast
        simp only [costs_loop]
        exact inner_loop_learn_weight base hbase _ _ _ _ _ _ _ _
      | cons cl2 rest2 =>
        rw [List.getLast?_cons_cons] at hlast
        exact ih _ _ _ _ last hlast hthrew

/-- The predicting loop over the entries leaves the weight alone, whether or
not the base learner throws. -/
theorem costs_loop_predict_weight {σ : Type} (base : single_learner σ)
    (hbase : keeps_weight base) (indexing : Int) :
    ∀ (costs : List wclass) (s : σ) (ec : Example) (prediction : Nat) (score : VWFloat),
      (costs_loop false base indexing costs s ec prediction score).ec.weight = ec.weight := by
  intro costs
  induction costs with
  | nil => intro s ec prediction score; rfl
  | cons cl rest ih =>
    intro s ec prediction score
    unfold costs_loop
    simp only []
    split
    · exact inner_loop_predict_weight base hbase _ _ _ _ _ _ _ _
    · simp only []
      rw [ih]
      exact inner_loop_predict_weight base hbase _ _ _ _ _ _ _ _

/-- The loop over the classes of lines 150-151 leaves the weight alone. -/
theorem classes_loop_weight {σ : Type} (base : single_learner σ) (hbase : keeps_weight base)
    (indexing : Int) :
    ∀ (l : List Nat) (s : σ) (ec : Example) (prediction : Nat) (score temp : VWFloat),
      (classes_loop base indexing l s ec prediction score temp).ec.weight = ec.weight := by
  intro l
  induction l with
  | nil => intro s ec prediction score temp; rfl
  | cons i l ih =>
    intro s ec prediction score temp
    unfold classes_loop
    simp only []
    split
    · exact inner_loop_predict_weight base hbase _ _ _ _ _ _ _ _
    · rw [ih]
      exact inner_loop_predict_weight base hbase _ _ _ _ _ _ _ _

/-- The loop of lines 130-134 leaves the weight alone. -/
theorem multipredict_loop_0_weight (pred : List VWFloat) :
    ∀ (l : List Nat) (ec ec1 : Example) (p p1 : Nat),
      multipredict_loop_0 pred l ec p = some (ec1, p1) → ec1.weight = ec.weight := by
  intro l
  induction l with
  | nil =>
    intro ec ec1 p p1 h
    simp only [multipredict_loop_0, Option.some.injEq, Prod.mk.injEq] at h
    rw [h.1]
  | cons i l ih =>
    intro ec ec1 p p1 h
    unfold multipredict_loop_0 at h
    cases hi : pred[i]? with
    | none => rw [hi] at h; simp at h
    | some a =>
      rw [hi] at h
      simp only [] at h
      cases hp : pred[p]? with
      | none => rw [hp] at h; simp at h
      | some b =>
        rw [hp] at h
        simp only [] at h
        rw [ih _ _ _ _ h, (add_passthrough_feature_keeps _ _ _).2.2.2]

/-- The loop of lines 139-143 leaves the weight alone. -/
theorem multipredict_loop_1_weight (pred : List VWFloat) :
    ∀ (l : List Nat) (ec ec1 : Example) (p p1 : Nat),
      multipredict_loop_1 pred l ec p = some (ec1, p1) → ec1.weight = ec.weight := by
  intro l
  induction l with
  | nil =>
    intro ec ec1 p p1 h
    simp only [multipredict_loop_1, Option.some.injEq, Prod.mk.injEq] at h
    rw [h.1]
  | cons i l ih =>
    intro ec ec1 p p1 h
    unfold multipredict_loop_1 at h
    cases hi : pred[u32_pred i]? with
    | none => rw [hi] at h; simp at h
    | some a =>
      rw [hi] at h
      simp only [] at h
      cases hp : pred[u32_pred p]? with
      | none => rw [hp] at h; simp at h
      | some b =>
        rw [hp] at h
        simp only [] at h
        rw [ih _ _ _ _ h, (add_passthrough_feature_keeps _ _ _).2.2.2]

/-- Lines 154-177 and the scope exit leave the weight alone, however they
end. -/
theorem finish_weight {σ : Type} (constant pt_start : Nat) (ld : label) (c : csoaa) (s : σ)
    (ec : Example) (prediction : Nat) :
    (finish constant pt_start ld c s ec prediction).ec.weight = ec.weight := by
  unfold finish
  cases h : passthrough_tail constant pt_start ec with
  | none => rfl
  | some ec1 => exact (passthrough_tail_keeps constant pt_start ec ec1 h).2.2.2

/-- The validation pass keeps the cost of the last entry. -/
theorem validate_last_cost (c : csoaa) (costs : List wclass) (last : wclass)
    (h : costs.getLast? = some last) :
    ∃ last1, (validate c costs).2.getLast? = some last1 ∧ last1.x = last.x := by
  have hmap := congrArg List.getLast? (validate_keeps c costs).1
  rw [List.getLast?_map, List.getLast?_map, h] at hmap
  cases hv : (validate c costs).2.getLast? with
  | none => rw [hv] at hmap; simp at hmap
  | some last1 =>
    rw [hv] at hmap
    simp only [Option.map_some', Option.some.injEq, Prod.mk.injEq] at hmap
    exact ⟨last1, rfl, hmap.1⟩

/-- The branch of a label with entries leaves the weight alone in `predict`,
however it ends. -/
theorem labelled_branch_predict_weight {σ : Type} (constant : Nat) (c : csoaa)
    (base : single_learner σ) (hbase : keeps_weight base) (s : σ) (ec : Example) (ld : label)
    (prediction : Nat) (score : VWFloat) (pt_start : Nat) :
    (labelled_branch false constant c base s ec ld prediction score pt_start).ec.weight =
      ec.weight := by
  unfold labelled_branch
  simp only []
  by_cases ht : (costs_loop false base c.indexing ld.costs s ec prediction score).threw = true
  · rw [if_pos ht]
    exact costs_loop_predict_weight base hbase _ _ _ _ _ _
  · rw [if_neg ht, finish_weight]
    exact costs_loop_predict_weight base hbase _ _ _ _ _ _

/-- The branch of `predict` on an empty label leaves the weight alone, however
it ends. -/
theorem multipredict_branch_weight {σ : Type} (constant : Nat) (c : csoaa)
    (base : single_learner σ) (hbase : keeps_weight base) (s : σ) (ec : Example) (ld : label)
    (prediction pt_start : Nat) :
    (multipredict_branch constant c base s ec ld prediction pt_start).ec.weight = ec.weight := by
  unfold multipredict_branch
  simp only []
  split
  · simp only [restore_guard, hbase.2.2]
  · split
    · split
      · simp only [restore_guard, hbase.2.2]
      · rename_i ec1 p1 hloop
        have hw := multipredict_loop_0_weight _ _ _ _ _ _ hloop
        split
        · simp only [restore_guard, hw, hbase.2.2]
        · rw [finish_weight]
          simp only [hw, hbase.2.2]
    · split
      · simp only [restore_guard, hbase.2.2]
      · rename_i ec1 p1 hloop
        have hw := multipredict_loop_1_weight _ _ _ _ _ _ hloop
        split
        · simp only [restore_guard, hw, hbase.2.2]
        · rw [finish_weight]
          simp only [hw, hbase.2.2]

/-- The branch of `learn` on an empty label leaves the weight alone, however
it ends. -/
theorem unlabelled_branch_weight {σ : Type} (constant : Nat) (c : csoaa)
    (base : single_learner σ) (hbase : keeps_weight base) (s : σ) (ec : Example) (ld : label)
    (prediction : Nat) (score : VWFloat) (pt_start : Nat) :
    (unlabelled_branch constant c base s ec ld prediction score pt_start).ec.weight =
      ec.weight := by
  unfold unlabelled_branch
  simp only []
  by_cases ht : (classes_loop base c.indexing (List.range' 1 c.num_classes) s ec prediction
      score VWFloat.zero).threw = true
  · rw [if_pos ht]
    exact classes_loop_weight base hbase _ _ _ _ _ _ _
  · rw [if_neg ht, finish_weight]
    exact classes_loop_weight base hbase _ _ _ _ _ _ _

/-- C23: with a base learner that leaves the weight of the example alone,
after a `learn` that returns on an example whose label has entries the weight
of the example is 0 if the cost of the last entry is `FLT_MAX` and 1
otherwise, whatever it was on entry; `predict`, and `learn` on an empty label,
leave the weight as it was, however they end. -/
theorem C23_learn_leaves_weight_of_last_entry {σ : Type} (constant : Nat) (c : csoaa)
    (base : single_learner σ) (s : σ) (ec : Example) (hbase : keeps_weight base) :
    (∀ last, ec.l.cs.costs.getLast? = some last →
        (predict_or_learn true constant c base s ec).status = exit_status.returned →
        (predict_or_learn true constant c base s ec).ec.weight =
          if last.x.eq FLT_MAX = true then VWFloat.zero else VWFloat.one) ∧
      (predict_or_learn false constant c base s ec).ec.weight = ec.weight ∧
      (ec.l.cs.costs = [] → (predict_or_learn true constant c base s ec).ec.weight = ec.weight) := by
  refine ⟨?_, ?_, ?_⟩
  · intro last hlast hret
    have hne : ec.l.cs.costs ≠ [] := by
      intro h
      rw [h] at hlast
      simp at hlast
    rw [predict_or_learn_labelled true constant c base s ec hne] at hret ⊢
    obtain ⟨hthrew, _, _, _, _, hw⟩ := labelled_branch_returned true constant _ base s _ _ _ _ _ hret
    rw [hw]
    obtain ⟨last1, hlast1, hx⟩ := validate_last_cost c ec.l.cs.costs last hlast
    rw [← hx]
    exact costs_loop_learn_weight base hbase _ _ _ _ _ _ last1 hlast1 hthrew
  · by_cases hne : ec.l.cs.costs = []
    · rw [predict_or_learn_multipredict constant c base s ec hne,
        multipredict_branch_weight constant c base hbase]
      rfl
    · rw [predict_or_learn_labelled false constant c base s ec hne,
        labelled_branch_predict_weight constant _ base hbase]
      rfl
  · intro hempty
    rw [predict_or_learn_unlabelled constant c base s ec hempty,
      unlabelled_branch_weight constant c base hbase]
    rfl

/-- The base learners of the examples leave the weight alone. -/
theorem scoring_base_keeps_weight (f : Nat → VWFloat) : keeps_weight (scoring_base f) :=
  ⟨fun _ _ _ => rfl, fun _ _ _ => rfl, fun _ _ _ _ => rfl⟩

/-- C23, on a node with three classes and an example of weight 5: `learn` on
the label with the costs 1, `FLT_MAX` for the classes 1, 3 leaves the weight 0,
on the label with the costs `FLT_MAX`, 1 the weight 1, and `predict` the
weight 5. -/
theorem C23_learn_leaves_weight_of_last_entry_witness :
    (predict_or_learn true 0 node3 (scoring_base scores_312) ()
        (example_of [entry 1, unknown_cost_entry 3])).ec.weight = VWFloat.zero ∧
      (predict_or_learn true 0 node3 (scoring_base scores_312) ()
        (example_of [unknown_cost_entry 1, entry 3])).ec.weight = VWFloat.one ∧
      (predict_or_learn false 0 node3 (scoring_base scores_312) ()
        (example_of [entry 1, unknown_cost_entry 3])).ec.weight = VWFloat.fin 5 :=
  ⟨(C23_learn_leaves_weight_of_last_entry 0 node3 (scoring_base scores_312) ()
      (example_of [entry 1, unknown_cost_entry 3]) (scoring_base_keeps_weight _)).1
      (unknown_cost_entry 3) rfl (by decide),
    (C23_learn_leaves_weight_of_last_entry 0 node3 (scoring_base scores_312) ()
      (example_of [unknown_cost_entry 1, entry 3]) (scoring_base_keeps_weight _)).1
      (entry 3) rfl (by decide),
    (C23_learn_leaves_weight_of_last_entry 0 node3 (scoring_base scores_312) ()
      (example_of [entry 1, unknown_cost_entry 3]) (scoring_base_keeps_weight _)).2.1⟩

end CSOAA
end VW
